import Mathlib

/-! # Reversi kernel module: the rules engine of `reversi.c`

A shallow embedding of the game logic of `src/reversi.c` (the functions `output`, `start`,
`check_adj_cells`, `check_and_flip`, `check_game_end`, `count_pieces`,
`check_for_valid_moves` and the copy step of `reversi_write`), followed by theorems about it.
Device registration, `open`/`release`, the lock and `reversi_read` are left out: a response
is what a read after the write copies out of `kern_buf`.

Modelling conventions.

* The C globals become the fields of `State`; every function takes the part of the state it
  touches and returns the new value of it (explicit state passing).
* A C `char` is a Lean `Char`, a C `int` is an `Int`. The numeric value of a `char` is
  used only in `col = col_c - 48` and `row = row_c - 48`, where a byte above 127 is out of
  the range `0..7` whether `char` is signed or not.
* `gameboard[8][8]` is a function `Int → Int → Char`; every read and write goes through
  `rd` / `wr`, which fail with `Fault.outOfBounds` when an index is outside `0..7`.
* The `while (flag == 0)` loops of `check_and_flip` have no static bound, so they take a fuel
  argument (one unit per iteration) and fail with `Fault.outOfFuel` when it runs out.
-/

namespace Reversi

/-- The two ways in which the embedded code can fail to produce a result. -/
inductive Fault where
  | outOfBounds
  | outOfFuel
  deriving DecidableEq, Repr

/-- The array `char gameboard[8][8]`, indexed by row and column. -/
abbrev Board := Int → Int → Char

/-- Read `gameboard[r][c]`. -/
def rd (g : Board) (r c : Int) : Except Fault Char :=
  if 0 ≤ r ∧ r ≤ 7 ∧ 0 ≤ c ∧ c ≤ 7 then .ok (g r c) else .error .outOfBounds

/-- The board after the assignment `gameboard[r][c] = v` (no bounds test). -/
def Board.set (g : Board) (r c : Int) (v : Char) : Board :=
  fun r' c' => if r' = r ∧ c' = c then v else g r' c'

/-- The assignment `gameboard[r][c] = v`. -/
def wr (g : Board) (r c : Int) (v : Char) : Except Fault Board :=
  if 0 ≤ r ∧ r ≤ 7 ∧ 0 ≤ c ∧ c ≤ 7 then .ok (g.set r c v) else .error .outOfBounds

/-- The first `while (flag == 0)` loop of a branch of `check_and_flip`, started with `i`.
`off i` is the bounds test of the branch (its first `if`), `pos i` the cell the branch reads
in the three `else if`s. The result is the final value of `valid`. When none of the four
conditions holds the C loop repeats with the same `i`. -/
def scan_loop (g : Board) (piece opponent : Char) (off : Int → Bool) (pos : Int → Int × Int) :
    Nat → Int → Except Fault Int
  | 0, _ => .error .outOfFuel
  | fuel + 1, i =>
    if off i then .ok 0
    else
      match rd g (pos i).1 (pos i).2 with
      | .error e => .error e
      | .ok v =>
        if v = '-' then .ok 0
        else if v = piece then .ok 1
        else if v = opponent then scan_loop g piece opponent off pos fuel (i + 1)
        else scan_loop g piece opponent off pos fuel i

/-- The second `while (flag == 0)` loop of a branch of `check_and_flip` (the flip loop),
started with `i`; `pos i` is the cell `gameboard[empty_row ± i][empty_col ± i]` of the
branch. -/
def flip_loop (piece : Char) (pos : Int → Int × Int) : Nat → Board → Int → Except Fault Board
  | 0, _, _ => .error .outOfFuel
  | fuel + 1, g, i =>
    match rd g (pos i).1 (pos i).2 with
    | .error e => .error e
    | .ok v =>
      if v = piece then .ok g
      else
        match wr g (pos i).1 (pos i).2 piece with
        | .error e => .error e
        | .ok g1 => flip_loop piece pos fuel g1 (i + 1)

/-- The body shared by the eight branches of `check_and_flip`: read `check`, run the scan
loop, then either flip (`validate == 0`) or only report (`validate == 1`). The branches
differ in the bounds test `off`, the scanned cell `spos` and the flipped cell `fpos`. -/
def flip_branch (fuel : Nat) (g : Board) (empty_row empty_col opp_row opp_col : Int)
    (piece opponent : Char) (validate : Int)
    (off : Int → Bool) (spos fpos : Int → Int × Int) : Except Fault (Board × Int) :=
  match rd g opp_row opp_col with
  | .error e => .error e
  | .ok _ =>
    match scan_loop g piece opponent off spos fuel 1 with
    | .error e => .error e
    | .ok valid =>
      if validate = 0 then
        if valid = 1 then
          match wr g empty_row empty_col piece with
          | .error e => .error e
          | .ok g1 =>
            match flip_loop piece fpos fuel g1 1 with
            | .error e => .error e
            | .ok g2 => .ok (g2, 1)
        else .ok (g, 0)
      else if validate = 1 then
        if valid = 1 then .ok (g, 1) else .ok (g, 0)
      else .ok (g, 0)

/-- The function `check_and_flip` (reversi.c, lines 587-907): the new board and the
return value. -/
def check_and_flip (fuel : Nat) (g : Board) (empty_row empty_col opp_row opp_col : Int)
    (piece : Char) (validate : Int) : Except Fault (Board × Int) :=
  let opponent : Char := if piece = 'X' then 'O' else 'X'
  if opp_row = empty_row - 1 ∧ opp_col = empty_col - 1 then        -- moving up left
    flip_branch fuel g empty_row empty_col opp_row opp_col piece opponent validate
      (fun i => decide (opp_row - i < 0 ∨ opp_col - i < 0))
      (fun i => (opp_row - i, opp_col - i)) (fun i => (empty_row - i, empty_col - i))
  else if opp_row = empty_row - 1 ∧ opp_col = empty_col + 1 then   -- moving up right
    flip_branch fuel g empty_row empty_col opp_row opp_col piece opponent validate
      (fun i => decide (opp_row - i < 0 ∨ opp_col + i > 7))
      (fun i => (opp_row - i, opp_col + i)) (fun i => (empty_row - i, empty_col + i))
  else if opp_row = empty_row - 1 ∧ opp_col = empty_col then       -- moving up
    flip_branch fuel g empty_row empty_col opp_row opp_col piece opponent validate
      (fun i => decide (opp_row - i < 0))
      (fun i => (opp_row - i, opp_col)) (fun i => (empty_row - i, empty_col))
  else if opp_row = empty_row ∧ opp_col = empty_col - 1 then       -- moving left
    flip_branch fuel g empty_row empty_col opp_row opp_col piece opponent validate
      (fun i => decide (opp_col - i < 0))
      (fun i => (opp_row, opp_col - i)) (fun i => (empty_row, empty_col - i))
  else if opp_row = empty_row ∧ opp_col = empty_col + 1 then       -- moving right
    flip_branch fuel g empty_row empty_col opp_row opp_col piece opponent validate
      (fun i => decide (opp_col + i > 7))
      (fun i => (opp_row, opp_col + i)) (fun i => (empty_row, empty_col + i))
  else if opp_row = empty_row + 1 ∧ opp_col = empty_col - 1 then   -- moving down left
    flip_branch fuel g empty_row empty_col opp_row opp_col piece opponent validate
      (fun i => decide (opp_row + i > 7 ∨ opp_col - i < 0))
      (fun i => (opp_row + i, opp_col - i)) (fun i => (empty_row + i, empty_col - i))
  else if opp_row = empty_row + 1 ∧ opp_col = empty_col then       -- moving down
    flip_branch fuel g empty_row empty_col opp_row opp_col piece opponent validate
      (fun i => decide (opp_row + i > 7))
      (fun i => (opp_row + i, opp_col)) (fun i => (empty_row + i, empty_col))
  else if opp_row = empty_row + 1 ∧ opp_col = empty_col + 1 then   -- moving down right
    flip_branch fuel g empty_row empty_col opp_row opp_col piece opponent validate
      (fun i => decide (opp_row + i > 7 ∨ opp_col + i > 7))
      (fun i => (opp_row + i, opp_col + i)) (fun i => (empty_row + i, empty_col + i))
  else .ok (g, 0)

/-- One of the repeated statements of `check_adj_cells`:
`if (gameboard[orow][ocol] == opponent){ move = check_and_flip(row, col, orow, ocol, piece,
validate); if (move == 1){val = 1;} }`, acting on the board and on `val`. -/
def adj_step (fuel : Nat) (row col : Int) (piece opponent : Char) (validate : Int)
    (orow ocol : Int) (st : Board × Int) : Except Fault (Board × Int) :=
  match rd st.1 orow ocol with
  | .error e => .error e
  | .ok v =>
    if v = opponent then
      match check_and_flip fuel st.1 row col orow ocol piece validate with
      | .error e => .error e
      | .ok (g1, move) => if move = 1 then .ok (g1, 1) else .ok (g1, st.2)
    else .ok st

/-- A block of `adj_step` statements executed in sequence on the listed neighbour cells. -/
def adj_steps (fuel : Nat) (row col : Int) (piece opponent : Char) (validate : Int) :
    List (Int × Int) → Board × Int → Except Fault (Board × Int)
  | [], st => .ok st
  | (orow, ocol) :: rest, st =>
    match adj_step fuel row col piece opponent validate orow ocol st with
    | .error e => .error e
    | .ok st1 => adj_steps fuel row col piece opponent validate rest st1

/-- The function `check_adj_cells` (reversi.c, lines 392-585): the nine cases with the
neighbour cells of each case in the order of the source. Returns the new board and `val`. -/
def check_adj_cells (fuel : Nat) (g : Board) (row col : Int) (piece : Char) (validate : Int) :
    Except Fault (Board × Int) :=
  let opponent : Char := if piece = 'X' then 'O' else 'X'
  let go := fun (cells : List (Int × Int)) =>
    adj_steps fuel row col piece opponent validate cells (g, 0)
  if row = 0 ∧ col = 0 then                       -- top left
    go [(row, col+1), (row+1, col), (row+1, col+1)]
  else if row = 0 ∧ col = 7 then                  -- top right
    go [(row, col-1), (row+1, col-1), (row+1, col)]
  else if row = 0 ∧ col ≠ 0 ∧ col ≠ 7 then        -- top row
    go [(row, col-1), (row, col+1), (row+1, col-1), (row+1, col), (row+1, col+1)]
  else if row = 7 ∧ col = 0 then                  -- bottom left
    go [(row-1, col), (row-1, col+1), (row, col+1)]
  else if row = 7 ∧ col = 7 then                  -- bottom right
    go [(row-1, col-1), (row-1, col), (row, col-1)]
  else if row = 7 ∧ col ≠ 0 ∧ col ≠ 7 then        -- bottom row
    go [(row-1, col-1), (row-1, col), (row-1, col+1), (row, col-1), (row, col+1)]
  else if row ≠ 0 ∧ row ≠ 7 ∧ col = 0 then        -- left-most column
    go [(row-1, col), (row-1, col+1), (row, col+1), (row+1, col), (row+1, col+1)]
  else if row ≠ 0 ∧ row ≠ 7 ∧ col = 7 then        -- right-most column
    go [(row-1, col-1), (row-1, col), (row, col-1), (row+1, col-1), (row+1, col)]
  else                                            -- every other cell
    go [(row-1, col-1), (row-1, col), (row-1, col+1), (row, col-1), (row, col+1),
        (row+1, col-1), (row+1, col), (row+1, col+1)]

/-- The indices `0..7` of a loop `for (i = 0; i < 8; i++)`. -/
def idx8 : List Int := [0, 1, 2, 3, 4, 5, 6, 7]

/-- The 64 cells in the order of the nested loops `for i in 0..7, for j in 0..7`. -/
def cells : List (Int × Int) :=
  idx8.flatMap fun i => idx8.map fun j => (i, j)

/-- The nested loops of `check_for_valid_moves` over the remaining cells `cs`: the first
empty cell with `check_adj_cells(i, j, piece, 1) == 1` returns 1 out of both loops. -/
def valid_moves_loop (fuel : Nat) (piece : Char) :
    List (Int × Int) → Board → Except Fault (Board × Int)
  | [], g => .ok (g, 0)
  | (i, j) :: rest, g =>
    match rd g i j with
    | .error e => .error e
    | .ok v =>
      if v = '-' then
        match check_adj_cells fuel g i j piece 1 with
        | .error e => .error e
        | .ok (g1, check) =>
          if check = 1 then .ok (g1, 1) else valid_moves_loop fuel piece rest g1
      else valid_moves_loop fuel piece rest g

/-- The function `check_for_valid_moves` (reversi.c, lines 959-974). -/
def check_for_valid_moves (fuel : Nat) (g : Board) (piece : Char) : Except Fault (Board × Int) :=
  valid_moves_loop fuel piece cells g

/-- The function `check_game_end` (reversi.c, lines 909-921). -/
def check_game_end (fuel : Nat) (g : Board) (player bot : Char) : Except Fault (Board × Int) :=
  match check_for_valid_moves fuel g player with
  | .error e => .error e
  | .ok (g1, check1) =>
    match check_for_valid_moves fuel g1 bot with
    | .error e => .error e
    | .ok (g2, check2) =>
      if check1 = 1 ∨ check2 = 1 then .ok (g2, 0) else .ok (g2, 1)

/-- The global variables of the module (reversi.c, lines 49-55). -/
structure State where
  kern_buf : List Char
  gameboard : Board
  turn : Char
  player : Char
  bot : Char
  game_flag : Int
  game_print_end : Int

/-- The globals at module load: static storage, all zero. -/
def State.init : State where
  kern_buf := List.replicate 120 '\x00'
  gameboard := fun _ _ => '\x00'
  turn := '\x00'
  player := '\x00'
  bot := '\x00'
  game_flag := 0
  game_print_end := 0

/-- The function `output` (reversi.c, lines 138-149) as a function of `kern_buf`: bytes
`0..length-1` come from `string`, bytes `length..79` are zeroed, the rest is kept. -/
def output (kern_buf : List Char) (string : List Char) (length : Nat) : List Char :=
  string.take length ++ List.replicate (80 - length) '\x00' ++ kern_buf.drop 80

/-- The state after `output(string, length)`. -/
def State.out (s : State) (string : List Char) (length : Nat) : State :=
  { s with kern_buf := output s.kern_buf string length }

/-- The text `INVFMT`. -/
def INVFMT : List Char := ['I', 'N', 'V', 'F', 'M', 'T']
/-- The text `NO GAME`. -/
def NOGAME : List Char := ['N', 'O', ' ', 'G', 'A', 'M', 'E']
/-- The text `OOT`. -/
def OOT : List Char := ['O', 'O', 'T']
/-- The text `ILLMOVE`. -/
def ILLMOVE : List Char := ['I', 'L', 'L', 'M', 'O', 'V', 'E']
/-- The text `OK`. -/
def OK : List Char := ['O', 'K']
/-- The text `WIN`. -/
def WIN : List Char := ['W', 'I', 'N']
/-- The text `LOSE`. -/
def LOSE : List Char := ['L', 'O', 'S', 'E']
/-- The text `TIE`. -/
def TIE : List Char := ['T', 'I', 'E']

/-- The counting loops of `count_pieces` over the remaining cells, on the pair `(X, O)`. -/
def count_loop (g : Board) : List (Int × Int) → Int × Int → Except Fault (Int × Int)
  | [], xo => .ok xo
  | (i, j) :: rest, xo =>
    match rd g i j with
    | .error e => .error e
    | .ok v =>
      if v = 'X' then count_loop g rest (xo.1 + 1, xo.2)
      else if v = 'O' then count_loop g rest (xo.1, xo.2 + 1)
      else count_loop g rest xo

/-- The function `count_pieces` (reversi.c, lines 923-957). -/
def count_pieces (s : State) : Except Fault State :=
  match count_loop s.gameboard cells (0, 0) with
  | .error e => .error e
  | .ok (X, O) =>
    if X > O then
      if s.player = 'O' then .ok (s.out LOSE 4)
      else if s.bot = 'O' then .ok (s.out WIN 3)
      else .ok s
    else if X < O then
      if s.player = 'X' then .ok (s.out LOSE 4)
      else if s.bot = 'O' then .ok (s.out WIN 3)
      else .ok s
    else if X = O then .ok (s.out TIE 3)
    else .ok s

/-- The loops of the print command filling `print_buf[0..63]` from the remaining cells. -/
def print_loop (g : Board) : List (Int × Int) → Except Fault (List Char)
  | [] => .ok []
  | (i, j) :: rest =>
    match rd g i j with
    | .error e => .error e
    | .ok v =>
      match print_loop g rest with
      | .error e => .error e
      | .ok l => .ok (v :: l)

/-- What both move commands do once `check_adj_cells` has returned 1 (reversi.c, lines
292-301 and 338-347): `end = check_game_end()`; if the game is over, `count_pieces()` and
the two flags are set; otherwise `OK` is written and `turn` passes to `next`. -/
def finish_move (fuel : Nat) (s : State) (next : Char) : Except Fault State :=
  match check_game_end fuel s.gameboard s.player s.bot with
  | .error e => .error e
  | .ok (g1, e) =>
    let s1 := { s with gameboard := g1 }
    if e = 1 then
      match count_pieces s1 with
      | .error e => .error e
      | .ok s2 => .ok { s2 with game_flag := 0, game_print_end := 1 }
    else .ok ({ s1 with turn := next }.out OK 2)

/-- The inner loop `for (j ...)` of the bot command in row `i` over the remaining columns;
the result carries the variable `check`. -/
def bot_inner (fuel : Nat) (i : Int) : List Int → State → Int → Except Fault (State × Int)
  | [], s, check => .ok (s, check)
  | j :: js, s, check =>
    match rd s.gameboard i j with
    | .error e => .error e
    | .ok v =>
      if v = '-' then
        match check_adj_cells fuel s.gameboard i j s.turn 0 with
        | .error e => .error e
        | .ok (g1, check1) =>
          let s1 := { s with gameboard := g1 }
          if check1 = 1 then
            match finish_move fuel s1 s1.player with
            | .error e => .error e
            | .ok s2 => .ok (s2, check1)
          else bot_inner fuel i js s1 check1
      else bot_inner fuel i js s check

/-- The outer loop `for (i ...)` of the bot command over the remaining rows, leaving when
`check == 1` after a row. -/
def bot_outer (fuel : Nat) : List Int → State → Int → Except Fault (State × Int)
  | [], s, check => .ok (s, check)
  | i :: is, s, check =>
    match bot_inner fuel i idx8 s check with
    | .error e => .error e
    | .ok (s1, check1) =>
      if check1 = 1 then .ok (s1, check1) else bot_outer fuel is s1 check1

/-- The board `start` sets up for a new game: the loops store `'-'` in all 64 cells, then
the four centre pieces are placed (reversi.c, lines 187-197). -/
def initial_board : Board :=
  Board.set (Board.set (Board.set (Board.set (fun _ _ => '-') 3 3 'O') 3 4 'X') 4 3 'X') 4 4 'O'

/-- The function `start` (reversi.c, lines 151-390), run on a state whose `kern_buf`
already holds the command; the result is the new state and the return value. -/
def start (fuel : Nat) (s : State) (length : Int) : Except Fault (State × Int) :=
  let kb := fun (k : Nat) => s.kern_buf.getD k '\x00'
  if kb 0 ≠ '0' then .ok (s.out INVFMT 6, -1)
  else if length > 7 then .ok (s.out INVFMT 6, -1)
  else if kb 1 = '0' then                              -- start game (00)
    if kb 2 ≠ ' ' then .ok (s.out INVFMT 6, -1)
    else if kb 3 ≠ 'X' ∧ kb 3 ≠ 'O' then .ok (s.out INVFMT 6, -1)
    else
      let player := kb 3
      let bot : Char := if player = 'X' then 'O' else 'X'
      let s1 : State :=
        { s with player := player, bot := bot, turn := 'X', gameboard := initial_board,
                 game_flag := 1, game_print_end := 0 }
      .ok (s1.out OK 2, 0)
  else if kb 1 = '1' then                              -- print board (01)
    if kb 2 ≠ '\n' then .ok (s.out INVFMT 6, -1)
    else if s.game_flag = 0 ∧ s.game_print_end ≠ 1 then .ok (s.out NOGAME 7, -1)
    else
      match print_loop s.gameboard cells with
      | .error e => .error e
      | .ok l => .ok (s.out (l ++ ['\t', s.turn, '\n']) 67, 0)
  else if kb 1 = '2' then                              -- place piece (02)
    if kb 2 ≠ ' ' then .ok (s.out INVFMT 6, -1)
    else if kb 4 ≠ ' ' then .ok (s.out INVFMT 6, -1)
    else if kb 6 ≠ '\n' then .ok (s.out INVFMT 6, -1)
    else if s.turn ≠ s.player then .ok (s.out OOT 3, -1)
    else if s.game_flag = 0 then .ok (s.out NOGAME 7, -1)
    else
      let col : Int := ((kb 3).toNat : Int) - 48
      let row : Int := ((kb 5).toNat : Int) - 48
      if col < 0 ∨ col > 7 then .ok (s.out ILLMOVE 7, 0)
      else if row < 0 ∨ row > 7 then .ok (s.out ILLMOVE 7, 0)
      else
        match rd s.gameboard row col with
        | .error e => .error e
        | .ok v =>
          let placed : Except Fault (State × Int) :=
            if v ≠ '-' then .ok (s.out ILLMOVE 7, 0)
            else
              match check_adj_cells fuel s.gameboard row col s.turn 0 with
              | .error e => .error e
              | .ok (g1, check) => .ok ({ s with gameboard := g1 }, check)
          match placed with
          | .error e => .error e
          | .ok (s1, check) =>
            if check = 0 then .ok (s1.out ILLMOVE 7, 0)
            else
              match finish_move fuel s1 s1.bot with
              | .error e => .error e
              | .ok s2 => .ok (s2, 0)
  else if kb 1 = '3' then                              -- bot move (03)
    if kb 2 ≠ '\n' then .ok (s.out INVFMT 6, -1)
    else if s.turn ≠ s.bot then .ok (s.out OOT 3, -1)
    else if s.game_flag = 0 then .ok (s.out NOGAME 7, -1)
    else
      match bot_outer fuel idx8 s 0 with
      | .error e => .error e
      | .ok (s1, check) =>
        if check = 0 then .ok (s1.out ILLMOVE 7, 0) else .ok (s1, 0)
  else if kb 1 = '4' then                              -- skip turn (04)
    if kb 2 ≠ '\n' then .ok (s.out INVFMT 6, -1)
    else if s.game_flag = 0 then .ok (s.out NOGAME 7, -1)
    else
      match check_for_valid_moves fuel s.gameboard s.turn with
      | .error e => .error e
      | .ok (g1, check) =>
        let s1 := { s with gameboard := g1 }
        if check = 0 then
          let s2 := s1.out OK 2
          if s2.turn = s2.player then .ok ({ s2 with turn := s2.bot }, 0)
          else if s2.turn = s2.bot then .ok ({ s2 with turn := s2.player }, 0)
          else .ok (s2, 0)
        else if check = 1 then .ok (s1.out ILLMOVE 7, 0)
        else .ok (s1, 0)
  else .ok (s, 0)

/-- The function `reversi_write` (reversi.c, lines 122-136) without the lock and the log
line: `count` is capped at 120, the user bytes are copied over the start of `kern_buf`,
and `start(count)` runs. -/
def reversi_write (fuel : Nat) (s : State) (ubuf : List Char) : Except Fault State :=
  let count := min ubuf.length 120
  let s1 := { s with kern_buf := ubuf.take count ++ s.kern_buf.drop count }
  match start fuel s1 count with
  | .error e => .error e
  | .ok (s2, _) => .ok s2

/-- A sequence of writes to the device, one command line each. -/
def run (fuel : Nat) : State → List (List Char) → Except Fault State
  | s, [] => .ok s
  | s, cmd :: rest =>
    match reversi_write fuel s cmd with
    | .error e => .error e
    | .ok s1 => run fuel s1 rest

/-- The response a reader of the device sees: the C string held in `kern_buf`. -/
def response (s : State) : List Char :=
  s.kern_buf.takeWhile (fun ch => ch ≠ '\x00')

/-- The 64 cells of a board as a list, row by row. -/
def Board.toList (g : Board) : List Char :=
  cells.map fun rc => g rc.1 rc.2

/-! ## Specification vocabulary -/

/-- A cell `(r, c)` lies on the 8×8 board. -/
def onBoard (r c : Int) : Prop := 0 ≤ r ∧ r ≤ 7 ∧ 0 ≤ c ∧ c ≤ 7

instance (r c : Int) : Decidable (onBoard r c) :=
  inferInstanceAs (Decidable (0 ≤ r ∧ r ≤ 7 ∧ 0 ≤ c ∧ c ≤ 7))

/-- Every cell of the board holds one of `'-'`, `'X'`, `'O'`. -/
def Board.valid (g : Board) : Prop :=
  ∀ rc ∈ cells, g rc.1 rc.2 = '-' ∨ g rc.1 rc.2 = 'X' ∨ g rc.1 rc.2 = 'O'

instance (g : Board) : Decidable g.valid :=
  inferInstanceAs
    (Decidable (∀ rc ∈ cells, g rc.1 rc.2 = '-' ∨ g rc.1 rc.2 = 'X' ∨ g rc.1 rc.2 = 'O'))

/-- The other colour, computed as `check_adj_cells` and `check_and_flip` compute
`opponent`. -/
def other (p : Char) : Char := if p = 'X' then 'O' else 'X'

/-- The eight unit directions `(dr, dc)`. -/
def dirs : List (Int × Int) :=
  [(-1, -1), (-1, 0), (-1, 1), (0, -1), (0, 1), (1, -1), (1, 0), (1, 1)]

/-- Direction `d` captures a run of length `k` for piece `p` placed at `(r, c)`: `k ≥ 1`, the
cells `(r + i*dr, c + i*dc)` for `1 ≤ i ≤ k` are on the board and hold the opponent's
piece, and the cell with `i = k + 1` is on the board and holds `p`. -/
def captures (g : Board) (r c : Int) (p : Char) (d : Int × Int) (k : Nat) : Prop :=
  1 ≤ k ∧
  (∀ i : Nat, i < k →
    onBoard (r + ((i : Int) + 1) * d.1) (c + ((i : Int) + 1) * d.2) ∧
    g (r + ((i : Int) + 1) * d.1) (c + ((i : Int) + 1) * d.2) = other p) ∧
  onBoard (r + ((k : Int) + 1) * d.1) (c + ((k : Int) + 1) * d.2) ∧
  g (r + ((k : Int) + 1) * d.1) (c + ((k : Int) + 1) * d.2) = p

instance (g : Board) (r c : Int) (p : Char) (d : Int × Int) (k : Nat) :
    Decidable (captures g r c p d k) :=
  inferInstanceAs (Decidable (1 ≤ k ∧
    (∀ i : Nat, i < k →
      onBoard (r + ((i : Int) + 1) * d.1) (c + ((i : Int) + 1) * d.2) ∧
      g (r + ((i : Int) + 1) * d.1) (c + ((i : Int) + 1) * d.2) = other p) ∧
    onBoard (r + ((k : Int) + 1) * d.1) (c + ((k : Int) + 1) * d.2) ∧
    g (r + ((k : Int) + 1) * d.1) (c + ((k : Int) + 1) * d.2) = p))

/-- At least one of the eight directions captures for `p` placed at `(r, c)`. The run
length is bounded by the board size, which loses nothing (`hasCapture_iff`) and makes the
property decidable. -/
def hasCapture (g : Board) (r c : Int) (p : Char) : Prop :=
  ∃ d ∈ dirs, ∃ k : Nat, k < 8 ∧ captures g r c p d k

instance (g : Board) (r c : Int) (p : Char) : Decidable (hasCapture g r c p) :=
  inferInstanceAs (Decidable (∃ d ∈ dirs, ∃ k : Nat, k < 8 ∧ captures g r c p d k))

/-- Cell `(r', c')` belongs to a run captured by `p` placed at `(r, c)`. -/
def inCapturedRun (g : Board) (r c : Int) (p : Char) (r' c' : Int) : Prop :=
  ∃ d ∈ dirs, ∃ k : Nat, captures g r c p d k ∧
    ∃ i : Nat, 1 ≤ i ∧ i ≤ k ∧ r' = r + (i : Int) * d.1 ∧ c' = c + (i : Int) * d.2

/-- Side `p` has a legal move: an empty cell on the board from which some direction
captures. -/
def hasMove (g : Board) (p : Char) : Prop :=
  ∃ rc ∈ cells, g rc.1 rc.2 = '-' ∧ hasCapture g rc.1 rc.2 p

instance (g : Board) (p : Char) : Decidable (hasMove g p) :=
  inferInstanceAs (Decidable (∃ rc ∈ cells, g rc.1 rc.2 = '-' ∧ hasCapture g rc.1 rc.2 p))

/-- The effect of handling direction `d` from `(r, c)` on board `g`: the new board `g'` and
the value `v` reported. Without a capture nothing changes and `v = 0`. With a capture of
length `k`, `v = 1`; in dry-run mode (`validate = 1`) the board is unchanged, in mutating
mode (`validate = 0`) the origin and the `k` cells of the run hold `p` and every other cell
is unchanged. -/
def DirEffect (g : Board) (r c : Int) (p : Char) (d : Int × Int) (validate : Int)
    (g' : Board) (v : Int) : Prop :=
  ((¬ ∃ k : Nat, captures g r c p d k) → g' = g ∧ v = 0) ∧
  (∀ k : Nat, captures g r c p d k → v = 1 ∧
    (validate = 1 → g' = g) ∧
    (validate = 0 → g' r c = p ∧
      (∀ m : Nat, 1 ≤ m → m ≤ k → g' (r + (m : Int) * d.1) (c + (m : Int) * d.2) = p) ∧
      (∀ r' c' : Int, ¬ (r' = r ∧ c' = c) →
        (∀ m : Nat, 1 ≤ m → m ≤ k → ¬ (r' = r + (m : Int) * d.1 ∧ c' = c + (m : Int) * d.2)) →
        g' r' c' = g r' c')))

/-- The accumulated effect of the statements of `check_adj_cells` for the directions `ds`,
run from board `g0` and value `val`, where `g0` agrees with `g` on the rays of `ds`:
`val'` is 1 when `val` was or when one of the directions captures on `g`; in dry-run mode
the board is unchanged; in mutating mode the origin (when some direction captures) and the
captured runs hold `p`, and every other cell is as in `g0`. -/
def AdjEffect (g : Board) (r c : Int) (p : Char) (ds : List (Int × Int)) (validate : Int)
    (g0 : Board) (val : Int) (g' : Board) (val' : Int) : Prop :=
  (val' = 0 ∨ val' = 1) ∧
  (val' = 1 ↔ val = 1 ∨ ∃ d ∈ ds, ∃ k : Nat, captures g r c p d k) ∧
  (validate = 1 → g' = g0) ∧
  (validate = 0 →
    ((∃ d ∈ ds, ∃ k : Nat, captures g r c p d k) → g' r c = p) ∧
    (∀ d ∈ ds, ∀ k : Nat, captures g r c p d k → ∀ m : Nat, 1 ≤ m → m ≤ k →
      g' (r + (m : Int) * d.1) (c + (m : Int) * d.2) = p) ∧
    (∀ r' c' : Int,
      (¬ (r' = r ∧ c' = c) ∨ ¬ ∃ d ∈ ds, ∃ k : Nat, captures g r c p d k) →
      (∀ d ∈ ds, ∀ k : Nat, captures g r c p d k → ∀ m : Nat, 1 ≤ m → m ≤ k →
        ¬ (r' = r + (m : Int) * d.1 ∧ c' = c + (m : Int) * d.2)) →
      g' r' c' = g0 r' c'))

/-- The directions from `(r, c)` whose adjacent cell is on the board, in the order of
`dirs`. -/
def nbrs (r c : Int) : List (Int × Int) :=
  dirs.filter fun d => decide (onBoard (r + d.1) (c + d.2))

/-- Projection of a result of `check_adj_cells` to data that can be compared: the 64 cells
of the new board and the return value. -/
def observe (x : Except Fault (Board × Int)) : Option (List Char × Int) :=
  match x with
  | .ok (g, v) => some (g.toList, v)
  | .error _ => none

/-- The command line `00 <side>\n` (start game). -/
def cmd_start (side : Char) : List Char := ['0', '0', ' ', side, '\n']
/-- The command line `01\n` (print board). -/
def cmd_print : List Char := ['0', '1', '\n']
/-- The command line `02 <col> <row>\n` (place piece): the column comes first, as `start`
reads `kern_buf[3]` into `col` and `kern_buf[5]` into `row`. -/
def cmd_place (col row : Char) : List Char := ['0', '2', ' ', col, ' ', row, '\n']
/-- The command line `03\n` (bot move). -/
def cmd_bot : List Char := ['0', '3', '\n']
/-- The command line `04\n` (skip turn). -/
def cmd_skip : List Char := ['0', '4', '\n']

/-- A game in progress in a well-formed state: the session is active, the board is well
formed, the human's side is `'X'` or `'O'`, the bot has the other colour, and it is the
turn of one of the two. -/
def State.inProgress (s : State) : Prop :=
  s.game_flag = 1 ∧ s.gameboard.valid ∧ (s.player = 'X' ∨ s.player = 'O') ∧
  s.bot = other s.player ∧ (s.turn = s.player ∨ s.turn = s.bot)

instance (s : State) : Decidable s.inProgress :=
  inferInstanceAs (Decidable (s.game_flag = 1 ∧ s.gameboard.valid ∧
    (s.player = 'X' ∨ s.player = 'O') ∧ s.bot = other s.player ∧
    (s.turn = s.player ∨ s.turn = s.bot)))

/-- The state right after `StartGame(side)` issued at module load. -/
def started (side : Char) : State :=
  { kern_buf := output (cmd_start side ++ List.replicate 115 '\x00') OK 2
    gameboard := initial_board
    turn := 'X'
    player := side
    bot := if side = 'X' then 'O' else 'X'
    game_flag := 1
    game_print_end := 0 }

/-- A sequence of writes with the list of the responses read after each of them. -/
def runLog (fuel : Nat) : State → List (List Char) → Except Fault (State × List (List Char))
  | s, [] => .ok (s, [])
  | s, cmd :: rest =>
    match reversi_write fuel s cmd with
    | .error e => .error e
    | .ok s1 =>
      match runLog fuel s1 rest with
      | .error e => .error e
      | .ok (s2, log) => .ok (s2, response s1 :: log)

/-- The value of a computation that did not fault (a default otherwise). -/
def valueOf {α : Type} [Inhabited α] (x : Except Fault α) : α :=
  match x with
  | .ok a => a
  | .error _ => default

/-- The computation did not fault. -/
def isOk {α : Type} (x : Except Fault α) : Bool :=
  match x with
  | .ok _ => true
  | .error _ => false

instance : Inhabited State := ⟨State.init⟩

/-- A response that reports a successful placement: `OK` or a game outcome. -/
def succeeded (resp : List Char) : Bool :=
  decide (resp = OK ∨ resp = WIN ∨ resp = LOSE ∨ resp = TIE)

/-- The number of non-empty cells of a board. -/
def pieces (g : Board) : Nat :=
  (g.toList.filter fun ch => decide (ch ≠ '-')).length

/-- The number of cells of a board holding `ch`. -/
def countOf (g : Board) (ch : Char) : Nat := g.toList.count ch

/-- Thirteen moves of a game in which the human plays `'O'`, issued after
`StartGame('O')`; the bot (`'X'`) moves first. -/
def movesO : List (List Char) :=
  [cmd_bot, cmd_place '4' '2', cmd_bot, cmd_place '2' '4', cmd_bot, cmd_place '6' '2',
   cmd_bot, cmd_place '2' '2', cmd_bot, cmd_place '7' '3', cmd_bot, cmd_place '6' '0',
   cmd_bot]

/-- The human's fourteenth move of that game: `'O'` at column 0, row 2. -/
def lastO : List Char := cmd_place '0' '2'

/-- The state of that game before the human's last move. -/
def beforeLast : State := (valueOf (runLog 7 (started 'O') movesO)).1

/-- The state of that game after the human's last move. -/
def afterLast : State := valueOf (reversi_write 7 beforeLast lastO)

/-- A game with the human on `'X'` that reaches a position in which it is the bot's turn
and the bot (`'O'`) has no legal move, while the human has one. -/
def stuckTrace : List (List Char) :=
  [cmd_start 'X', cmd_place '5' '4', cmd_bot, cmd_place '4' '2', cmd_bot, cmd_place '2' '3',
   cmd_bot, cmd_place '1' '2', cmd_bot, cmd_place '0' '1', cmd_bot, cmd_place '1' '0', cmd_bot,
   cmd_place '0' '3']

/-- The state that game ends in. -/
def stuckState : State := valueOf (run 7 State.init stuckTrace)

/-- The board with all 64 cells empty. -/
def empty_board : Board := fun _ _ => '-'

/-- The game state of `s'` (board, turn, player, bot and the two flags) is that of `s`;
`kern_buf` is not part of it. -/
def sameGame (s s' : State) : Prop :=
  s'.gameboard = s.gameboard ∧ s'.turn = s.turn ∧ s'.player = s.player ∧ s'.bot = s.bot ∧
  s'.game_flag = s.game_flag ∧ s'.game_print_end = s.game_print_end

/-- What the print command puts in `print_buf`: the 64 cells, a tab, `turn`, a newline. -/
def snapshot (s : State) : List Char := s.gameboard.toList ++ ['\t', s.turn, '\n']

/-- One of the four error texts. -/
def isErrorText (l : List Char) : Prop :=
  l = INVFMT ∨ l = NOGAME ∨ l = OOT ∨ l = ILLMOVE

/-- The byte is one of the ASCII digits `'0'..'9'` (codes 48 to 57). -/
def isAsciiDigit (ch : Char) : Prop := 48 ≤ ch.toNat ∧ ch.toNat ≤ 57

instance (ch : Char) : Decidable (isAsciiDigit ch) :=
  inferInstanceAs (Decidable (48 ≤ ch.toNat ∧ ch.toNat ≤ 57))

/-- A board with a byte that is no cell value: row 0 holds `'O'` at column 1 and `'?'` at
column 2, every other cell is empty. -/
def odd_board : Board := Board.set (Board.set empty_board 0 1 'O') 0 2 '?'

/-- A well-formed state: every cell of the board holds `'-'`, `'X'` or `'O'`, the human's
side is `'X'` or `'O'`, the bot has the other colour, and `turn` is one of the two. -/
def State.wellFormed (s : State) : Prop :=
  s.gameboard.valid ∧ (s.player = 'X' ∨ s.player = 'O') ∧ s.bot = other s.player ∧
  (s.turn = s.player ∨ s.turn = s.bot)

instance (s : State) : Decidable s.wellFormed :=
  inferInstanceAs (Decidable (s.gameboard.valid ∧ (s.player = 'X' ∨ s.player = 'O') ∧
    s.bot = other s.player ∧ (s.turn = s.player ∨ s.turn = s.bot)))

/-- The invariant of the command state machine: the state is well formed, `game_flag` is
0 or 1, and while the session is active at least one side has a legal move. -/
def State.playable (s : State) : Prop :=
  s.wellFormed ∧ (s.game_flag = 0 ∨ s.game_flag = 1) ∧
  (s.game_flag ≠ 0 → hasMove s.gameboard s.player ∨ hasMove s.gameboard s.bot)

/-- What `reversi_write` leaves in `kern_buf` before `start` runs: the bytes of the line
(at most 120) over the previous contents of the buffer. -/
def lineBuf (s : State) (ubuf : List Char) : List Char :=
  ubuf.take (min ubuf.length 120) ++ s.kern_buf.drop (min ubuf.length 120)

/-- The format tests of `start` on a buffer `kb` written with `n` bytes, one of them
failing: the first byte is not `'0'`; more than 7 bytes; for opcode `'0'` byte 2 is not a
space or byte 3 is neither `'X'` nor `'O'`; for opcodes `'1'`, `'3'`, `'4'` byte 2 is not a
newline; for opcode `'2'` byte 2 or byte 4 is not a space or byte 6 is not a newline. -/
def failsFormat (kb : List Char) (n : Nat) : Prop :=
  kb.getD 0 '\x00' ≠ '0' ∨ 7 < n ∨
  (kb.getD 1 '\x00' = '0' ∧
    (kb.getD 2 '\x00' ≠ ' ' ∨ (kb.getD 3 '\x00' ≠ 'X' ∧ kb.getD 3 '\x00' ≠ 'O'))) ∨
  ((kb.getD 1 '\x00' = '1' ∨ kb.getD 1 '\x00' = '3' ∨ kb.getD 1 '\x00' = '4') ∧
    kb.getD 2 '\x00' ≠ '\n') ∨
  (kb.getD 1 '\x00' = '2' ∧
    (kb.getD 2 '\x00' ≠ ' ' ∨ kb.getD 4 '\x00' ≠ ' ' ∨ kb.getD 6 '\x00' ≠ '\n'))

instance (kb : List Char) (n : Nat) : Decidable (failsFormat kb n) :=
  inferInstanceAs (Decidable (kb.getD 0 '\x00' ≠ '0' ∨ 7 < n ∨
    (kb.getD 1 '\x00' = '0' ∧
      (kb.getD 2 '\x00' ≠ ' ' ∨ (kb.getD 3 '\x00' ≠ 'X' ∧ kb.getD 3 '\x00' ≠ 'O'))) ∨
    ((kb.getD 1 '\x00' = '1' ∨ kb.getD 1 '\x00' = '3' ∨ kb.getD 1 '\x00' = '4') ∧
      kb.getD 2 '\x00' ≠ '\n') ∨
    (kb.getD 1 '\x00' = '2' ∧
      (kb.getD 2 '\x00' ≠ ' ' ∨ kb.getD 4 '\x00' ≠ ' ' ∨ kb.getD 6 '\x00' ≠ '\n'))))

/-! ## Basic facts -/

theorem other_ne {p : Char} (hp : p = 'X' ∨ p = 'O') : other p ≠ p := by
  rcases hp with rfl | rfl <;> decide

theorem piece_ne_empty {p : Char} (hp : p = 'X' ∨ p = 'O') : p ≠ '-' := by
  rcases hp with rfl | rfl <;> decide

theorem other_ne_empty (p : Char) : other p ≠ '-' := by
  unfold other; split <;> decide

theorem other_piece {p : Char} (hp : p = 'X' ∨ p = 'O') : other p = 'X' ∨ other p = 'O' := by
  rcases hp with rfl | rfl
  · right; decide
  · left; decide

/-- Membership in the list of the 64 cells. -/
theorem mem_cells {r c : Int} : (r, c) ∈ cells ↔ onBoard r c := by
  simp only [cells, idx8, List.mem_flatMap, List.mem_map, List.mem_cons, List.mem_singleton,
    List.not_mem_nil, or_false, Prod.mk.injEq, onBoard]
  constructor
  · rintro ⟨a, ha, b, hb, rfl, rfl⟩
    omega
  · rintro ⟨h1, h2, h3, h4⟩
    exact ⟨r, by omega, c, by omega, rfl, rfl⟩

/-- On a well-formed board every cell of the board holds `'-'`, `'X'` or `'O'`. -/
theorem valid_cell {g : Board} (hg : g.valid) {r c : Int} (h : onBoard r c) :
    g r c = '-' ∨ g r c = 'X' ∨ g r c = 'O' :=
  hg (r, c) (mem_cells.2 h)

theorem valid_of_forall {g : Board}
    (h : ∀ r c : Int, onBoard r c → g r c = '-' ∨ g r c = 'X' ∨ g r c = 'O') : g.valid := by
  rintro ⟨r, c⟩ hrc
  exact h r c (mem_cells.1 hrc)

theorem cell_cases {g : Board} (hg : g.valid) {p : Char} (hp : p = 'X' ∨ p = 'O')
    {r c : Int} (h : onBoard r c) : g r c = '-' ∨ g r c = p ∨ g r c = other p := by
  have hO : other 'O' = 'X' := by decide
  have hX : other 'X' = 'O' := by decide
  rcases valid_cell hg h with h1 | h1 | h1 <;> rcases hp with rfl | rfl <;> simp [h1, hO, hX]

theorem rd_on {g : Board} {r c : Int} (h : onBoard r c) : rd g r c = .ok (g r c) := by
  unfold rd; exact if_pos h

theorem wr_on {g : Board} {r c : Int} (v : Char) (h : onBoard r c) :
    wr g r c v = .ok (g.set r c v) := by
  unfold wr; exact if_pos h

theorem set_same (g : Board) (r c : Int) (v : Char) : g.set r c v r c = v := by
  simp [Board.set]

theorem set_other (g : Board) (r c : Int) (v : Char) {r' c' : Int} (h : ¬ (r' = r ∧ c' = c)) :
    g.set r c v r' c' = g r' c' := by
  simp only [Board.set]; rw [if_neg h]

/-- A direction of `dirs` is a non-zero vector with components in `{-1, 0, 1}`. -/
theorem dirs_unit {d : Int × Int} (hd : d ∈ dirs) :
    -1 ≤ d.1 ∧ d.1 ≤ 1 ∧ -1 ≤ d.2 ∧ d.2 ≤ 1 ∧ (d.1 ≠ 0 ∨ d.2 ≠ 0) := by
  simp only [dirs, List.mem_cons, List.mem_singleton, List.not_mem_nil, or_false] at hd
  rcases hd with rfl | rfl | rfl | rfl | rfl | rfl | rfl | rfl <;> simp

/-! ## The scan loop -/

/-- The cells of a capturing run lie within 6 steps: the terminating cell is on the board. -/
theorem captures_bound {g : Board} {r c : Int} {p : Char} {d : Int × Int} {k : Nat}
    (hrc : onBoard r c) (hd : d ∈ dirs) (h : captures g r c p d k) : k ≤ 6 := by
  obtain ⟨_, _, hon, _⟩ := h
  obtain ⟨h1, h2, h3, h4, h5⟩ := dirs_unit hd
  obtain ⟨a1, a2, a3, a4⟩ := hrc
  obtain ⟨b1, b2, b3, b4⟩ := hon
  by_contra hk
  have hk7 : (7 : Int) ≤ (k : Int) := by omega
  have e1 : d.1 = -1 ∨ d.1 = 0 ∨ d.1 = 1 := by omega
  have e2 : d.2 = -1 ∨ d.2 = 0 ∨ d.2 = 1 := by omega
  rcases e1 with e1 | e1 | e1 <;> rcases e2 with e2 | e2 | e2 <;>
    simp only [e1, e2] at b1 b2 b3 b4 h5 <;> omega

/-- The scan loop of a branch, started at `i` after `i` opponent cells have been seen from
the origin (the adjacent cell and the `i - 1` cells scanned so far): it returns 1 exactly
when the direction captures, and 0 otherwise. -/
theorem scan_loop_spec {g : Board} (hg : g.valid) {p : Char} (hp : p = 'X' ∨ p = 'O')
    {r c : Int} (hrc : onBoard r c) {d : Int × Int} (hd : d ∈ dirs)
    {off : Int → Bool} {pos : Int → Int × Int}
    (hpos : ∀ i : Int, pos i = (r + (i + 1) * d.1, c + (i + 1) * d.2))
    (hoff : ∀ i : Int, 1 ≤ i → (off i = true ↔ ¬ onBoard (pos i).1 (pos i).2)) :
    ∀ (fuel i : Nat), 1 ≤ i → 8 ≤ fuel + i →
      (∀ m : Nat, m < i →
        onBoard (r + ((m : Int) + 1) * d.1) (c + ((m : Int) + 1) * d.2) ∧
        g (r + ((m : Int) + 1) * d.1) (c + ((m : Int) + 1) * d.2) = other p) →
      ∃ v : Int, scan_loop g p (other p) off pos fuel (i : Int) = .ok v ∧
        (v = 0 ∨ v = 1) ∧ (v = 1 ↔ ∃ k : Nat, captures g r c p d k) := by
  intro fuel
  induction fuel with
  | zero =>
    intro i _ h8 hpre
    exfalso
    obtain ⟨hon, _⟩ := hpre 7 (by omega)
    obtain ⟨h1, h2, h3, h4, h5⟩ := dirs_unit hd
    obtain ⟨a1, a2, a3, a4⟩ := hrc
    obtain ⟨b1, b2, b3, b4⟩ := hon
    have e1 : d.1 = -1 ∨ d.1 = 0 ∨ d.1 = 1 := by omega
    have e2 : d.2 = -1 ∨ d.2 = 0 ∨ d.2 = 1 := by omega
    rcases e1 with e1 | e1 | e1 <;> rcases e2 with e2 | e2 | e2 <;>
      simp only [e1, e2] at b1 b2 b3 b4 h5 <;> omega
  | succ fuel ih =>
    intro i hi h8 hpre
    -- no capture of a length different from `i` is compatible with the cell at `i + 1`
    have hnocap : ∀ k : Nat, captures g r c p d k → k < i → False := by
      intro k hk hlt
      obtain ⟨_, _, _, hkp⟩ := hk
      have := (hpre k hlt).2
      rw [hkp] at this
      exact other_ne hp this.symm
    unfold scan_loop
    by_cases ho : off (i : Int) = true
    · rw [if_pos ho]
      refine ⟨0, rfl, Or.inl rfl, ?_⟩
      constructor
      · intro h; exact absurd h (by decide)
      · rintro ⟨k, hk⟩
        exfalso
        have hoffb := (hoff i (by omega)).1 ho
        rw [hpos] at hoffb
        rcases Nat.lt_trichotomy k i with hlt | heq | hgt
        · exact hnocap k hk hlt
        · subst heq; exact hoffb hk.2.2.1
        · exact hoffb (hk.2.1 i hgt).1
    · rw [if_neg ho]
      have hon : onBoard (pos i).1 (pos i).2 := by
        by_contra hcon
        exact ho ((hoff i (by omega)).2 hcon)
      rw [rd_on hon]
      simp only
      have hcell := cell_cases hg hp hon
      rw [hpos] at hon hcell
      rw [hpos]
      simp only
      rcases hcell with he | he | he
      · rw [if_pos he]
        refine ⟨0, rfl, Or.inl rfl, ?_⟩
        constructor
        · intro h; exact absurd h (by decide)
        · rintro ⟨k, hk⟩
          exfalso
          rcases Nat.lt_trichotomy k i with hlt | heq | hgt
          · exact hnocap k hk hlt
          · subst heq
            have := hk.2.2.2
            rw [he] at this
            exact piece_ne_empty hp this.symm
          · have := (hk.2.1 i hgt).2
            rw [he] at this
            exact other_ne_empty p this.symm
      · rw [if_neg (by rw [he]; exact piece_ne_empty hp), if_pos he]
        refine ⟨1, rfl, Or.inr rfl, ?_⟩
        constructor
        · intro _; exact ⟨i, hi, hpre, hon, he⟩
        · intro _; rfl
      · rw [if_neg (by rw [he]; exact other_ne_empty p), if_neg (by rw [he]; exact other_ne hp),
          if_pos he]
        have := ih (i + 1) (by omega) (by omega) (by
          intro m hm
          rcases Nat.lt_or_ge m i with hlt | hge
          · exact hpre m hlt
          · have : m = i := by omega
            subst this
            exact ⟨hon, he⟩)
        simpa using this

/-! ## Rays from a cell -/

/-- Two different multiples of a direction lead to different cells. -/
theorem ray_inj {d : Int × Int} (hd : d ∈ dirs) (r c : Int) {m n : Nat} (hmn : m ≠ n) :
    ¬ (r + (m : Int) * d.1 = r + (n : Int) * d.1 ∧ c + (m : Int) * d.2 = c + (n : Int) * d.2) := by
  obtain ⟨h1, h2, h3, h4, h5⟩ := dirs_unit hd
  have e1 : d.1 = -1 ∨ d.1 = 0 ∨ d.1 = 1 := by omega
  have e2 : d.2 = -1 ∨ d.2 = 0 ∨ d.2 = 1 := by omega
  rintro ⟨a, b⟩
  rcases e1 with e1 | e1 | e1 <;> rcases e2 with e2 | e2 | e2 <;>
    simp only [e1, e2] at a b h5 <;> omega

/-- The rays of two different directions from the same cell do not meet. -/
theorem ray_disjoint {d e : Int × Int} (hd : d ∈ dirs) (he : e ∈ dirs) (hne : d ≠ e)
    (r c : Int) {m n : Nat} (hm : 1 ≤ m) (hn : 1 ≤ n) :
    ¬ (r + (m : Int) * d.1 = r + (n : Int) * e.1 ∧ c + (m : Int) * d.2 = c + (n : Int) * e.2) := by
  simp only [dirs, List.mem_cons, List.mem_singleton, List.not_mem_nil, or_false] at hd he
  rintro ⟨a, b⟩
  rcases hd with rfl | rfl | rfl | rfl | rfl | rfl | rfl | rfl <;>
    rcases he with rfl | rfl | rfl | rfl | rfl | rfl | rfl | rfl <;>
    first
      | exact hne rfl
      | (simp only at a b; omega)

/-- A ray does not come back to its origin. -/
theorem ray_ne_origin {d : Int × Int} (hd : d ∈ dirs) (r c : Int) {m : Nat} (hm : 1 ≤ m) :
    ¬ (r + (m : Int) * d.1 = r ∧ c + (m : Int) * d.2 = c) := by
  have := ray_inj hd r c (m := m) (n := 0) (by omega)
  simpa using this

/-! ## The flip loop -/

/-- The flip loop started at step `i`, when the cells at steps `i..k` of the ray do not hold
`p` and the cell at step `k + 1` does: it terminates, sets exactly the cells at steps
`i..k` to `p` and changes nothing else. -/
theorem flip_loop_spec {p : Char} {r c : Int} {d : Int × Int} (hd : d ∈ dirs)
    {pos : Int → Int × Int} (hpos : ∀ i : Int, pos i = (r + i * d.1, c + i * d.2)) (k : Nat) :
    ∀ (n fuel i : Nat) (g : Board), i + n = k + 1 → n + 1 ≤ fuel →
      (∀ m : Nat, i ≤ m → m ≤ k →
        onBoard (r + (m : Int) * d.1) (c + (m : Int) * d.2) ∧
        g (r + (m : Int) * d.1) (c + (m : Int) * d.2) ≠ p) →
      onBoard (r + ((k : Int) + 1) * d.1) (c + ((k : Int) + 1) * d.2) →
      g (r + ((k : Int) + 1) * d.1) (c + ((k : Int) + 1) * d.2) = p →
      ∃ g' : Board, flip_loop p pos fuel g (i : Int) = .ok g' ∧
        (∀ m : Nat, i ≤ m → m ≤ k → g' (r + (m : Int) * d.1) (c + (m : Int) * d.2) = p) ∧
        (∀ r' c' : Int,
          (∀ m : Nat, i ≤ m → m ≤ k → ¬ (r' = r + (m : Int) * d.1 ∧ c' = c + (m : Int) * d.2)) →
          g' r' c' = g r' c') := by
  intro n
  induction n with
  | zero =>
    intro fuel i g hik hf _ hon hp
    obtain ⟨fuel, rfl⟩ : ∃ f, fuel = f + 1 := ⟨fuel - 1, by omega⟩
    have hi : (i : Int) = (k : Int) + 1 := by omega
    unfold flip_loop
    rw [hpos, hi]
    simp only
    rw [rd_on hon]
    simp only
    rw [if_pos hp]
    refine ⟨g, rfl, ?_, fun _ _ _ => rfl⟩
    intro m h1 h2
    omega
  | succ n ih =>
    intro fuel i g hik hf hrun hon hp
    obtain ⟨fuel, rfl⟩ : ∃ f, fuel = f + 1 := ⟨fuel - 1, by omega⟩
    obtain ⟨hci, hcp⟩ := hrun i (le_refl i) (by omega)
    unfold flip_loop
    rw [hpos]
    simp only
    rw [rd_on hci]
    simp only
    rw [if_neg hcp, wr_on p hci]
    simp only
    have hk1 : ((k : Int) + 1) = ((k + 1 : Nat) : Int) := by push_cast; ring
    obtain ⟨g', hg', hset, hframe⟩ := ih fuel (i + 1)
      (g.set (r + (i : Int) * d.1) (c + (i : Int) * d.2) p) (by omega) (by omega)
      (by
        intro m h1 h2
        refine ⟨(hrun m (by omega) h2).1, ?_⟩
        rw [set_other _ _ _ _ (ray_inj hd r c (by omega))]
        exact (hrun m (by omega) h2).2)
      hon
      (by
        rw [hk1, set_other _ _ _ _ (ray_inj hd r c (by omega)), ← hk1]
        exact hp)
    refine ⟨g', ?_, ?_, ?_⟩
    · rw [← hg']; push_cast; rfl
    · intro m h1 h2
      rcases Nat.eq_or_lt_of_le h1 with heq | hlt
      · subst heq
        rw [hframe _ _ (fun m' h1' _ => by
          have := ray_inj hd r c (m := i) (n := m') (by omega)
          exact this)]
        exact set_same _ _ _ _
      · exact hset m hlt h2
    · intro r' c' hout
      rw [hframe r' c' (fun m h1 h2 => hout m (by omega) h2)]
      exact set_other _ _ _ _ (hout i (le_refl i) (by omega))

/-! ## One direction: `check_and_flip` -/

/-- The length of the captured run of a direction is determined by the board. -/
theorem captures_unique {g : Board} {r c : Int} {p : Char} (hp : p = 'X' ∨ p = 'O')
    {d : Int × Int} {k k' : Nat} (h : captures g r c p d k) (h' : captures g r c p d k') :
    k = k' := by
  rcases Nat.lt_trichotomy k k' with hlt | heq | hgt
  · exfalso
    have h1 := (h'.2.1 k hlt).2
    rw [h.2.2.2] at h1
    exact other_ne hp h1.symm
  · exact heq
  · exfalso
    have h1 := (h.2.1 k' hgt).2
    rw [h'.2.2.2] at h1
    exact other_ne hp h1.symm

/-- A branch of `check_and_flip` whose bounds test and cell expressions follow direction
`d`, entered with an opponent piece on the adjacent cell, has the effect `DirEffect`. -/
theorem flip_branch_spec {g : Board} (hg : g.valid) {p : Char} (hp : p = 'X' ∨ p = 'O')
    {r c : Int} (hrc : onBoard r c) {d : Int × Int} (hd : d ∈ dirs)
    (hnb : onBoard (r + d.1) (c + d.2)) (hopp : g (r + d.1) (c + d.2) = other p)
    {validate : Int} (hv : validate = 0 ∨ validate = 1) {fuel : Nat} (hfuel : 7 ≤ fuel)
    {off : Int → Bool} {spos fpos : Int → Int × Int}
    (hspos : ∀ i : Int, spos i = (r + (i + 1) * d.1, c + (i + 1) * d.2))
    (hfpos : ∀ i : Int, fpos i = (r + i * d.1, c + i * d.2))
    (hoff : ∀ i : Int, 1 ≤ i → (off i = true ↔ ¬ onBoard (spos i).1 (spos i).2)) :
    ∃ (g' : Board) (v : Int),
      flip_branch fuel g r c (r + d.1) (c + d.2) p (other p) validate off spos fpos = .ok (g', v) ∧
      DirEffect g r c p d validate g' v := by
  unfold flip_branch
  rw [rd_on hnb]
  simp only
  obtain ⟨v, hscan, hv01, hviff⟩ := scan_loop_spec hg hp hrc hd hspos hoff fuel 1 (le_refl 1)
    (by omega) (by
      intro m hm
      have : m = 0 := by omega
      subst this
      simpa using And.intro hnb hopp)
  have hscan' : scan_loop g p (other p) off spos fuel 1 = .ok v := by simpa using hscan
  rw [hscan']
  simp only
  rcases hv01 with hv0 | hv1
  · -- no capture in this direction
    subst hv0
    have hno : ¬ ∃ k : Nat, captures g r c p d k := fun h => absurd (hviff.2 h) (by decide)
    have hres : (if validate = 0 then
          if (0 : Int) = 1 then
            match wr g r c p with
            | .error e => .error e
            | .ok g1 =>
              match flip_loop p fpos fuel g1 1 with
              | .error e => .error e
              | .ok g2 => Except.ok (g2, (1 : Int))
          else Except.ok (g, 0)
        else if validate = 1 then if (0 : Int) = 1 then Except.ok (g, 1) else Except.ok (g, 0)
        else Except.ok (g, 0)) = (Except.ok (g, 0) : Except Fault (Board × Int)) := by
      rcases hv with h | h <;> simp [h]
    rw [hres]
    exact ⟨g, 0, rfl, fun _ => ⟨rfl, rfl⟩, fun k hk => absurd ⟨k, hk⟩ hno⟩
  · subst hv1
    obtain ⟨k, hk⟩ := hviff.1 rfl
    rcases hv with h | h
    · -- mutating mode
      subst h
      simp only [if_true]
      rw [wr_on p hrc]
      simp only
      have hk6 := captures_bound hrc hd hk
      obtain ⟨g', hflip, hset, hframe⟩ := flip_loop_spec (p := p) hd hfpos k k fuel 1
        (g.set r c p) (by omega) (by omega)
        (by
          intro m h1 h2
          obtain ⟨hon, hval⟩ := hk.2.1 (m - 1) (by omega)
          have hm : ((m - 1 : Nat) : Int) + 1 = (m : Int) := by omega
          rw [hm] at hon hval
          refine ⟨hon, ?_⟩
          rw [set_other _ _ _ _ (ray_ne_origin hd r c h1), hval]
          exact other_ne hp)
        hk.2.2.1
        (by
          have hk1 : ((k : Int) + 1) = ((k + 1 : Nat) : Int) := by push_cast; ring
          rw [hk1, set_other _ _ _ _ (ray_ne_origin hd r c (by omega)), ← hk1]
          exact hk.2.2.2)
      have hflip' : flip_loop p fpos fuel (g.set r c p) 1 = .ok g' := by simpa using hflip
      rw [hflip']
      refine ⟨g', 1, rfl, fun hno => absurd ⟨k, hk⟩ hno, ?_⟩
      intro k' hk'
      have hkk : k' = k := captures_unique hp hk' hk
      subst hkk
      refine ⟨rfl, fun h => absurd h (by decide), fun _ => ⟨?_, hset, ?_⟩⟩
      · rw [hframe r c (fun m h1 _ => by
          intro hh
          exact ray_ne_origin hd r c h1 ⟨hh.1.symm, hh.2.symm⟩)]
        exact set_same _ _ _ _
      · intro r' c' hne hout
        rw [hframe r' c' hout]
        exact set_other _ _ _ _ hne
    · -- dry run
      subst h
      simp only [if_true]
      refine ⟨g, 1, by simp, fun hno => absurd ⟨k, hk⟩ hno, ?_⟩
      intro k' _
      exact ⟨rfl, fun _ => rfl, fun h => absurd h (by decide)⟩

/-- The function `check_and_flip` called on the neighbour of `(r, c)` in direction `d`, when
that neighbour holds an opponent piece: each of its eight unrolled branches has the effect
`DirEffect` of its direction. -/
theorem check_and_flip_spec {g : Board} (hg : g.valid) {p : Char} (hp : p = 'X' ∨ p = 'O')
    {r c : Int} (hrc : onBoard r c) {d : Int × Int} (hd : d ∈ dirs)
    (hnb : onBoard (r + d.1) (c + d.2)) (hopp : g (r + d.1) (c + d.2) = other p)
    {validate : Int} (hv : validate = 0 ∨ validate = 1) {fuel : Nat} (hfuel : 7 ≤ fuel) :
    ∃ (g' : Board) (v : Int),
      check_and_flip fuel g r c (r + d.1) (c + d.2) p validate = .ok (g', v) ∧
      DirEffect g r c p d validate g' v := by
  have hd' := hd
  simp only [dirs, List.mem_cons, List.mem_singleton, List.not_mem_nil, or_false] at hd'
  obtain ⟨a1, a2, a3, a4⟩ := hrc
  have hrc : onBoard r c := ⟨a1, a2, a3, a4⟩
  unfold check_and_flip
  rcases hd' with rfl | rfl | rfl | rfl | rfl | rfl | rfl | rfl
  · -- moving up left
    rw [if_pos (by omega)]
    refine flip_branch_spec hg hp hrc hd hnb hopp hv hfuel ?_ ?_ ?_
    · intro i; simp only [Prod.mk.injEq]; constructor <;> ring
    · intro i; simp only [Prod.mk.injEq]; constructor <;> ring
    · intro i hi
      simp only [onBoard, decide_eq_true_eq]
      omega
  · -- moving up
    rw [if_neg (by omega), if_neg (by omega)]
    rw [if_pos (by omega)]
    refine flip_branch_spec hg hp hrc hd hnb hopp hv hfuel ?_ ?_ ?_
    · intro i; simp only [Prod.mk.injEq]; constructor <;> ring
    · intro i; simp only [Prod.mk.injEq]; constructor <;> ring
    · intro i hi
      simp only [onBoard, decide_eq_true_eq]
      omega
  · -- moving up right
    rw [if_neg (by omega)]
    rw [if_pos (by omega)]
    refine flip_branch_spec hg hp hrc hd hnb hopp hv hfuel ?_ ?_ ?_
    · intro i; simp only [Prod.mk.injEq]; constructor <;> ring
    · intro i; simp only [Prod.mk.injEq]; constructor <;> ring
    · intro i hi
      simp only [onBoard, decide_eq_true_eq]
      omega
  · -- moving left
    rw [if_neg (by omega), if_neg (by omega)]
    rw [if_neg (by omega)]
    rw [if_pos (by omega)]
    refine flip_branch_spec hg hp hrc hd hnb hopp hv hfuel ?_ ?_ ?_
    · intro i; simp only [Prod.mk.injEq]; constructor <;> ring
    · intro i; simp only [Prod.mk.injEq]; constructor <;> ring
    · intro i hi
      simp only [onBoard, decide_eq_true_eq]
      omega
  · -- moving right
    rw [if_neg (by omega), if_neg (by omega)]
    rw [if_neg (by omega), if_neg (by omega)]
    rw [if_pos (by omega)]
    refine flip_branch_spec hg hp hrc hd hnb hopp hv hfuel ?_ ?_ ?_
    · intro i; simp only [Prod.mk.injEq]; constructor <;> ring
    · intro i; simp only [Prod.mk.injEq]; constructor <;> ring
    · intro i hi
      simp only [onBoard, decide_eq_true_eq]
      omega
  · -- moving down left
    rw [if_neg (by omega), if_neg (by omega)]
    rw [if_neg (by omega), if_neg (by omega)]
    rw [if_neg (by omega)]
    rw [if_pos (by omega)]
    refine flip_branch_spec hg hp hrc hd hnb hopp hv hfuel ?_ ?_ ?_
    · intro i; simp only [Prod.mk.injEq]; constructor <;> ring
    · intro i; simp only [Prod.mk.injEq]; constructor <;> ring
    · intro i hi
      simp only [onBoard, decide_eq_true_eq]
      omega
  · -- moving down
    rw [if_neg (by omega), if_neg (by omega)]
    rw [if_neg (by omega), if_neg (by omega)]
    rw [if_neg (by omega), if_neg (by omega)]
    rw [if_pos (by omega)]
    refine flip_branch_spec hg hp hrc hd hnb hopp hv hfuel ?_ ?_ ?_
    · intro i; simp only [Prod.mk.injEq]; constructor <;> ring
    · intro i; simp only [Prod.mk.injEq]; constructor <;> ring
    · intro i hi
      simp only [onBoard, decide_eq_true_eq]
      omega
  · -- moving down right
    rw [if_neg (by omega), if_neg (by omega)]
    rw [if_neg (by omega), if_neg (by omega)]
    rw [if_neg (by omega), if_neg (by omega)]
    rw [if_neg (by omega)]
    rw [if_pos (by omega)]
    refine flip_branch_spec hg hp hrc hd hnb hopp hv hfuel ?_ ?_ ?_
    · intro i; simp only [Prod.mk.injEq]; constructor <;> ring
    · intro i; simp only [Prod.mk.injEq]; constructor <;> ring
    · intro i hi
      simp only [onBoard, decide_eq_true_eq]
      omega

/-- A capture in direction `d` starts on the adjacent cell, which holds the opponent. -/
theorem captures_first {g : Board} {r c : Int} {p : Char} {d : Int × Int} {k : Nat}
    (h : captures g r c p d k) :
    onBoard (r + d.1) (c + d.2) ∧ g (r + d.1) (c + d.2) = other p := by
  have := h.2.1 0 h.1
  simpa using this

/-- Whether a direction captures depends only on the cells of its ray. -/
theorem captures_congr {g g' : Board} {r c : Int} {p : Char} {d : Int × Int}
    (h : ∀ i : Nat, g' (r + ((i : Int) + 1) * d.1) (c + ((i : Int) + 1) * d.2) =
      g (r + ((i : Int) + 1) * d.1) (c + ((i : Int) + 1) * d.2)) (k : Nat) :
    captures g' r c p d k ↔ captures g r c p d k := by
  unfold captures
  simp only [h]

/-- The value reported for a direction tells whether it captures. -/
theorem DirEffect.val_iff {g g' : Board} {r c : Int} {p : Char} {d : Int × Int}
    {validate v : Int} (h : DirEffect g r c p d validate g' v) :
    (v = 0 ∨ v = 1) ∧ (v = 1 ↔ ∃ k : Nat, captures g r c p d k) := by
  by_cases hc : ∃ k : Nat, captures g r c p d k
  · obtain ⟨k, hk⟩ := hc
    have := (h.2 k hk).1
    exact ⟨Or.inr this, fun _ => ⟨k, hk⟩, fun _ => this⟩
  · have := (h.1 hc).2
    exact ⟨Or.inl this, fun h1 => by rw [this] at h1; exact absurd h1 (by decide),
      fun h1 => absurd h1 hc⟩

/-- In dry-run mode a direction leaves the board as it is. -/
theorem DirEffect.dry {g g' : Board} {r c : Int} {p : Char} {d : Int × Int}
    {v : Int} (h : DirEffect g r c p d 1 g' v) : g' = g := by
  by_cases hc : ∃ k : Nat, captures g r c p d k
  · obtain ⟨k, hk⟩ := hc
    exact (h.2 k hk).2.1 rfl
  · exact (h.1 hc).1

/-- A direction changes no cell other than the origin and the cells of its own ray. -/
theorem DirEffect.frame {g g' : Board} {r c : Int} {p : Char} {d : Int × Int}
    {validate v : Int} (hv : validate = 0 ∨ validate = 1)
    (h : DirEffect g r c p d validate g' v) {r' c' : Int}
    (hne : ¬ (r' = r ∧ c' = c))
    (hray : ∀ m : Nat, 1 ≤ m → ¬ (r' = r + (m : Int) * d.1 ∧ c' = c + (m : Int) * d.2)) :
    g' r' c' = g r' c' := by
  by_cases hc : ∃ k : Nat, captures g r c p d k
  · obtain ⟨k, hk⟩ := hc
    rcases hv with hv | hv
    · exact ((h.2 k hk).2.2 hv).2.2 r' c' hne (fun m h1 _ => hray m h1)
    · rw [(h.2 k hk).2.1 hv]
  · rw [(h.1 hc).1]

/-- Every cell after a direction was handled holds `p` or what it held before. -/
theorem DirEffect.cell {g g' : Board} {r c : Int} {p : Char} {d : Int × Int}
    {validate v : Int} (hv : validate = 0 ∨ validate = 1)
    (h : DirEffect g r c p d validate g' v) (r' c' : Int) :
    g' r' c' = p ∨ g' r' c' = g r' c' := by
  by_cases hc : ∃ k : Nat, captures g r c p d k
  · obtain ⟨k, hk⟩ := hc
    rcases hv with hv | hv
    · obtain ⟨ho, hrun, hfr⟩ := (h.2 k hk).2.2 hv
      by_cases hne : r' = r ∧ c' = c
      · left; rw [hne.1, hne.2]; exact ho
      · by_cases hin : ∃ m : Nat, 1 ≤ m ∧ m ≤ k ∧ r' = r + (m : Int) * d.1 ∧ c' = c + (m : Int) * d.2
        · obtain ⟨m, h1, h2, h3, h4⟩ := hin
          left; rw [h3, h4]; exact hrun m h1 h2
        · right
          exact hfr r' c' hne (fun m h1 h2 hh => hin ⟨m, h1, h2, hh.1, hh.2⟩)
    · right; rw [(h.2 k hk).2.1 hv]
  · right; rw [(h.1 hc).1]

/-- Handling a direction keeps the board well formed. -/
theorem DirEffect.valid {g g' : Board} {r c : Int} {p : Char} {d : Int × Int}
    {validate v : Int} (hv : validate = 0 ∨ validate = 1) (hp : p = 'X' ∨ p = 'O')
    (hg : g.valid) (h : DirEffect g r c p d validate g' v) : g'.valid := by
  apply valid_of_forall
  intro r' c' hon
  rcases h.cell hv r' c' with h1 | h1
  · rw [h1]; exact Or.inr hp
  · rw [h1]; exact valid_cell hg hon

/-- One statement of `check_adj_cells` for the neighbour in direction `d`: the direction is
handled with effect `DirEffect`, and `val` becomes 1 when the direction reports 1. -/
theorem adj_step_spec {g : Board} (hg : g.valid) {p : Char} (hp : p = 'X' ∨ p = 'O')
    {r c : Int} (hrc : onBoard r c) {d : Int × Int} (hd : d ∈ dirs)
    (hnb : onBoard (r + d.1) (c + d.2))
    {validate : Int} (hv : validate = 0 ∨ validate = 1) {fuel : Nat} (hfuel : 7 ≤ fuel)
    (val : Int) :
    ∃ (g' : Board) (w : Int),
      adj_step fuel r c p (other p) validate (r + d.1) (c + d.2) (g, val) =
        .ok (g', if w = 1 then 1 else val) ∧
      DirEffect g r c p d validate g' w := by
  unfold adj_step
  simp only
  rw [rd_on hnb]
  simp only
  by_cases hopp : g (r + d.1) (c + d.2) = other p
  · rw [if_pos hopp]
    obtain ⟨g', w, hcf, heff⟩ := check_and_flip_spec hg hp hrc hd hnb hopp hv hfuel
    rw [hcf]
    simp only
    refine ⟨g', w, ?_, heff⟩
    split <;> rfl
  · rw [if_neg hopp]
    refine ⟨g, 0, by simp, fun _ => ⟨rfl, rfl⟩, fun k hk => ?_⟩
    exact absurd (captures_first hk).2 hopp

/-! ## All directions: `check_adj_cells` -/

/-- The statements of `check_adj_cells` for a list of distinct directions whose neighbour
cells are on the board run without fault and have the effect `AdjEffect`. -/
theorem adj_steps_spec {g : Board} {p : Char} (hp : p = 'X' ∨ p = 'O')
    {r c : Int} (hrc : onBoard r c)
    {validate : Int} (hv : validate = 0 ∨ validate = 1) {fuel : Nat} (hfuel : 7 ≤ fuel) :
    ∀ (ds : List (Int × Int)) (g0 : Board) (val : Int), g0.valid → (val = 0 ∨ val = 1) →
      (∀ d ∈ ds, d ∈ dirs ∧ onBoard (r + d.1) (c + d.2)) → ds.Nodup →
      (∀ d ∈ ds, ∀ i : Nat, g0 (r + ((i : Int) + 1) * d.1) (c + ((i : Int) + 1) * d.2) =
        g (r + ((i : Int) + 1) * d.1) (c + ((i : Int) + 1) * d.2)) →
      ∃ (g' : Board) (val' : Int),
        adj_steps fuel r c p (other p) validate (ds.map fun d => (r + d.1, c + d.2)) (g0, val)
          = .ok (g', val') ∧
        AdjEffect g r c p ds validate g0 val g' val' ∧ g'.valid := by
  intro ds
  induction ds with
  | nil =>
    intro g0 val hg0 hval _ _ _
    refine ⟨g0, val, rfl, ⟨hval, by simp, fun _ => rfl, fun _ => ⟨by simp, by simp, ?_⟩⟩, hg0⟩
    intro r' c' _ _
    rfl
  | cons d rest ih =>
    intro g0 val hg0 hval hds hnd hray
    have hd := hds d (List.mem_cons_self _ _)
    obtain ⟨g1, w, hstep, heff⟩ := adj_step_spec hg0 hp hrc hd.1 hd.2 hv hfuel val
    have hcap : ∀ k : Nat, captures g0 r c p d k ↔ captures g r c p d k :=
      captures_congr (hray d (List.mem_cons_self _ _))
    obtain ⟨hw01, hwiff⟩ := heff.val_iff
    have hg1 : g1.valid := heff.valid hv hp hg0
    have hnd' := List.nodup_cons.1 hnd
    have hval1 : (if w = 1 then (1 : Int) else val) = 0 ∨ (if w = 1 then (1 : Int) else val) = 1 := by
      split
      · exact Or.inr rfl
      · exact hval
    have hfr1 : ∀ d' ∈ rest, ∀ i : Nat,
        g1 (r + ((i : Int) + 1) * d'.1) (c + ((i : Int) + 1) * d'.2) =
        g0 (r + ((i : Int) + 1) * d'.1) (c + ((i : Int) + 1) * d'.2) := by
      intro d' hd' i
      have hd'dirs := (hds d' (List.mem_cons_of_mem _ hd')).1
      have hne : d' ≠ d := fun h => hnd'.1 (h ▸ hd')
      apply heff.frame hv
      · have := ray_ne_origin hd'dirs r c (m := i + 1) (by omega)
        push_cast at this
        exact this
      · intro m hm
        have := ray_disjoint hd'dirs hd.1 hne r c (m := i + 1) (n := m) (by omega) hm
        push_cast at this
        exact this
    obtain ⟨g', val', hrun, hadj, hg'⟩ := ih g1 (if w = 1 then 1 else val) hg1 hval1
      (fun d' hd' => hds d' (List.mem_cons_of_mem _ hd')) hnd'.2
      (fun d' hd' i => by rw [hfr1 d' hd' i]; exact hray d' (List.mem_cons_of_mem _ hd') i)
    refine ⟨g', val', ?_, ?_, hg'⟩
    · simp only [List.map_cons, adj_steps]
      rw [hstep]
      exact hrun
    obtain ⟨h01, hiff, hdry, hmut⟩ := hadj
    have hwcap : w = 1 ↔ ∃ k : Nat, captures g r c p d k := by
      rw [hwiff]
      constructor
      · rintro ⟨k, hk⟩; exact ⟨k, (hcap k).1 hk⟩
      · rintro ⟨k, hk⟩; exact ⟨k, (hcap k).2 hk⟩
    refine ⟨h01, ?_, ?_, ?_⟩
    · rw [hiff]
      constructor
      · rintro (h | ⟨d', hd', hk⟩)
        · by_cases hw : w = 1
          · exact Or.inr ⟨d, List.mem_cons_self _ _, hwcap.1 hw⟩
          · rw [if_neg hw] at h; exact Or.inl h
        · exact Or.inr ⟨d', List.mem_cons_of_mem _ hd', hk⟩
      · rintro (h | ⟨d', hd', hk⟩)
        · by_cases hw : w = 1
          · left; rw [if_pos hw]
          · left; rw [if_neg hw]; exact h
        · rcases List.mem_cons.1 hd' with heq | hmem
          · subst heq
            left; rw [if_pos (hwcap.2 hk)]
          · exact Or.inr ⟨d', hmem, hk⟩
    · intro hv1
      rw [hdry hv1]
      subst hv1
      exact heff.dry
    · intro hv0
      obtain ⟨horig, hruns, hframe⟩ := hmut hv0
      refine ⟨?_, ?_, ?_⟩
      · rintro ⟨d', hd', k, hk⟩
        by_cases hrest : ∃ d ∈ rest, ∃ k : Nat, captures g r c p d k
        · exact horig hrest
        · rw [hframe r c (Or.inr hrest) (fun d'' hd'' k'' hk'' => absurd ⟨d'', hd'', k'', hk''⟩ hrest)]
          rcases List.mem_cons.1 hd' with heq | hmem
          · subst heq
            exact ((heff.2 k ((hcap k).2 hk)).2.2 hv0).1
          · exact absurd ⟨d', hmem, k, hk⟩ hrest
      · intro d' hd' k hk m h1 h2
        rcases List.mem_cons.1 hd' with heq | hmem
        · subst heq
          rw [hframe _ _ (Or.inl (ray_ne_origin hd.1 r c h1))]
          · exact ((heff.2 k ((hcap k).2 hk)).2.2 hv0).2.1 m h1 h2
          · intro d'' hd'' k'' _ m'' h1'' _
            have hne : d' ≠ d'' := fun h => hnd'.1 (h ▸ hd'')
            exact ray_disjoint hd.1 (hds d'' (List.mem_cons_of_mem _ hd'')).1 hne r c h1 h1''
        · exact hruns d' hmem k hk m h1 h2
      · intro r' c' hne hout
        rw [hframe r' c'
          (by
            rcases hne with h | h
            · exact Or.inl h
            · exact Or.inr (fun ⟨d', hd', hk⟩ => h ⟨d', List.mem_cons_of_mem _ hd', hk⟩))
          (fun d' hd' k hk => hout d' (List.mem_cons_of_mem _ hd') k hk)]
        by_cases hc : ∃ k : Nat, captures g r c p d k
        · obtain ⟨k, hk⟩ := hc
          have hno : ¬ (r' = r ∧ c' = c) := by
            rcases hne with h | h
            · exact h
            · exact absurd ⟨d, List.mem_cons_self _ _, k, hk⟩ h
          exact ((heff.2 k ((hcap k).2 hk)).2.2 hv0).2.2 r' c' hno
            (hout d (List.mem_cons_self _ _) k hk)
        · have : ¬ ∃ k : Nat, captures g0 r c p d k := fun ⟨k, hk⟩ => hc ⟨k, (hcap k).1 hk⟩
          rw [(heff.1 this).1]

/-- The nine cases of `check_adj_cells` list, for a cell on the board, exactly the
neighbours that are on the board, in the order of `dirs`. -/
theorem check_adj_cells_eq (fuel : Nat) (g : Board) {r c : Int} (hrc : onBoard r c)
    (p : Char) (validate : Int) :
    check_adj_cells fuel g r c p validate =
      adj_steps fuel r c p (other p) validate ((nbrs r c).map fun d => (r + d.1, c + d.2))
        (g, 0) := by
  obtain ⟨h1, h2, h3, h4⟩ := hrc
  interval_cases r <;> interval_cases c <;> rfl

theorem dirs_nodup : dirs.Nodup := by decide

/-- The effect of `check_adj_cells` in either mode on a well-formed board, for a cell on
the board: the result of the eight directions taken together. -/
theorem check_adj_cells_spec {g : Board} (hg : g.valid) {p : Char} (hp : p = 'X' ∨ p = 'O')
    {r c : Int} (hrc : onBoard r c)
    {validate : Int} (hv : validate = 0 ∨ validate = 1) {fuel : Nat} (hfuel : 7 ≤ fuel) :
    ∃ (g' : Board) (v : Int),
      check_adj_cells fuel g r c p validate = .ok (g', v) ∧
      AdjEffect g r c p dirs validate g 0 g' v ∧ g'.valid := by
  have hmem : ∀ d, d ∈ nbrs r c ↔ d ∈ dirs ∧ onBoard (r + d.1) (c + d.2) := by
    intro d
    simp [nbrs, List.mem_filter]
  obtain ⟨g', v, hrun, heff, hg'⟩ := adj_steps_spec (g := g) hp hrc hv hfuel (nbrs r c) g 0 hg
    (Or.inl rfl) (fun d hd => (hmem d).1 hd) (dirs_nodup.filter _) (fun _ _ _ => rfl)
  refine ⟨g', v, ?_, ?_, hg'⟩
  · rw [check_adj_cells_eq fuel g hrc]; exact hrun
  have hex : (∃ d ∈ nbrs r c, ∃ k : Nat, captures g r c p d k) ↔
      (∃ d ∈ dirs, ∃ k : Nat, captures g r c p d k) := by
    constructor
    · rintro ⟨d, hd, hk⟩; exact ⟨d, ((hmem d).1 hd).1, hk⟩
    · rintro ⟨d, hd, k, hk⟩; exact ⟨d, (hmem d).2 ⟨hd, (captures_first hk).1⟩, k, hk⟩
  obtain ⟨h01, hiff, hdry, hmut⟩ := heff
  refine ⟨h01, by rw [hiff, hex], hdry, fun hv0 => ?_⟩
  obtain ⟨horig, hruns, hframe⟩ := hmut hv0
  refine ⟨fun h => horig (hex.2 h), ?_, ?_⟩
  · intro d hd k hk
    exact hruns d ((hmem d).2 ⟨hd, (captures_first hk).1⟩) k hk
  · intro r' c' hne hout
    apply hframe r' c'
    · rcases hne with h | h
      · exact Or.inl h
      · exact Or.inr (fun h' => h (hex.1 h'))
    · intro d hd k hk
      exact hout d ((hmem d).1 hd).1 k hk

/-- A captured run has fewer than 8 cells, wherever the origin is. -/
theorem captures_lt_eight {g : Board} {r c : Int} {p : Char} {d : Int × Int} (hd : d ∈ dirs)
    {k : Nat} (h : captures g r c p d k) : k < 8 := by
  obtain ⟨hk, hrun, hon, _⟩ := h
  obtain ⟨hon0, _⟩ := hrun 0 hk
  obtain ⟨h1, h2, h3, h4, h5⟩ := dirs_unit hd
  obtain ⟨a1, a2, a3, a4⟩ := hon0
  obtain ⟨b1, b2, b3, b4⟩ := hon
  by_contra hk8
  have hk7 : (8 : Int) ≤ (k : Int) := by omega
  have e1 : d.1 = -1 ∨ d.1 = 0 ∨ d.1 = 1 := by omega
  have e2 : d.2 = -1 ∨ d.2 = 0 ∨ d.2 = 1 := by omega
  rcases e1 with e1 | e1 | e1 <;> rcases e2 with e2 | e2 | e2 <;>
    simp only [e1, e2] at a1 a2 a3 a4 b1 b2 b3 b4 h5 <;> omega

/-- The bound on the run length in `hasCapture` loses nothing. -/
theorem hasCapture_iff (g : Board) (r c : Int) (p : Char) :
    hasCapture g r c p ↔ ∃ d ∈ dirs, ∃ k : Nat, captures g r c p d k := by
  constructor
  · rintro ⟨d, hd, k, _, hk⟩; exact ⟨d, hd, k, hk⟩
  · rintro ⟨d, hd, k, hk⟩; exact ⟨d, hd, k, captures_lt_eight hd hk, hk⟩

/-- A legal move is an empty cell of the board from which some direction captures. -/
theorem hasMove_iff (g : Board) (p : Char) :
    hasMove g p ↔ ∃ r c : Int, onBoard r c ∧ g r c = '-' ∧ hasCapture g r c p := by
  constructor
  · rintro ⟨⟨r, c⟩, hrc, h⟩; exact ⟨r, c, mem_cells.1 hrc, h⟩
  · rintro ⟨r, c, hrc, h⟩; exact ⟨(r, c), mem_cells.2 hrc, h⟩

/-- Without a capturing direction the mutating call returns 0 and the same board. -/
theorem check_adj_cells_none {g : Board} (hg : g.valid) {p : Char}
    (hp : p = 'X' ∨ p = 'O') {r c : Int} (hrc : onBoard r c)
    (hno : ¬ hasCapture g r c p) {fuel : Nat} (hfuel : 7 ≤ fuel) :
    check_adj_cells fuel g r c p 0 = .ok (g, 0) := by
  obtain ⟨g', v, hrun, ⟨h01, hiff, _, hmut⟩, _⟩ :=
    check_adj_cells_spec hg hp hrc (Or.inl rfl : (0 : Int) = 0 ∨ (0 : Int) = 1) hfuel
  have hex : ¬ ∃ d ∈ dirs, ∃ k : Nat, captures g r c p d k :=
    fun h => hno ((hasCapture_iff g r c p).2 h)
  have hv : v = 0 := by
    rcases h01 with h | h
    · exact h
    · rcases hiff.1 h with h' | h'
      · exact absurd h' (by decide)
      · exact absurd h' hex
  subst hv
  obtain ⟨_, _, hframe⟩ := hmut rfl
  have hg' : g' = g := by
    funext r' c'
    exact hframe r' c' (Or.inr hex) (fun d hd k hk => absurd ⟨d, hd, k, hk⟩ hex)
  rw [hrun, hg']

/-- With a capturing direction the mutating call returns 1 and a well-formed board. -/
theorem check_adj_cells_some {g : Board} (hg : g.valid) {p : Char}
    (hp : p = 'X' ∨ p = 'O') {r c : Int} (hrc : onBoard r c)
    (hcap : hasCapture g r c p) {fuel : Nat} (hfuel : 7 ≤ fuel) :
    ∃ g' : Board, check_adj_cells fuel g r c p 0 = .ok (g', 1) ∧ g'.valid := by
  obtain ⟨g', v, hrun, ⟨_, hiff, _, _⟩, hg'⟩ :=
    check_adj_cells_spec hg hp hrc (Or.inl rfl : (0 : Int) = 0 ∨ (0 : Int) = 1) hfuel
  have hv : v = 1 := hiff.2 (Or.inr ((hasCapture_iff g r c p).1 hcap))
  subst hv
  exact ⟨g', hrun, hg'⟩

/-! ## Legal moves, end of game, score -/

/-- The loops of `check_for_valid_moves` over cells of the board leave the board as it is
and return 1 exactly when one of the cells is empty and has a capture. -/
theorem valid_moves_loop_spec {g : Board} (hg : g.valid) {p : Char} (hp : p = 'X' ∨ p = 'O')
    {fuel : Nat} (hfuel : 7 ≤ fuel) :
    ∀ cs : List (Int × Int), (∀ rc ∈ cs, onBoard rc.1 rc.2) →
      ∃ v : Int, valid_moves_loop fuel p cs g = .ok (g, v) ∧ (v = 0 ∨ v = 1) ∧
        (v = 1 ↔ ∃ rc ∈ cs, g rc.1 rc.2 = '-' ∧ hasCapture g rc.1 rc.2 p) := by
  intro cs
  induction cs with
  | nil =>
    intro _
    exact ⟨0, rfl, Or.inl rfl, by simp⟩
  | cons rc rest ih =>
    intro hon
    obtain ⟨i, j⟩ := rc
    have hij : onBoard i j := hon (i, j) (List.mem_cons_self _ _)
    obtain ⟨v, hv, hv01, hviff⟩ := ih (fun rc h => hon rc (List.mem_cons_of_mem _ h))
    unfold valid_moves_loop
    rw [rd_on hij]
    simp only
    by_cases he : g i j = '-'
    · rw [if_pos he]
      obtain ⟨g', w, hrun, ⟨hw01, hwiff, hdry, _⟩, _⟩ :=
        check_adj_cells_spec hg hp hij (Or.inr rfl : (1 : Int) = 0 ∨ (1 : Int) = 1) hfuel
      have hg' : g' = g := hdry rfl
      rw [hg'] at hrun
      rw [hrun]
      simp only
      by_cases hw : w = 1
      · rw [if_pos hw]
        refine ⟨1, rfl, Or.inr rfl, fun _ => ⟨(i, j), List.mem_cons_self _ _, he, ?_⟩,
          fun _ => rfl⟩
        rcases hwiff.1 hw with h | h
        · exact absurd h (by decide)
        · exact (hasCapture_iff g i j p).2 h
      · rw [if_neg hw, hv]
        refine ⟨v, rfl, hv01, ?_⟩
        rw [hviff]
        constructor
        · rintro ⟨rc, hrc, h⟩; exact ⟨rc, List.mem_cons_of_mem _ hrc, h⟩
        · rintro ⟨rc, hrc, h1, h2⟩
          rcases List.mem_cons.1 hrc with heq | hmem
          · subst heq
            exact absurd (hwiff.2 (Or.inr ((hasCapture_iff g i j p).1 h2))) hw
          · exact ⟨rc, hmem, h1, h2⟩
    · rw [if_neg he, hv]
      refine ⟨v, rfl, hv01, ?_⟩
      rw [hviff]
      constructor
      · rintro ⟨rc, hrc, h⟩; exact ⟨rc, List.mem_cons_of_mem _ hrc, h⟩
      · rintro ⟨rc, hrc, h1, h2⟩
        rcases List.mem_cons.1 hrc with heq | hmem
        · subst heq
          exact absurd h1 he
        · exact ⟨rc, hmem, h1, h2⟩

/-- The function `check_for_valid_moves` on a well-formed board: no fault, the board is
unchanged, and the result is 1 exactly when the side has a legal move. -/
theorem check_for_valid_moves_spec {g : Board} (hg : g.valid) {p : Char}
    (hp : p = 'X' ∨ p = 'O') {fuel : Nat} (hfuel : 7 ≤ fuel) :
    ∃ v : Int, check_for_valid_moves fuel g p = .ok (g, v) ∧ (v = 0 ∨ v = 1) ∧
      (v = 1 ↔ hasMove g p) :=
  valid_moves_loop_spec hg hp hfuel cells (fun _ h => mem_cells.1 h)

/-- The function `check_game_end` on a well-formed board: no fault, the board is unchanged,
and the result is 1 exactly when neither side has a legal move. -/
theorem check_game_end_spec {g : Board} (hg : g.valid) {player bot : Char}
    (hpl : player = 'X' ∨ player = 'O') (hbot : bot = 'X' ∨ bot = 'O')
    {fuel : Nat} (hfuel : 7 ≤ fuel) :
    ∃ e : Int, check_game_end fuel g player bot = .ok (g, e) ∧ (e = 0 ∨ e = 1) ∧
      (e = 1 ↔ ¬ hasMove g player ∧ ¬ hasMove g bot) := by
  obtain ⟨v1, h1, h101, h1iff⟩ := check_for_valid_moves_spec hg hpl hfuel
  obtain ⟨v2, h2, h201, h2iff⟩ := check_for_valid_moves_spec hg hbot hfuel
  unfold check_game_end
  rw [h1]
  simp only
  rw [h2]
  simp only
  by_cases h : v1 = 1 ∨ v2 = 1
  · rw [if_pos h]
    refine ⟨0, rfl, Or.inl rfl, fun h0 => absurd h0 (by decide), ?_⟩
    rintro ⟨n1, n2⟩
    rcases h with h | h
    · exact absurd (h1iff.1 h) n1
    · exact absurd (h2iff.1 h) n2
  · rw [if_neg h]
    refine ⟨1, rfl, Or.inr rfl, fun _ => ⟨fun hm => h (Or.inl (h1iff.2 hm)),
      fun hm => h (Or.inr (h2iff.2 hm))⟩, fun _ => rfl⟩

/-- The counting loops of `count_pieces` never fault on cells of the board. -/
theorem count_loop_ok (g : Board) :
    ∀ (cs : List (Int × Int)) (xo : Int × Int), (∀ rc ∈ cs, onBoard rc.1 rc.2) →
      ∃ r : Int × Int, count_loop g cs xo = .ok r := by
  intro cs
  induction cs with
  | nil => intro xo _; exact ⟨xo, rfl⟩
  | cons rc rest ih =>
    intro xo hon
    obtain ⟨i, j⟩ := rc
    have hij : onBoard i j := hon (i, j) (List.mem_cons_self _ _)
    have hrest : ∀ rc ∈ rest, onBoard rc.1 rc.2 := fun rc h => hon rc (List.mem_cons_of_mem _ h)
    unfold count_loop
    rw [rd_on hij]
    simp only
    split
    · exact ih _ hrest
    · split
      · exact ih _ hrest
      · exact ih _ hrest

/-- The function `count_pieces` never faults and changes at most `kern_buf`. -/
theorem count_pieces_ok (s : State) :
    ∃ s' : State, count_pieces s = .ok s' ∧ s'.gameboard = s.gameboard ∧ s'.turn = s.turn ∧
      s'.player = s.player ∧ s'.bot = s.bot ∧ s'.game_flag = s.game_flag ∧
      s'.game_print_end = s.game_print_end := by
  obtain ⟨⟨X, O⟩, h⟩ := count_loop_ok s.gameboard cells (0, 0) (fun rc h => mem_cells.1 h)
  unfold count_pieces
  rw [h]
  simp only
  split_ifs <;> exact ⟨_, rfl, rfl, rfl, rfl, rfl, rfl, rfl⟩

/-! ## Commands -/

theorem response_out_OK (s : State) : response (s.out OK 2) = OK := rfl

theorem response_out_ILLMOVE (s : State) : response (s.out ILLMOVE 7) = ILLMOVE := rfl

theorem response_out_NOGAME (s : State) : response (s.out NOGAME 7) = NOGAME := rfl

theorem response_out_OOT (s : State) : response (s.out OOT 3) = OOT := rfl

theorem response_out_INVFMT (s : State) : response (s.out INVFMT 6) = INVFMT := rfl

theorem start_X : reversi_write 7 State.init (cmd_start 'X') = .ok (started 'X') := rfl

theorem start_O : reversi_write 7 State.init (cmd_start 'O') = .ok (started 'O') := rfl

theorem other_other {p : Char} (hp : p = 'X' ∨ p = 'O') : other (other p) = p := by
  rcases hp with rfl | rfl <;> decide

/-- What both move commands do after a successful placement, on a well-formed state: no
fault; the board, the players are kept; when neither side has a legal move the session
becomes inactive, the turn is kept and `kern_buf` is what `count_pieces` leaves; otherwise
the flags are kept, the turn passes to `next` and the response is `OK`. -/
theorem finish_move_spec {s : State} (hg : s.gameboard.valid)
    (hpl : s.player = 'X' ∨ s.player = 'O') (hbot : s.bot = 'X' ∨ s.bot = 'O')
    {fuel : Nat} (hfuel : 7 ≤ fuel) (next : Char) :
    ∃ s' : State, finish_move fuel s next = .ok s' ∧
      s'.gameboard = s.gameboard ∧ s'.player = s.player ∧ s'.bot = s.bot ∧
      ((¬ hasMove s.gameboard s.player ∧ ¬ hasMove s.gameboard s.bot) →
        s'.game_flag = 0 ∧ s'.game_print_end = 1 ∧ s'.turn = s.turn ∧
        ∃ sc : State, count_pieces s = .ok sc ∧ s'.kern_buf = sc.kern_buf) ∧
      ((hasMove s.gameboard s.player ∨ hasMove s.gameboard s.bot) →
        s'.game_flag = s.game_flag ∧ s'.game_print_end = s.game_print_end ∧
        s'.turn = next ∧ response s' = OK) := by
  obtain ⟨e, he, he01, heiff⟩ := check_game_end_spec hg hpl hbot hfuel
  unfold finish_move
  rw [he]
  simp only
  rcases he01 with h0 | h1
  · subst h0
    have hsome : hasMove s.gameboard s.player ∨ hasMove s.gameboard s.bot := by
      by_contra hcon
      push_neg at hcon
      exact absurd (heiff.2 hcon) (by decide)
    rw [if_neg (by decide)]
    exact ⟨_, rfl, rfl, rfl, rfl, fun hn => absurd hsome (by tauto),
      fun _ => ⟨rfl, rfl, rfl, rfl⟩⟩
  · subst h1
    have hnone := heiff.1 rfl
    rw [if_pos rfl]
    obtain ⟨sc, hsc, h1, h2, h3, h4, _, _⟩ := count_pieces_ok s
    have hs : ({ s with gameboard := s.gameboard } : State) = s := rfl
    rw [hs, hsc]
    exact ⟨_, rfl, h1, h3, h4, fun _ => ⟨rfl, rfl, h2, sc, rfl, rfl⟩,
      fun h => absurd h (by tauto)⟩

/-- The inner loop of the bot command over columns without a legal cell changes nothing and
leaves `check` at 0. -/
theorem bot_inner_miss {fuel : Nat} (hfuel : 7 ≤ fuel) {i : Int} (s : State)
    (hg : s.gameboard.valid) (ht : s.turn = 'X' ∨ s.turn = 'O') :
    ∀ js : List Int, (∀ j ∈ js, onBoard i j) →
      (∀ j ∈ js, ¬ (s.gameboard i j = '-' ∧ hasCapture s.gameboard i j s.turn)) →
      bot_inner fuel i js s 0 = .ok (s, 0) := by
  intro js
  induction js with
  | nil => intro _ _; rfl
  | cons j rest ih =>
    intro hon hno
    have hij := hon j (List.mem_cons_self _ _)
    have hrest := ih (fun j h => hon j (List.mem_cons_of_mem _ h))
      (fun j h => hno j (List.mem_cons_of_mem _ h))
    unfold bot_inner
    rw [rd_on hij]
    simp only
    by_cases he : s.gameboard i j = '-'
    · rw [if_pos he]
      have hnc : ¬ hasCapture s.gameboard i j s.turn :=
        fun hc => hno j (List.mem_cons_self _ _) ⟨he, hc⟩
      rw [check_adj_cells_none hg ht hij hnc hfuel]
      simp only
      rw [if_neg (by decide)]
      exact hrest
    · rw [if_neg he]
      exact hrest

/-- The inner loop of the bot command plays the first legal cell of the row: the columns
before it are skipped, the piece is placed there and `finish_move` runs. -/
theorem bot_inner_hit {fuel : Nat} (hfuel : 7 ≤ fuel) {i : Int} (s : State)
    (hg : s.gameboard.valid) (ht : s.turn = 'X' ∨ s.turn = 'O')
    {c : Int} (post : List Int) (hic : onBoard i c) (he : s.gameboard i c = '-')
    {g' : Board} (hplace : check_adj_cells fuel s.gameboard i c s.turn 0 = .ok (g', 1)) :
    ∀ pre : List Int, (∀ j ∈ pre, onBoard i j) →
      (∀ j ∈ pre, ¬ (s.gameboard i j = '-' ∧ hasCapture s.gameboard i j s.turn)) →
      bot_inner fuel i (pre ++ c :: post) s 0 =
        (match finish_move fuel { s with gameboard := g' } s.player with
         | .error e => .error e
         | .ok s2 => .ok (s2, 1)) := by
  intro pre
  induction pre with
  | nil =>
    intro _ _
    simp only [List.nil_append]
    unfold bot_inner
    rw [rd_on hic]
    simp only
    rw [if_pos he, hplace]
    simp only
    rw [if_pos trivial]
    try rfl
  | cons j rest ih =>
    intro hon hno
    have hij := hon j (List.mem_cons_self _ _)
    have hrest := ih (fun j h => hon j (List.mem_cons_of_mem _ h))
      (fun j h => hno j (List.mem_cons_of_mem _ h))
    simp only [List.cons_append]
    unfold bot_inner
    rw [rd_on hij]
    simp only
    by_cases he' : s.gameboard i j = '-'
    · rw [if_pos he']
      have hnc : ¬ hasCapture s.gameboard i j s.turn :=
        fun hc => hno j (List.mem_cons_self _ _) ⟨he', hc⟩
      rw [check_adj_cells_none hg ht hij hnc hfuel]
      simp only
      rw [if_neg (by decide)]
      exact hrest
    · rw [if_neg he']
      exact hrest

/-- The outer loop of the bot command over rows without a legal cell changes nothing. -/
theorem bot_outer_miss {fuel : Nat} (hfuel : 7 ≤ fuel) (s : State)
    (hg : s.gameboard.valid) (ht : s.turn = 'X' ∨ s.turn = 'O') :
    ∀ rows : List Int, (∀ i ∈ rows, 0 ≤ i ∧ i ≤ 7) →
      (∀ i ∈ rows, ∀ j ∈ idx8, ¬ (s.gameboard i j = '-' ∧ hasCapture s.gameboard i j s.turn)) →
      bot_outer fuel rows s 0 = .ok (s, 0) := by
  intro rows
  induction rows with
  | nil => intro _ _; rfl
  | cons i rest ih =>
    intro hon hno
    have hi := hon i (List.mem_cons_self _ _)
    unfold bot_outer
    rw [bot_inner_miss hfuel s hg ht idx8
      (fun j hj => by
        simp only [idx8, List.mem_cons, List.mem_singleton, List.not_mem_nil, or_false] at hj
        unfold onBoard; omega)
      (hno i (List.mem_cons_self _ _))]
    simp only
    rw [if_neg (by decide)]
    exact ih (fun i h => hon i (List.mem_cons_of_mem _ h))
      (fun i h => hno i (List.mem_cons_of_mem _ h))

/-- The outer loop of the bot command skips the rows without a legal cell and leaves with
the result of the inner loop on the first row that has one. -/
theorem bot_outer_hit {fuel : Nat} (hfuel : 7 ≤ fuel) (s : State)
    (hg : s.gameboard.valid) (ht : s.turn = 'X' ∨ s.turn = 'O')
    {r : Int} (post : List Int) {s2 : State} (hrow : bot_inner fuel r idx8 s 0 = .ok (s2, 1)) :
    ∀ pre : List Int, (∀ i ∈ pre, 0 ≤ i ∧ i ≤ 7) →
      (∀ i ∈ pre, ∀ j ∈ idx8, ¬ (s.gameboard i j = '-' ∧ hasCapture s.gameboard i j s.turn)) →
      bot_outer fuel (pre ++ r :: post) s 0 = .ok (s2, 1) := by
  intro pre
  induction pre with
  | nil =>
    intro _ _
    simp only [List.nil_append]
    unfold bot_outer
    rw [hrow]
    simp only
    rw [if_pos trivial]
  | cons i rest ih =>
    intro hon hno
    simp only [List.cons_append]
    unfold bot_outer
    rw [bot_inner_miss hfuel s hg ht idx8
      (fun j hj => by
        have hi := hon i (List.mem_cons_self _ _)
        simp only [idx8, List.mem_cons, List.mem_singleton, List.not_mem_nil, or_false] at hj
        unfold onBoard; omega)
      (hno i (List.mem_cons_self _ _))]
    simp only
    rw [if_neg (by decide)]
    exact ih (fun i h => hon i (List.mem_cons_of_mem _ h))
      (fun i h => hno i (List.mem_cons_of_mem _ h))

/-- An index of `0..7` splits the loop range into the indices before it and the rest. -/
theorem idx8_split {c : Int} (h0 : 0 ≤ c) (h7 : c ≤ 7) :
    ∃ pre post : List Int, idx8 = pre ++ c :: post ∧ ∀ j ∈ pre, 0 ≤ j ∧ j < c := by
  interval_cases c
  · exact ⟨[], [1, 2, 3, 4, 5, 6, 7], rfl, by simp⟩
  · exact ⟨[0], [2, 3, 4, 5, 6, 7], rfl, by simp⟩
  · exact ⟨[0, 1], [3, 4, 5, 6, 7], rfl, by simp⟩
  · exact ⟨[0, 1, 2], [4, 5, 6, 7], rfl, by simp⟩
  · exact ⟨[0, 1, 2, 3], [5, 6, 7], rfl, by simp⟩
  · exact ⟨[0, 1, 2, 3, 4], [6, 7], rfl, by simp⟩
  · exact ⟨[0, 1, 2, 3, 4, 5], [7], rfl, by simp⟩
  · exact ⟨[0, 1, 2, 3, 4, 5, 6], [], rfl, by simp⟩

theorem mem_idx8 {j : Int} : j ∈ idx8 ↔ 0 ≤ j ∧ j ≤ 7 := by
  simp only [idx8, List.mem_cons, List.mem_singleton, List.not_mem_nil, or_false]
  omega

/-- The bot command on a state whose turn is the bot's and whose session is active, given
the result of the loops. -/
theorem write_bot_of {fuel : Nat} {s s2 : State} {ck : Int} (hturn : s.turn = s.bot)
    (hflag : s.game_flag = 1)
    (hbo : bot_outer fuel idx8
      { s with kern_buf := '0' :: '3' :: '\n' :: s.kern_buf.drop 3 } 0 = .ok (s2, ck)) :
    reversi_write fuel s cmd_bot = .ok (if ck = 0 then s2.out ILLMOVE 7 else s2) := by
  have hturn' : (s.turn = s.bot) = True := eq_true hturn
  have hflag' : (s.game_flag = 0) = False := by simp [hflag]
  unfold reversi_write start
  by_cases hck : ck = 0 <;> simp [cmd_bot, hturn', hflag', hbo, hck]

/-! ## Games evaluated -/

/-- The game `movesO`, `lastO` evaluated: the thirteen moves are answered `OK`; the last
move is legal, takes the last `'X'` pieces and ends the game with 18 `'O'` and no `'X'`;
the response after it is the text of the command itself. -/
theorem gameO_facts :
    isOk (runLog 7 (started 'O') movesO) = true ∧
    (valueOf (runLog 7 (started 'O') movesO)).2 = List.replicate 13 OK ∧
    beforeLast.inProgress ∧ beforeLast.turn = beforeLast.player ∧ beforeLast.player = 'O' ∧
    beforeLast.gameboard 2 0 = '-' ∧ hasCapture beforeLast.gameboard 2 0 'O' ∧
    pieces beforeLast.gameboard = 17 ∧
    isOk (reversi_write 7 beforeLast lastO) = true ∧
    response afterLast = lastO ∧
    afterLast.gameboard.toList =
      "------O------OO-OOOOOOO----OOOOO--OOO---------------------------".toList ∧
    afterLast.game_flag = 0 ∧ afterLast.game_print_end = 1 ∧ afterLast.turn = 'O' ∧
    afterLast.player = 'O' ∧ afterLast.bot = 'X' ∧
    ¬ hasMove afterLast.gameboard 'X' ∧ ¬ hasMove afterLast.gameboard 'O' ∧
    (count_loop afterLast.gameboard cells (0, 0)).toOption = some (0, 18) ∧
    countOf afterLast.gameboard 'X' = 0 ∧ countOf afterLast.gameboard 'O' = 18 ∧
    pieces afterLast.gameboard = 18 ∧ afterLast.gameboard 2 0 = 'O' ∧
    (count_pieces afterLast).toOption.map response = some lastO ∧
    (reversi_write 7 afterLast cmd_bot).toOption.map response = some OOT ∧
    (reversi_write 7 afterLast (cmd_place '0' '0')).toOption.map response = some NOGAME := by
  decide!

theorem eq_ok_of_isOk {α : Type} [Inhabited α] {x : Except Fault α} (h : isOk x = true) :
    x = .ok (valueOf x) := by
  cases x with
  | error e => exact absurd h (by simp [isOk])
  | ok a => rfl

theorem runLog_run {fuel : Nat} :
    ∀ (cmds : List (List Char)) (s s' : State) (log : List (List Char)),
      runLog fuel s cmds = .ok (s', log) → run fuel s cmds = .ok s' := by
  intro cmds
  induction cmds with
  | nil =>
    intro s s' log h
    simp only [runLog, Except.ok.injEq, Prod.mk.injEq] at h
    rw [← h.1]; rfl
  | cons cmd rest ih =>
    intro s s' log h
    unfold runLog at h
    unfold run
    cases hw : reversi_write fuel s cmd with
    | error e => rw [hw] at h; cases h
    | ok s1 =>
      rw [hw] at h
      simp only at h ⊢
      cases hr : runLog fuel s1 rest with
      | error e => rw [hr] at h; cases h
      | ok r =>
        obtain ⟨s2, log2⟩ := r
        rw [hr] at h
        simp only [Except.ok.injEq, Prod.mk.injEq] at h
        rw [← h.1]
        exact ih s1 s2 log2 hr

theorem runLog_snoc {fuel : Nat} (c : List Char) :
    ∀ (cmds : List (List Char)) (s s1 s2 : State) (log : List (List Char)),
      runLog fuel s cmds = .ok (s1, log) → reversi_write fuel s1 c = .ok s2 →
      runLog fuel s (cmds ++ [c]) = .ok (s2, log ++ [response s2]) := by
  intro cmds
  induction cmds with
  | nil =>
    intro s s1 s2 log h hw
    simp only [runLog, Except.ok.injEq, Prod.mk.injEq] at h
    obtain ⟨rfl, rfl⟩ := h
    simp [runLog, hw]
  | cons cmd rest ih =>
    intro s s1 s2 log h hw
    unfold runLog at h
    simp only [List.cons_append]
    unfold runLog
    cases hw0 : reversi_write fuel s cmd with
    | error e => rw [hw0] at h; cases h
    | ok s0 =>
      rw [hw0] at h
      simp only at h ⊢
      cases hr : runLog fuel s0 rest with
      | error e => rw [hr] at h; cases h
      | ok r =>
        obtain ⟨s1', log1⟩ := r
        rw [hr] at h
        simp only [Except.ok.injEq, Prod.mk.injEq] at h
        obtain ⟨rfl, rfl⟩ := h
        rw [ih s0 s1' s2 log1 hr hw]
        rfl

theorem beforeLast_def : beforeLast = (valueOf (runLog 7 (started 'O') movesO)).1 := by
  unfold beforeLast; rfl

theorem afterLast_def : afterLast = valueOf (reversi_write 7 beforeLast lastO) := by
  unfold afterLast; rfl

/-- The game `movesO` as a run: it ends in `beforeLast` with thirteen `OK`s. -/
theorem gameO_before :
    runLog 7 (started 'O') movesO = .ok (beforeLast, List.replicate 13 OK) := by
  have h := eq_ok_of_isOk gameO_facts.1
  have h2 := gameO_facts.2.1
  rw [beforeLast_def, ← h2, Prod.mk.eta]
  exact h

/-- The last move of the game as a write: it ends in `afterLast`. -/
theorem gameO_last : reversi_write 7 beforeLast lastO = .ok afterLast := by
  rw [afterLast_def]
  exact eq_ok_of_isOk gameO_facts.2.2.2.2.2.2.2.2.1

/-- The whole game from module load. -/
theorem gameO_run :
    run 7 State.init (cmd_start 'O' :: (movesO ++ [lastO])) = .ok afterLast := by
  have h := runLog_snoc lastO movesO (started 'O') beforeLast afterLast _ gameO_before gameO_last
  have h2 := runLog_run _ _ _ _ h
  unfold run
  rw [start_O]
  exact h2

/-- A place command on a state whose session is not active. -/
theorem write_place_inactive (fuel : Nat) (s : State) (hflag : s.game_flag = 0)
    (col row : Char) :
    reversi_write fuel s (cmd_place col row) =
      .ok ({ s with kern_buf := cmd_place col row ++ s.kern_buf.drop 7 }.out
        (if s.turn = s.player then NOGAME else OOT) (if s.turn = s.player then 7 else 3)) := by
  unfold reversi_write start
  by_cases ht : s.turn = s.player
  · have ht' : (s.turn = s.player) = True := eq_true ht
    simp [cmd_place, ht', hflag]
  · have ht' : (s.turn = s.player) = False := eq_false ht
    simp [cmd_place, ht']

/-- A bot command on a state whose session is not active. -/
theorem write_bot_inactive (fuel : Nat) (s : State) (hflag : s.game_flag = 0) :
    reversi_write fuel s cmd_bot =
      .ok ({ s with kern_buf := cmd_bot ++ s.kern_buf.drop 3 }.out
        (if s.turn = s.bot then NOGAME else OOT) (if s.turn = s.bot then 7 else 3)) := by
  unfold reversi_write start
  by_cases ht : s.turn = s.bot
  · have ht' : (s.turn = s.bot) = True := eq_true ht
    simp [cmd_bot, ht', hflag]
  · have ht' : (s.turn = s.bot) = False := eq_false ht
    simp [cmd_bot, ht']

theorem response_out_cases (s : State) (b : Prop) [Decidable b] :
    response (s.out (if b then NOGAME else OOT) (if b then 7 else 3)) =
      if b then NOGAME else OOT := by
  split <;> rfl

/-- The game `stuckTrace` evaluated. -/
theorem stuck_facts :
    isOk (run 7 State.init stuckTrace) = true ∧
    stuckState.inProgress ∧ stuckState.turn = stuckState.bot ∧ stuckState.bot = 'O' ∧
    ¬ hasMove stuckState.gameboard 'O' ∧ hasMove stuckState.gameboard 'X' ∧
    stuckState.gameboard.toList =
      "-X------XX-O-----X--O---XXXOOO-----OOOO---O---------------------".toList := by
  decide!

/-- The first bot move of a game in which the human plays `'O'`. -/
theorem first_bot_move_facts :
    (started 'O').inProgress ∧
    hasCapture (started 'O').gameboard 2 3 (started 'O').bot ∧
    (∀ rc ∈ cells, (rc.1 < 2 ∨ (rc.1 = 2 ∧ rc.2 < 3)) →
      ¬ ((started 'O').gameboard rc.1 rc.2 = '-' ∧
        hasCapture (started 'O').gameboard rc.1 rc.2 (started 'O').bot)) ∧
    (valueOf (reversi_write 7 (started 'O') cmd_bot)).gameboard.toList =
      "-------------------X-------XX------XO---------------------------".toList ∧
    response (valueOf (reversi_write 7 (started 'O') cmd_bot)) = OK := by
  decide!

/-! ## The scorer -/

/-- The counting loops of `count_pieces` add to `X` and `O` the numbers of cells holding
`'X'` and `'O'`. -/
theorem count_loop_counts (g : Board) :
    ∀ (cs : List (Int × Int)) (xo : Int × Int), (∀ rc ∈ cs, onBoard rc.1 rc.2) →
      count_loop g cs xo =
        .ok (xo.1 + (((cs.map fun rc => g rc.1 rc.2).count 'X' : Nat) : Int),
             xo.2 + (((cs.map fun rc => g rc.1 rc.2).count 'O' : Nat) : Int)) := by
  intro cs
  induction cs with
  | nil => intro xo _; simp [count_loop]
  | cons rc rest ih =>
    intro xo hon
    obtain ⟨i, j⟩ := rc
    have hij : onBoard i j := hon (i, j) (List.mem_cons_self _ _)
    have hrest : ∀ rc ∈ rest, onBoard rc.1 rc.2 := fun rc h => hon rc (List.mem_cons_of_mem _ h)
    unfold count_loop
    rw [rd_on hij]
    simp only
    by_cases hx : g i j = 'X'
    · rw [if_pos hx, ih _ hrest]
      have hxo : ¬ (g i j = 'O') := by rw [hx]; decide
      simp only [List.map_cons, List.count_cons, hx, beq_self_eq_true, if_true]
      have : (('X' : Char) == 'O') = false := by decide
      simp only [this]
      congr 1
      push_cast
      exact Prod.ext (by simp; ring) (by simp)
    · rw [if_neg hx]
      by_cases ho : g i j = 'O'
      · rw [if_pos ho, ih _ hrest]
        simp only [List.map_cons, List.count_cons, ho, beq_self_eq_true, if_true]
        have : (('O' : Char) == 'X') = false := by decide
        simp only [this]
        congr 1
        push_cast
        exact Prod.ext (by simp) (by simp; ring)
      · rw [if_neg ho, ih _ hrest]
        have h1 : (g i j == 'X') = false := by simpa using hx
        have h2 : (g i j == 'O') = false := by simpa using ho
        simp [List.count_cons, h1, h2]

/-- What `count_pieces` writes, in terms of the numbers of `'X'` and `'O'` cells. When
`'O'` is ahead and the human plays `'O'` (so the bot is `'X'`), nothing is written. -/
theorem count_pieces_spec (s : State) :
    count_pieces s = .ok (
      if countOf s.gameboard 'X' > countOf s.gameboard 'O' then
        (if s.player = 'O' then s.out LOSE 4 else if s.bot = 'O' then s.out WIN 3 else s)
      else if countOf s.gameboard 'X' < countOf s.gameboard 'O' then
        (if s.player = 'X' then s.out LOSE 4 else if s.bot = 'O' then s.out WIN 3 else s)
      else s.out TIE 3) := by
  unfold count_pieces
  rw [count_loop_counts s.gameboard cells (0, 0) (fun _ h => mem_cells.1 h)]
  simp only [zero_add, countOf, Board.toList]
  simp only [gt_iff_lt, Nat.cast_lt, Nat.cast_inj]
  split_ifs <;> first | rfl | (exfalso; omega)

/-- The slip of `count_pieces`: for a human playing `'O'` against the bot on `'X'`, with
more `'O'` than `'X'` on the board, the state is returned as it is and no text is
written. -/
theorem count_pieces_silent (s : State) (hp : s.player = 'O') (hb : s.bot = 'X')
    (h : countOf s.gameboard 'X' < countOf s.gameboard 'O') : count_pieces s = .ok s := by
  rw [count_pieces_spec, if_neg (by omega), if_pos h, if_neg (by rw [hp]; decide),
    if_neg (by rw [hb]; decide)]

/-- On a well-formed board the dry run at a cell of the board returns the same board, and
returns 1 exactly when some direction captures. -/
theorem dry_run_iff {g : Board} (hg : g.valid) {p : Char} (hp : p = 'X' ∨ p = 'O')
    {r c : Int} (hrc : onBoard r c) {fuel : Nat} (hfuel : 7 ≤ fuel) :
    ∃ v : Int, check_adj_cells fuel g r c p 1 = .ok (g, v) ∧ (v = 0 ∨ v = 1) ∧
      (v = 1 ↔ hasCapture g r c p) := by
  obtain ⟨g', v, hrun, ⟨h01, hiff, hdry, _⟩, _⟩ :=
    check_adj_cells_spec hg hp hrc (Or.inr rfl : (1 : Int) = 0 ∨ (1 : Int) = 1) hfuel
  have hg' : g' = g := hdry rfl
  rw [hg'] at hrun
  refine ⟨v, hrun, h01, ?_⟩
  rw [hiff, hasCapture_iff]
  constructor
  · rintro (h | h)
    · exact absurd h (by decide)
    · exact h
  · exact fun h => Or.inr h

/-- A direction cannot capture for `p` on a board without a `p` piece. -/
theorem no_capture_without_piece {g : Board} {p : Char}
    (hnone : ∀ r c : Int, onBoard r c → g r c ≠ p) (r c : Int) : ¬ hasCapture g r c p := by
  rintro ⟨d, _, k, _, _, _, hon, hp⟩
  exact hnone _ _ hon hp

theorem sameGame_refl (s : State) : sameGame s s := ⟨rfl, rfl, rfl, rfl, rfl, rfl⟩

theorem sameGame_trans {s t u : State} (h1 : sameGame s t) (h2 : sameGame t u) :
    sameGame s u :=
  ⟨h2.1.trans h1.1, h2.2.1.trans h1.2.1, h2.2.2.1.trans h1.2.2.1,
    h2.2.2.2.1.trans h1.2.2.2.1, h2.2.2.2.2.1.trans h1.2.2.2.2.1,
    h2.2.2.2.2.2.trans h1.2.2.2.2.2⟩

/-- The C string left by `output` of a text without zero byte and shorter than 80. -/
theorem takeWhile_text (l rest : List Char) (h : ∀ ch ∈ l, ch ≠ '\x00') :
    (l ++ '\x00' :: rest).takeWhile (fun ch => ch ≠ '\x00') = l := by
  induction l with
  | nil => simp [List.takeWhile]
  | cons a l ih =>
    have ha : a ≠ '\x00' := h a (List.mem_cons_self _ _)
    have := ih (fun ch hch => h ch (List.mem_cons_of_mem _ hch))
    simp only [List.cons_append, List.takeWhile_cons, ha, ne_eq, not_false_eq_true,
      decide_True, if_true, List.cons.injEq, true_and]
    exact this

theorem response_output (kb l : List Char) (n : Nat) (hn : l.length = n) (h80 : n < 80)
    (h : ∀ ch ∈ l, ch ≠ '\x00') :
    (output kb l n).takeWhile (fun ch => ch ≠ '\x00') = l := by
  unfold output
  have h1 : l.take n = l := by rw [← hn]; exact List.take_length _
  obtain ⟨m, hm⟩ : ∃ m, 80 - n = m + 1 := ⟨79 - n, by omega⟩
  rw [h1, hm, List.replicate_succ, List.append_assoc, List.cons_append]
  exact takeWhile_text l _ h

/-- The first `n` bytes of `kern_buf` after `output` of a text of length `n`. -/
theorem take_output (kb l : List Char) (n : Nat) (hn : l.length = n) :
    (output kb l n).take n = l := by
  unfold output
  have h1 : l.take n = l := by rw [← hn]; exact List.take_length _
  rw [h1, List.append_assoc, List.take_append_of_le_length (by omega), h1]

/-- The loops of the print command never fault on cells of the board and collect them in
order. -/
theorem print_loop_ok (g : Board) :
    ∀ cs : List (Int × Int), (∀ rc ∈ cs, onBoard rc.1 rc.2) →
      print_loop g cs = .ok (cs.map fun rc => g rc.1 rc.2) := by
  intro cs
  induction cs with
  | nil => intro _; rfl
  | cons rc rest ih =>
    intro hon
    obtain ⟨i, j⟩ := rc
    unfold print_loop
    rw [rd_on (hon (i, j) (List.mem_cons_self _ _)),
      ih (fun rc h => hon rc (List.mem_cons_of_mem _ h))]
    rfl

theorem toList_length (g : Board) : g.toList.length = 64 := by
  simp [Board.toList, cells, idx8]

theorem snapshot_length (s : State) : (snapshot s).length = 67 := by
  simp [snapshot, toList_length]

/-- The print command when printing is allowed. -/
theorem write_print (fuel : Nat) (s : State) (h : s.game_flag ≠ 0 ∨ s.game_print_end = 1) :
    reversi_write fuel s cmd_print =
      .ok ({ s with kern_buf := cmd_print ++ s.kern_buf.drop 3 }.out (snapshot s) 67) := by
  have hp : print_loop s.gameboard cells = .ok s.gameboard.toList :=
    print_loop_ok s.gameboard cells (fun _ h => mem_cells.1 h)
  have hc : (s.game_flag = 0 ∧ ¬ s.game_print_end = 1) = False := by
    apply eq_false
    rintro ⟨h1, h2⟩
    rcases h with h | h
    · exact h h1
    · exact h2 h
  unfold reversi_write start
  simp [cmd_print, hc, hp, snapshot]

/-- The print command when printing is not allowed. -/
theorem write_print_nogame (fuel : Nat) (s : State) (h1 : s.game_flag = 0)
    (h2 : s.game_print_end ≠ 1) :
    reversi_write fuel s cmd_print =
      .ok ({ s with kern_buf := cmd_print ++ s.kern_buf.drop 3 }.out NOGAME 7) := by
  unfold reversi_write start
  simp [cmd_print, h1, h2]

/-- The skip command when the session is not active. -/
theorem write_skip_inactive (fuel : Nat) (s : State) (h1 : s.game_flag = 0) :
    reversi_write fuel s cmd_skip =
      .ok ({ s with kern_buf := cmd_skip ++ s.kern_buf.drop 3 }.out NOGAME 7) := by
  unfold reversi_write start
  simp [cmd_skip, h1]

/-- The place command when the turn is not the human's. -/
theorem write_place_oot (fuel : Nat) (s : State) (h : s.turn ≠ s.player) (col row : Char) :
    reversi_write fuel s (cmd_place col row) =
      .ok ({ s with kern_buf := cmd_place col row ++ s.kern_buf.drop 7 }.out OOT 3) := by
  have h' : (s.turn = s.player) = False := eq_false h
  unfold reversi_write start
  simp [cmd_place, h']

/-- The bot command when the turn is not the bot's. -/
theorem write_bot_oot (fuel : Nat) (s : State) (h : s.turn ≠ s.bot) :
    reversi_write fuel s cmd_bot =
      .ok ({ s with kern_buf := cmd_bot ++ s.kern_buf.drop 3 }.out OOT 3) := by
  have h' : (s.turn = s.bot) = False := eq_false h
  unfold reversi_write start
  simp [cmd_bot, h']

/-- The start command with a side `'X'` or `'O'`. -/
theorem write_start (fuel : Nat) (s : State) (side : Char) (h : side = 'X' ∨ side = 'O') :
    reversi_write fuel s (cmd_start side) =
      .ok ({ s with kern_buf := cmd_start side ++ s.kern_buf.drop 5, player := side,
                    bot := other side, turn := 'X', gameboard := initial_board,
                    game_flag := 1, game_print_end := 0 }.out OK 2) := by
  unfold reversi_write start
  rcases h with rfl | rfl <;> simp [cmd_start, State.out, other]

/-- The cells of the initial layout. -/
theorem initial_board_cells (r c : Int) :
    initial_board r c =
      if (r = 3 ∧ c = 3) ∨ (r = 4 ∧ c = 4) then 'O'
      else if (r = 3 ∧ c = 4) ∨ (r = 4 ∧ c = 3) then 'X' else '-' := by
  unfold initial_board Board.set
  split_ifs <;> first | rfl | (exfalso; omega)

/-- Two `PrintBoard` commands in a row after the end of a game: both write the snapshot,
neither changes the game state. -/
theorem print_twice (s : State) (hend : s.game_print_end = 1) (fuel : Nat) :
    ∃ s1 s2 : State, reversi_write fuel s cmd_print = .ok s1 ∧
      reversi_write fuel s1 cmd_print = .ok s2 ∧
      s1.kern_buf.take 67 = snapshot s ∧ s2.kern_buf.take 67 = snapshot s ∧
      sameGame s s1 ∧ sameGame s s2 ∧
      ((∀ ch ∈ snapshot s, ch ≠ '\x00') → response s1 = snapshot s ∧ response s2 = snapshot s) := by
  refine ⟨_, _, write_print fuel s (Or.inr hend), write_print fuel _ (Or.inr hend),
    take_output _ _ 67 (snapshot_length s), take_output _ _ 67 (snapshot_length s),
    ⟨rfl, rfl, rfl, rfl, rfl, rfl⟩, ⟨rfl, rfl, rfl, rfl, rfl, rfl⟩, fun h => ⟨?_, ?_⟩⟩
  · exact response_output _ _ 67 (snapshot_length s) (by decide) h
  · exact response_output _ _ 67 (snapshot_length s) (by decide) h

/-- The snapshot at the end of the game `movesO`, `lastO`. -/
theorem afterLast_snapshot :
    snapshot afterLast =
      "------O------OO-OOOOOOO----OOOOO--OOO---------------------------\tO\n".toList := by
  obtain ⟨_, _, _, _, _, _, _, _, _, _, f11, _, _, f14, _⟩ := gameO_facts
  unfold snapshot
  rw [f11, f14]
  decide

/-- A branch of `check_and_flip` returns 0 or 1, leaves the board alone when it returns 0,
and leaves it alone whenever `validate` is not 0. No assumption on the board. -/
theorem flip_branch_frame {fuel : Nat} {g : Board} {er ec orow ocol : Int} {piece opponent : Char}
    {validate : Int} {off : Int → Bool} {spos fpos : Int → Int × Int} {g' : Board} {v : Int}
    (h : flip_branch fuel g er ec orow ocol piece opponent validate off spos fpos = .ok (g', v)) :
    (v = 0 ∨ v = 1) ∧ (v = 0 → g' = g) ∧ (validate ≠ 0 → g' = g) := by
  unfold flip_branch at h
  split at h
  · exact absurd h (by simp)
  · split at h
    · exact absurd h (by simp)
    · split_ifs at h with h1 h2 h3 h4
      · split at h
        · exact absurd h (by simp)
        · split at h
          · exact absurd h (by simp)
          · simp only [Except.ok.injEq, Prod.mk.injEq] at h
            obtain ⟨_, rfl⟩ := h
            exact ⟨Or.inr rfl, fun h0 => absurd h0 (by decide), fun hv => absurd h1 hv⟩
      all_goals
        simp only [Except.ok.injEq, Prod.mk.injEq] at h
        obtain ⟨rfl, rfl⟩ := h
        first
          | exact ⟨Or.inl rfl, fun _ => rfl, fun _ => rfl⟩
          | exact ⟨Or.inr rfl, fun _ => rfl, fun _ => rfl⟩

theorem check_and_flip_frame {fuel : Nat} {g : Board} {er ec orow ocol : Int} {piece : Char}
    {validate : Int} {g' : Board} {v : Int}
    (h : check_and_flip fuel g er ec orow ocol piece validate = .ok (g', v)) :
    (v = 0 ∨ v = 1) ∧ (v = 0 → g' = g) ∧ (validate ≠ 0 → g' = g) := by
  unfold check_and_flip at h
  simp only at h
  split_ifs at h
  all_goals first
    | exact flip_branch_frame h
    | (simp only [Except.ok.injEq, Prod.mk.injEq] at h
       obtain ⟨rfl, rfl⟩ := h
       exact ⟨Or.inl rfl, fun _ => rfl, fun _ => rfl⟩)

theorem adj_step_frame {fuel : Nat} {row col : Int} {piece opponent : Char} {validate : Int}
    {orow ocol : Int} {st st' : Board × Int}
    (h : adj_step fuel row col piece opponent validate orow ocol st = .ok st') :
    (st'.2 = 1 ∨ st' = st) ∧ (validate ≠ 0 → st'.1 = st.1) := by
  unfold adj_step at h
  split at h
  · exact absurd h (by simp)
  · split_ifs at h
    · split at h
      · exact absurd h (by simp)
      · rename_i g1 move hcf
        obtain ⟨h01, h0, hval⟩ := check_and_flip_frame hcf
        split_ifs at h with hm
        · simp only [Except.ok.injEq] at h
          subst h
          exact ⟨Or.inl rfl, hval⟩
        · simp only [Except.ok.injEq] at h
          subst h
          have hz : move = 0 := by rcases h01 with h | h; exact h; exact absurd h hm
          have hg := h0 hz
          exact ⟨Or.inr (by rw [hg]), fun _ => hg⟩
    · simp only [Except.ok.injEq] at h
      subst h
      exact ⟨Or.inr rfl, fun _ => rfl⟩

theorem adj_steps_frame {fuel : Nat} {row col : Int} {piece opponent : Char} {validate : Int} :
    ∀ (cs : List (Int × Int)) {st st' : Board × Int},
      adj_steps fuel row col piece opponent validate cs st = .ok st' →
      (st'.2 = 1 ∨ st' = st) ∧ (validate ≠ 0 → st'.1 = st.1) := by
  intro cs
  induction cs with
  | nil =>
    intro st st' h
    simp only [adj_steps, Except.ok.injEq] at h
    subst h
    exact ⟨Or.inr rfl, fun _ => rfl⟩
  | cons rc rest ih =>
    intro st st' h
    obtain ⟨orow, ocol⟩ := rc
    unfold adj_steps at h
    split at h
    · exact absurd h (by simp)
    · rename_i st1 hst
      obtain ⟨a1, a2⟩ := adj_step_frame hst
      obtain ⟨b1, b2⟩ := ih h
      refine ⟨?_, fun hv => (b2 hv).trans (a2 hv)⟩
      rcases b1 with b | b
      · exact Or.inl b
      · rw [b]; exact a1

/-- The function `check_adj_cells` on any board and any cell: the result is 0 or 1, a
result 0 leaves the board as it was, and so does every call with `validate` not 0. -/
theorem check_adj_cells_frame {fuel : Nat} {g : Board} {row col : Int} {piece : Char}
    {validate : Int} {g' : Board} {v : Int}
    (h : check_adj_cells fuel g row col piece validate = .ok (g', v)) :
    (v = 0 ∨ v = 1) ∧ (v = 0 → g' = g) ∧ (validate ≠ 0 → g' = g) := by
  have key : ∀ (opp : Char) (cs : List (Int × Int)),
      adj_steps fuel row col piece opp validate cs (g, 0) = .ok (g', v) →
      (v = 0 ∨ v = 1) ∧ (v = 0 → g' = g) ∧ (validate ≠ 0 → g' = g) := by
    intro opp cs hcs
    obtain ⟨a1, a2⟩ := adj_steps_frame cs hcs
    rcases a1 with a | a
    · exact ⟨Or.inr a, fun h0 => absurd (a.symm.trans h0) (by decide), a2⟩
    · simp only [Prod.mk.injEq] at a
      exact ⟨Or.inl a.2, fun _ => a.1, fun _ => a.1⟩
  unfold check_adj_cells at h
  dsimp only at h
  generalize (if piece = 'X' then 'O' else 'X') = opp at h
  split_ifs at h <;> exact key _ _ h

theorem valid_moves_loop_frame {fuel : Nat} {piece : Char} :
    ∀ (cs : List (Int × Int)) {g g' : Board} {v : Int},
      valid_moves_loop fuel piece cs g = .ok (g', v) → g' = g ∧ (v = 0 ∨ v = 1) := by
  intro cs
  induction cs with
  | nil =>
    intro g g' v h
    simp only [valid_moves_loop, Except.ok.injEq, Prod.mk.injEq] at h
    exact ⟨h.1.symm, Or.inl h.2.symm⟩
  | cons rc rest ih =>
    intro g g' v h
    obtain ⟨i, j⟩ := rc
    unfold valid_moves_loop at h
    split at h
    · exact absurd h (by simp)
    · split_ifs at h
      · split at h
        · exact absurd h (by simp)
        · rename_i g1 check hc
          have hg1 := (check_adj_cells_frame hc).2.2 (by decide)
          split_ifs at h
          · simp only [Except.ok.injEq, Prod.mk.injEq] at h
            exact ⟨h.1.symm.trans hg1, Or.inr h.2.symm⟩
          · obtain ⟨b1, b2⟩ := ih h
            exact ⟨b1.trans hg1, b2⟩
      · exact ih h

theorem check_game_end_frame {fuel : Nat} {g g' : Board} {player bot : Char} {e : Int}
    (h : check_game_end fuel g player bot = .ok (g', e)) : g' = g := by
  unfold check_game_end check_for_valid_moves at h
  split at h
  · exact absurd h (by simp)
  · rename_i g1 c1 h1
    split at h
    · exact absurd h (by simp)
    · rename_i g2 c2 h2
      have e1 := (valid_moves_loop_frame cells h1).1
      have e2 := (valid_moves_loop_frame cells h2).1
      split_ifs at h <;>
        (simp only [Except.ok.injEq, Prod.mk.injEq] at h
         exact h.1.symm.trans (e2.trans e1))

/-- A buffer that starts with the byte `'0'` does not read as an error text. -/
theorem not_error_of_zero_digit {s : State} (h : s.kern_buf.getD 0 '\x00' = '0') :
    ¬ isErrorText (response s) := by
  unfold response isErrorText
  cases hk : s.kern_buf with
  | nil => rw [hk] at h; exact absurd h (by decide)
  | cons a rest =>
    rw [hk] at h
    simp only [List.getD_cons_zero] at h
    subst h
    simp [List.takeWhile, INVFMT, NOGAME, OOT, ILLMOVE]

/-- What `count_pieces` leaves in `kern_buf` is an outcome text or the buffer as it was. -/
theorem count_pieces_frame {s s' : State} (h : count_pieces s = .ok s') :
    (response s' = WIN ∨ response s' = LOSE ∨ response s' = TIE) ∨ s'.kern_buf = s.kern_buf := by
  unfold count_pieces at h
  split at h
  · exact absurd h (by simp)
  · split_ifs at h <;>
      (simp only [Except.ok.injEq] at h
       subst h
       first
         | exact Or.inr rfl
         | exact Or.inl (Or.inl rfl)
         | exact Or.inl (Or.inr (Or.inl rfl))
         | exact Or.inl (Or.inr (Or.inr rfl)))

/-- After `finish_move` the buffer reads `OK` or an outcome, or is the buffer as it was:
never an error text when the buffer started with `'0'`. -/
theorem finish_move_frame {fuel : Nat} {s s' : State} {next : Char}
    (h : finish_move fuel s next = .ok s') (hk : s.kern_buf.getD 0 '\x00' = '0') :
    ¬ isErrorText (response s') := by
  unfold finish_move at h
  split at h
  · exact absurd h (by simp)
  · split_ifs at h
    · dsimp only at h
      split at h
      · exact absurd h (by simp)
      · rename_i s2 hc
        simp only [Except.ok.injEq] at h
        subst h
        rcases count_pieces_frame hc with hr | hr
        · have hr2 : response { s2 with game_flag := 0, game_print_end := 1 } = response s2 := rfl
          rw [isErrorText, hr2]
          rcases hr with hr | hr | hr <;> (rw [hr]; decide)
        · exact not_error_of_zero_digit (s := { s2 with game_flag := 0, game_print_end := 1 })
            (by show s2.kern_buf.getD 0 '\x00' = '0'; rw [hr]; exact hk)
    · simp only [Except.ok.injEq] at h
      subst h
      rw [isErrorText, response_out_OK]
      decide

/-- The inner loop of the bot command on any state: either a move was made (`check` is 1
and the buffer does not read as an error), or the state is as it was and `check` is the
incoming value or 0. -/
theorem bot_inner_frame {fuel : Nat} {i : Int} :
    ∀ (js : List Int) {s s' : State} {check check' : Int},
      bot_inner fuel i js s check = .ok (s', check') →
      s.kern_buf.getD 0 '\x00' = '0' →
      (check' = 1 ∧ ¬ isErrorText (response s')) ∨ (s' = s ∧ (check' = check ∨ check' = 0)) := by
  intro js
  induction js with
  | nil =>
    intro s s' check check' h _
    simp only [bot_inner, Except.ok.injEq, Prod.mk.injEq] at h
    exact Or.inr ⟨h.1.symm, Or.inl h.2.symm⟩
  | cons j rest ih =>
    intro s s' check check' h hk
    unfold bot_inner at h
    split at h
    · exact absurd h (by simp)
    · split_ifs at h
      · split at h
        · exact absurd h (by simp)
        · rename_i g1 check1 hc
          obtain ⟨h01, h0, _⟩ := check_adj_cells_frame hc
          dsimp only at h
          split_ifs at h with h1
          · split at h
            · exact absurd h (by simp)
            · rename_i s2 hf
              simp only [Except.ok.injEq, Prod.mk.injEq] at h
              obtain ⟨rfl, rfl⟩ := h
              exact Or.inl ⟨h1, finish_move_frame hf hk⟩
          · have hz : check1 = 0 := by rcases h01 with h | h; exact h; exact absurd h h1
            have hg := h0 hz
            subst hg
            subst hz
            rcases ih h hk with a | ⟨a1, a2⟩
            · exact Or.inl a
            · exact Or.inr ⟨a1, Or.inr (by rcases a2 with a | a <;> exact a)⟩
      · exact ih h hk

theorem bot_outer_frame {fuel : Nat} :
    ∀ (rows : List Int) {s s' : State} {check check' : Int},
      bot_outer fuel rows s check = .ok (s', check') →
      s.kern_buf.getD 0 '\x00' = '0' →
      (check' = 1 ∧ ¬ isErrorText (response s')) ∨ (s' = s ∧ (check' = check ∨ check' = 0)) := by
  intro rows
  induction rows with
  | nil =>
    intro s s' check check' h _
    simp only [bot_outer, Except.ok.injEq, Prod.mk.injEq] at h
    exact Or.inr ⟨h.1.symm, Or.inl h.2.symm⟩
  | cons i rest ih =>
    intro s s' check check' h hk
    unfold bot_outer at h
    split at h
    · exact absurd h (by simp)
    · rename_i s1 check1 hrow
      rcases bot_inner_frame idx8 hrow hk with a | ⟨a1, a2⟩
      · rw [if_pos a.1] at h
        simp only [Except.ok.injEq, Prod.mk.injEq] at h
        obtain ⟨rfl, rfl⟩ := h
        exact Or.inl a
      · subst a1
        split_ifs at h with h1
        · simp only [Except.ok.injEq, Prod.mk.injEq] at h
          obtain ⟨rfl, rfl⟩ := h
          exact Or.inr ⟨rfl, a2⟩
        · rcases ih h hk with b | ⟨b1, b2⟩
          · exact Or.inl b
          · refine Or.inr ⟨b1, ?_⟩
            rcases b2 with b | b
            · rw [b]; exact a2
            · exact Or.inr b

theorem same_of_out {s s' : State} {t : List Char} {n : Nat} {r0 r : Int}
    (h : (Except.ok (s.out t n, r0) : Except Fault (State × Int)) = .ok (s', r)) :
    sameGame s s' := by
  simp only [Except.ok.injEq, Prod.mk.injEq] at h
  obtain ⟨rfl, _⟩ := h
  exact ⟨rfl, rfl, rfl, rfl, rfl, rfl⟩

/-- The function `start` on any state, with any buffer and length: when the buffer reads
as an error text afterwards, the board, `turn`, `player`, `bot` and the two flags are as
before. -/
theorem start_error_frame {fuel : Nat} {s s' : State} {length r : Int}
    (h : start fuel s length = .ok (s', r)) (herr : isErrorText (response s')) :
    sameGame s s' := by
  unfold start at h
  dsimp only at h
  by_cases k0 : s.kern_buf.getD 0 '\x00' ≠ '0'
  · rw [if_pos k0] at h
    exact same_of_out h
  rw [if_neg k0] at h
  by_cases klen : length > 7
  · rw [if_pos klen] at h
    exact same_of_out h
  rw [if_neg klen] at h
  have hk0 : s.kern_buf.getD 0 '\x00' = '0' := not_not.1 k0
  by_cases k1 : s.kern_buf.getD 1 '\x00' = '0'
  · -- start game
    rw [if_pos k1] at h
    by_cases a2 : s.kern_buf.getD 2 '\x00' ≠ ' '
    · rw [if_pos a2] at h
      exact same_of_out h
    rw [if_neg a2] at h
    by_cases a3 : s.kern_buf.getD 3 '\x00' ≠ 'X' ∧ s.kern_buf.getD 3 '\x00' ≠ 'O'
    · rw [if_pos a3] at h
      exact same_of_out h
    rw [if_neg a3] at h
    simp only [Except.ok.injEq, Prod.mk.injEq] at h
    obtain ⟨rfl, _⟩ := h
    rw [response_out_OK] at herr
    exact absurd herr (by unfold isErrorText; decide)
  rw [if_neg k1] at h
  by_cases k2 : s.kern_buf.getD 1 '\x00' = '1'
  · -- print board
    rw [if_pos k2] at h
    by_cases b2 : s.kern_buf.getD 2 '\x00' ≠ '\n'
    · rw [if_pos b2] at h
      exact same_of_out h
    rw [if_neg b2] at h
    by_cases b3 : s.game_flag = 0 ∧ s.game_print_end ≠ 1
    · rw [if_pos b3] at h
      exact same_of_out h
    rw [if_neg b3] at h
    cases hp : print_loop s.gameboard cells with
    | error e => rw [hp] at h; exact absurd h (by simp)
    | ok l => rw [hp] at h; exact same_of_out h
  rw [if_neg k2] at h
  by_cases k3 : s.kern_buf.getD 1 '\x00' = '2'
  · -- place piece
    rw [if_pos k3] at h
    by_cases c2 : s.kern_buf.getD 2 '\x00' ≠ ' '
    · rw [if_pos c2] at h
      exact same_of_out h
    rw [if_neg c2] at h
    by_cases c4 : s.kern_buf.getD 4 '\x00' ≠ ' '
    · rw [if_pos c4] at h
      exact same_of_out h
    rw [if_neg c4] at h
    by_cases c6 : s.kern_buf.getD 6 '\x00' ≠ '\n'
    · rw [if_pos c6] at h
      exact same_of_out h
    rw [if_neg c6] at h
    by_cases ct : s.turn ≠ s.player
    · rw [if_pos ct] at h
      exact same_of_out h
    rw [if_neg ct] at h
    by_cases cf : s.game_flag = 0
    · rw [if_pos cf] at h
      exact same_of_out h
    rw [if_neg cf] at h
    generalize ((s.kern_buf.getD 3 '\x00').toNat : Int) - 48 = col at h
    generalize ((s.kern_buf.getD 5 '\x00').toNat : Int) - 48 = row at h
    by_cases cc : col < 0 ∨ col > 7
    · rw [if_pos cc] at h
      exact same_of_out h
    rw [if_neg cc] at h
    by_cases cr : row < 0 ∨ row > 7
    · rw [if_pos cr] at h
      exact same_of_out h
    rw [if_neg cr] at h
    cases hrd : rd s.gameboard row col with
    | error e => rw [hrd] at h; exact absurd h (by simp)
    | ok v =>
      rw [hrd] at h
      dsimp only at h
      by_cases hv : v ≠ '-'
      · rw [if_pos hv] at h
        dsimp only at h
        rw [if_pos rfl] at h
        exact sameGame_trans (s := s) (t := s.out ILLMOVE 7) ⟨rfl, rfl, rfl, rfl, rfl, rfl⟩
          (same_of_out h)
      rw [if_neg hv] at h
      cases hc : check_adj_cells fuel s.gameboard row col s.turn 0 with
      | error e => rw [hc] at h; exact absurd h (by simp)
      | ok p =>
        obtain ⟨g1, check⟩ := p
        rw [hc] at h
        dsimp only at h
        by_cases hz : check = 0
        · rw [if_pos hz] at h
          have hg := (check_adj_cells_frame hc).2.1 hz
          subst hg
          exact same_of_out h
        rw [if_neg hz] at h
        cases hf : finish_move fuel { s with gameboard := g1 } s.bot with
        | error e => rw [hf] at h; exact absurd h (by simp)
        | ok s2 =>
          rw [hf] at h
          simp only [Except.ok.injEq, Prod.mk.injEq] at h
          obtain ⟨rfl, _⟩ := h
          exact absurd herr (finish_move_frame hf hk0)
  rw [if_neg k3] at h
  by_cases k4 : s.kern_buf.getD 1 '\x00' = '3'
  · -- bot move
    rw [if_pos k4] at h
    by_cases d2 : s.kern_buf.getD 2 '\x00' ≠ '\n'
    · rw [if_pos d2] at h
      exact same_of_out h
    rw [if_neg d2] at h
    by_cases dt : s.turn ≠ s.bot
    · rw [if_pos dt] at h
      exact same_of_out h
    rw [if_neg dt] at h
    by_cases df : s.game_flag = 0
    · rw [if_pos df] at h
      exact same_of_out h
    rw [if_neg df] at h
    cases hb : bot_outer fuel idx8 s 0 with
    | error e => rw [hb] at h; exact absurd h (by simp)
    | ok p =>
      obtain ⟨s1, check⟩ := p
      rw [hb] at h
      dsimp only at h
      rcases bot_outer_frame idx8 hb hk0 with ⟨a1, a2⟩ | ⟨a1, _⟩
      · subst a1
        rw [if_neg (by decide)] at h
        simp only [Except.ok.injEq, Prod.mk.injEq] at h
        obtain ⟨rfl, _⟩ := h
        exact absurd herr a2
      · subst a1
        by_cases hz : check = 0
        · rw [if_pos hz] at h
          exact same_of_out h
        · rw [if_neg hz] at h
          simp only [Except.ok.injEq, Prod.mk.injEq] at h
          obtain ⟨rfl, _⟩ := h
          exact sameGame_refl _
  rw [if_neg k4] at h
  by_cases k5 : s.kern_buf.getD 1 '\x00' = '4'
  · -- skip turn
    rw [if_pos k5] at h
    by_cases e2 : s.kern_buf.getD 2 '\x00' ≠ '\n'
    · rw [if_pos e2] at h
      exact same_of_out h
    rw [if_neg e2] at h
    by_cases ef : s.game_flag = 0
    · rw [if_pos ef] at h
      exact same_of_out h
    rw [if_neg ef] at h
    cases hm : check_for_valid_moves fuel s.gameboard s.turn with
    | error e => rw [hm] at h; exact absurd h (by simp)
    | ok p =>
      obtain ⟨g1, check⟩ := p
      rw [hm] at h
      dsimp only at h
      have hg := (valid_moves_loop_frame cells hm).1
      subst hg
      by_cases hz : check = 0
      · rw [if_pos hz] at h
        have hok : ¬ isErrorText OK := by unfold isErrorText; decide
        split_ifs at h <;>
          (simp only [Except.ok.injEq, Prod.mk.injEq] at h
           obtain ⟨rfl, _⟩ := h
           exact absurd herr hok)
      rw [if_neg hz] at h
      by_cases h1 : check = 1
      · rw [if_pos h1] at h
        exact same_of_out h
      · rw [if_neg h1] at h
        simp only [Except.ok.injEq, Prod.mk.injEq] at h
        obtain ⟨rfl, _⟩ := h
        exact sameGame_refl _
  rw [if_neg k5] at h
  simp only [Except.ok.injEq, Prod.mk.injEq] at h
  obtain ⟨rfl, _⟩ := h
  exact sameGame_refl _

/-- The place command on the human's turn in an active session with a coordinate byte
outside `'0'..'7'`: the range tests of `start` answer `ILLMOVE`. -/
theorem write_place_offboard (fuel : Nat) (s : State) (ht : s.turn = s.player)
    (hf : s.game_flag ≠ 0) (col row : Char)
    (h : ((col.toNat : Int) - 48 < 0 ∨ (col.toNat : Int) - 48 > 7) ∨
      ((row.toNat : Int) - 48 < 0 ∨ (row.toNat : Int) - 48 > 7)) :
    reversi_write fuel s (cmd_place col row) =
      .ok ({ s with kern_buf := cmd_place col row ++ s.kern_buf.drop 7 }.out ILLMOVE 7) := by
  have ht' : (s.turn = s.player) = True := eq_true ht
  have hf' : (s.game_flag = 0) = False := eq_false hf
  unfold reversi_write start
  by_cases hc : col.toNat < 48 ∨ 7 < (col.toNat : Int) - 48
  · simp [cmd_place, ht', hf', hc]
  · have hr : row.toNat < 48 ∨ 7 < (row.toNat : Int) - 48 := by omega
    simp [cmd_place, ht', hf', hc, hr]

/-- A place command with a coordinate byte that is not a digit, on any state. -/
theorem write_place_non_digit (fuel : Nat) (s : State) (c r : Char)
    (hnd : ¬ isAsciiDigit c ∨ ¬ isAsciiDigit r) :
    ∃ s' : State, reversi_write fuel s (cmd_place c r) = .ok s' ∧ sameGame s s' ∧
      response s' =
        (if s.turn ≠ s.player then OOT else if s.game_flag = 0 then NOGAME else ILLMOVE) := by
  by_cases ht : s.turn ≠ s.player
  · rw [if_pos ht]
    exact ⟨_, write_place_oot fuel s ht c r, ⟨rfl, rfl, rfl, rfl, rfl, rfl⟩, rfl⟩
  rw [if_neg ht]
  have ht2 : s.turn = s.player := not_not.1 ht
  by_cases hf : s.game_flag = 0
  · rw [if_pos hf]
    refine ⟨_, write_place_inactive fuel s hf c r, ⟨rfl, rfl, rfl, rfl, rfl, rfl⟩, ?_⟩
    rw [response_out_cases, if_pos ht2]
  rw [if_neg hf]
  refine ⟨_, write_place_offboard fuel s ht2 hf c r ?_, ⟨rfl, rfl, rfl, rfl, rfl, rfl⟩, rfl⟩
  unfold isAsciiDigit at hnd
  omega

/-- The two format tests made on every command line: a first byte other than `'0'`, or
more than 7 bytes, is answered `INVFMT`. -/
theorem write_bad_head (fuel : Nat) (s : State) (ubuf : List Char)
    (h : (ubuf ≠ [] ∧ ubuf.head? ≠ some '0') ∨ 7 < ubuf.length) :
    ∃ s' : State, reversi_write fuel s ubuf = .ok s' ∧ response s' = INVFMT ∧ sameGame s s' := by
  unfold reversi_write start
  dsimp only
  by_cases k0 : (ubuf.take (min ubuf.length 120) ++
      s.kern_buf.drop (min ubuf.length 120)).getD 0 '\x00' ≠ '0'
  · rw [if_pos k0]
    exact ⟨_, rfl, rfl, ⟨rfl, rfl, rfl, rfl, rfl, rfl⟩⟩
  rw [if_neg k0]
  have hlen : ((min ubuf.length 120 : Nat) : Int) > 7 := by
    rcases h with ⟨hne, hh⟩ | h
    · exfalso
      apply k0
      cases ubuf with
      | nil => exact absurd rfl hne
      | cons a rest =>
        have h1 : min (a :: rest).length 120 = (min rest.length 119) + 1 := by
          simp only [List.length_cons]; omega
        rw [h1]
        simp only [List.take_succ_cons, List.cons_append, List.getD_cons_zero]
        intro ha
        exact hh (by rw [ha]; rfl)
    · have : 7 < min ubuf.length 120 := by omega
      exact_mod_cast this
  rw [if_pos hlen]
  exact ⟨_, rfl, rfl, ⟨rfl, rfl, rfl, rfl, rfl, rfl⟩⟩

/-- A seven-byte place line with a wrong separator or terminator is answered `INVFMT`. -/
theorem write_place_bad_separator (fuel : Nat) (s : State) (a c b r e : Char)
    (h : a ≠ ' ' ∨ b ≠ ' ' ∨ e ≠ '\n') :
    ∃ s' : State, reversi_write fuel s ['0', '2', a, c, b, r, e] = .ok s' ∧
      response s' = INVFMT ∧ sameGame s s' := by
  unfold reversi_write start
  by_cases ha : a = ' '
  · by_cases hb : b = ' '
    · have he : e ≠ '\n' := by
        rcases h with h | h | h
        · exact absurd ha h
        · exact absurd hb h
        · exact h
      simp only [ha, hb]
      simp [he]
      exact ⟨rfl, ⟨rfl, rfl, rfl, rfl, rfl, rfl⟩⟩
    · simp only [ha]
      simp [hb]
      exact ⟨rfl, ⟨rfl, rfl, rfl, rfl, rfl, rfl⟩⟩
  · simp [ha]
    exact ⟨rfl, ⟨rfl, rfl, rfl, rfl, rfl, rfl⟩⟩

/-- Two boards and values that are both the effect of a direction are the same. -/
theorem dirEffect_unique {g g1 g2 : Board} {r c : Int} {p : Char} {d : Int × Int}
    {validate v1 v2 : Int} (hv : validate = 0 ∨ validate = 1)
    (h1 : DirEffect g r c p d validate g1 v1) (h2 : DirEffect g r c p d validate g2 v2) :
    g1 = g2 ∧ v1 = v2 := by
  by_cases hc : ∃ k : Nat, captures g r c p d k
  · obtain ⟨k, hk⟩ := hc
    obtain ⟨a1, a2, a3⟩ := h1.2 k hk
    obtain ⟨b1, b2, b3⟩ := h2.2 k hk
    refine ⟨?_, a1.trans b1.symm⟩
    rcases hv with hv | hv
    · obtain ⟨o1, run1, fr1⟩ := a3 hv
      obtain ⟨o2, run2, fr2⟩ := b3 hv
      funext r' c'
      by_cases ho : r' = r ∧ c' = c
      · rw [ho.1, ho.2, o1, o2]
      · by_cases hin : ∃ m : Nat, 1 ≤ m ∧ m ≤ k ∧
            r' = r + (m : Int) * d.1 ∧ c' = c + (m : Int) * d.2
        · obtain ⟨m, m1, m2, e1, e2⟩ := hin
          rw [e1, e2, run1 m m1 m2, run2 m m1 m2]
        · have hout : ∀ m : Nat, 1 ≤ m → m ≤ k →
              ¬ (r' = r + (m : Int) * d.1 ∧ c' = c + (m : Int) * d.2) :=
            fun m m1 m2 hh => hin ⟨m, m1, m2, hh.1, hh.2⟩
          rw [fr1 r' c' ho hout, fr2 r' c' ho hout]
    · rw [a2 hv, b2 hv]
  · obtain ⟨a1, a2⟩ := h1.1 hc
    obtain ⟨b1, b2⟩ := h2.1 hc
    exact ⟨a1.trans b1.symm, a2.trans b2.symm⟩

theorem scan_loop_succ (g : Board) (piece opponent : Char) (off : Int → Bool)
    (pos : Int → Int × Int) (fuel : Nat) (i : Int) :
    scan_loop g piece opponent off pos (fuel + 1) i =
      if off i then .ok 0
      else
        match rd g (pos i).1 (pos i).2 with
        | .error e => .error e
        | .ok v =>
          if v = '-' then .ok 0
          else if v = piece then .ok 1
          else if v = opponent then scan_loop g piece opponent off pos fuel (i + 1)
          else scan_loop g piece opponent off pos fuel i := rfl

/-- More fuel does not change a result of the scan loop other than running out of fuel. -/
theorem scan_loop_mono {g : Board} {piece opponent : Char} {off : Int → Bool}
    {pos : Int → Int × Int} :
    ∀ (fuel fuel' : Nat) (i : Int), fuel ≤ fuel' →
      scan_loop g piece opponent off pos fuel i ≠ .error .outOfFuel →
      scan_loop g piece opponent off pos fuel' i =
        scan_loop g piece opponent off pos fuel i := by
  intro fuel
  induction fuel with
  | zero => intro fuel' i _ h; exact absurd rfl h
  | succ n ih =>
    intro fuel' i hle h
    obtain ⟨m, rfl⟩ : ∃ m, fuel' = m + 1 := ⟨fuel' - 1, by omega⟩
    rw [scan_loop_succ] at h
    rw [scan_loop_succ, scan_loop_succ]
    by_cases ho : off i = true
    · rw [if_pos ho, if_pos ho]
    · rw [if_neg ho] at h
      rw [if_neg ho, if_neg ho]
      revert h
      cases rd g (pos i).1 (pos i).2 with
      | error e => intro _; rfl
      | ok v =>
        dsimp only
        intro h
        by_cases h1 : v = '-'
        · rw [if_pos h1, if_pos h1]
        rw [if_neg h1] at h
        rw [if_neg h1, if_neg h1]
        by_cases h2 : v = piece
        · rw [if_pos h2, if_pos h2]
        rw [if_neg h2] at h
        rw [if_neg h2, if_neg h2]
        by_cases h3 : v = opponent
        · rw [if_pos h3] at h
          rw [if_pos h3, if_pos h3]
          exact ih m (i + 1) (by omega) h
        · rw [if_neg h3] at h
          rw [if_neg h3, if_neg h3]
          exact ih m i (by omega) h

theorem flip_loop_succ (piece : Char) (pos : Int → Int × Int) (fuel : Nat) (g : Board)
    (i : Int) :
    flip_loop piece pos (fuel + 1) g i =
      match rd g (pos i).1 (pos i).2 with
      | .error e => .error e
      | .ok v =>
        if v = piece then .ok g
        else
          match wr g (pos i).1 (pos i).2 piece with
          | .error e => .error e
          | .ok g1 => flip_loop piece pos fuel g1 (i + 1) := rfl

/-- More fuel does not change a result of the flip loop other than running out of fuel. -/
theorem flip_loop_mono {piece : Char} {pos : Int → Int × Int} :
    ∀ (fuel fuel' : Nat) (g : Board) (i : Int), fuel ≤ fuel' →
      flip_loop piece pos fuel g i ≠ .error .outOfFuel →
      flip_loop piece pos fuel' g i = flip_loop piece pos fuel g i := by
  intro fuel
  induction fuel with
  | zero => intro fuel' g i _ h; exact absurd rfl h
  | succ n ih =>
    intro fuel' g i hle h
    obtain ⟨m, rfl⟩ : ∃ m, fuel' = m + 1 := ⟨fuel' - 1, by omega⟩
    rw [flip_loop_succ] at h
    rw [flip_loop_succ, flip_loop_succ]
    revert h
    cases rd g (pos i).1 (pos i).2 with
    | error e => intro _; rfl
    | ok v =>
      dsimp only
      intro h
      by_cases h1 : v = piece
      · rw [if_pos h1, if_pos h1]
      rw [if_neg h1] at h
      rw [if_neg h1, if_neg h1]
      revert h
      cases wr g (pos i).1 (pos i).2 piece with
      | error e => intro _; rfl
      | ok g1 =>
        dsimp only
        intro h
        exact ih m g1 (i + 1) (by omega) h

/-- More fuel does not change a result of a branch of `check_and_flip` other than running
out of fuel. -/
theorem flip_branch_mono {fuel fuel' : Nat} (hle : fuel ≤ fuel') {g : Board}
    {er ec orow ocol : Int} {piece opponent : Char} {validate : Int} {off : Int → Bool}
    {spos fpos : Int → Int × Int}
    (h : flip_branch fuel g er ec orow ocol piece opponent validate off spos fpos ≠
      .error .outOfFuel) :
    flip_branch fuel' g er ec orow ocol piece opponent validate off spos fpos =
      flip_branch fuel g er ec orow ocol piece opponent validate off spos fpos := by
  unfold flip_branch at h ⊢
  revert h
  cases rd g orow ocol with
  | error e => intro _; rfl
  | ok chk =>
    dsimp only
    intro h
    have hs : scan_loop g piece opponent off spos fuel 1 ≠ .error .outOfFuel := by
      intro hc
      rw [hc] at h
      exact h rfl
    rw [scan_loop_mono fuel fuel' 1 hle hs]
    revert h
    cases scan_loop g piece opponent off spos fuel 1 with
    | error e => intro _; rfl
    | ok valid =>
      dsimp only
      intro h
      by_cases h0 : validate = 0
      · rw [if_pos h0] at h
        rw [if_pos h0, if_pos h0]
        by_cases h1 : valid = 1
        · rw [if_pos h1] at h
          rw [if_pos h1, if_pos h1]
          revert h
          cases wr g er ec piece with
          | error e => intro _; rfl
          | ok g1 =>
            dsimp only
            intro h
            have hf : flip_loop piece fpos fuel g1 1 ≠ .error .outOfFuel := by
              intro hc
              rw [hc] at h
              exact h rfl
            rw [flip_loop_mono fuel fuel' g1 1 hle hf]
        · rw [if_neg h1, if_neg h1]
      · rw [if_neg h0, if_neg h0]

theorem ite_mono {α : Type} {cnd : Prop} [Decidable cnd] {a a' b b' : Except Fault α}
    (ha : a ≠ .error .outOfFuel → a' = a) (hb : b ≠ .error .outOfFuel → b' = b) :
    (if cnd then a else b) ≠ .error .outOfFuel →
      (if cnd then a' else b') = (if cnd then a else b) := by
  intro h
  by_cases hc : cnd
  · rw [if_pos hc] at h
    rw [if_pos hc, if_pos hc]
    exact ha h
  · rw [if_neg hc] at h
    rw [if_neg hc, if_neg hc]
    exact hb h

/-- More fuel does not change a result of `check_and_flip` other than running out of
fuel. -/
theorem check_and_flip_mono {fuel fuel' : Nat} (hle : fuel ≤ fuel') {g : Board}
    {er ec orow ocol : Int} {piece : Char} {validate : Int}
    (h : check_and_flip fuel g er ec orow ocol piece validate ≠ .error .outOfFuel) :
    check_and_flip fuel' g er ec orow ocol piece validate =
      check_and_flip fuel g er ec orow ocol piece validate := by
  unfold check_and_flip at h ⊢
  dsimp only at h ⊢
  revert h
  refine ite_mono (flip_branch_mono hle) ?_
  refine ite_mono (flip_branch_mono hle) ?_
  refine ite_mono (flip_branch_mono hle) ?_
  refine ite_mono (flip_branch_mono hle) ?_
  refine ite_mono (flip_branch_mono hle) ?_
  refine ite_mono (flip_branch_mono hle) ?_
  refine ite_mono (flip_branch_mono hle) ?_
  exact ite_mono (flip_branch_mono hle) (fun _ => rfl)

theorem adj_step_mono {fuel fuel' : Nat} (hle : fuel ≤ fuel') {row col : Int}
    {piece opponent : Char} {validate : Int} {orow ocol : Int} {st : Board × Int}
    (h : adj_step fuel row col piece opponent validate orow ocol st ≠ .error .outOfFuel) :
    adj_step fuel' row col piece opponent validate orow ocol st =
      adj_step fuel row col piece opponent validate orow ocol st := by
  unfold adj_step at h ⊢
  revert h
  cases rd st.1 orow ocol with
  | error e => intro _; rfl
  | ok v =>
    dsimp only
    intro h
    by_cases hv : v = opponent
    · rw [if_pos hv] at h
      rw [if_pos hv, if_pos hv]
      have hc : check_and_flip fuel st.1 row col orow ocol piece validate ≠
          .error .outOfFuel := by
        intro hc
        rw [hc] at h
        exact h rfl
      rw [check_and_flip_mono hle hc]
    · rw [if_neg hv, if_neg hv]

theorem adj_steps_mono {fuel fuel' : Nat} (hle : fuel ≤ fuel') {row col : Int}
    {piece opponent : Char} {validate : Int} :
    ∀ (cs : List (Int × Int)) (st : Board × Int),
      adj_steps fuel row col piece opponent validate cs st ≠ .error .outOfFuel →
      adj_steps fuel' row col piece opponent validate cs st =
        adj_steps fuel row col piece opponent validate cs st := by
  intro cs
  induction cs with
  | nil => intro st _; rfl
  | cons rc rest ih =>
    intro st h
    obtain ⟨orow, ocol⟩ := rc
    unfold adj_steps at h ⊢
    have hs : adj_step fuel row col piece opponent validate orow ocol st ≠
        .error .outOfFuel := by
      intro hc
      rw [hc] at h
      exact h rfl
    rw [adj_step_mono hle hs]
    revert h
    cases adj_step fuel row col piece opponent validate orow ocol st with
    | error e => intro _; rfl
    | ok st1 =>
      dsimp only
      intro h
      exact ih st1 h

/-- More fuel does not change a result of `check_adj_cells` other than running out of
fuel. -/
theorem check_adj_cells_mono {fuel fuel' : Nat} (hle : fuel ≤ fuel') {g : Board}
    {row col : Int} {piece : Char} {validate : Int}
    (h : check_adj_cells fuel g row col piece validate ≠ .error .outOfFuel) :
    check_adj_cells fuel' g row col piece validate =
      check_adj_cells fuel g row col piece validate := by
  unfold check_adj_cells at h ⊢
  dsimp only at h ⊢
  revert h
  refine ite_mono (adj_steps_mono hle _ _) ?_
  refine ite_mono (adj_steps_mono hle _ _) ?_
  refine ite_mono (adj_steps_mono hle _ _) ?_
  refine ite_mono (adj_steps_mono hle _ _) ?_
  refine ite_mono (adj_steps_mono hle _ _) ?_
  refine ite_mono (adj_steps_mono hle _ _) ?_
  refine ite_mono (adj_steps_mono hle _ _) ?_
  exact ite_mono (adj_steps_mono hle _ _) (adj_steps_mono hle _ _)

/-- The effect of `check_adj_cells` whenever it returns, whatever the fuel. -/
theorem check_adj_cells_of_ok {g : Board} (hg : g.valid) {p : Char} (hp : p = 'X' ∨ p = 'O')
    {r c : Int} (hrc : onBoard r c) {validate : Int} (hv : validate = 0 ∨ validate = 1)
    {fuel : Nat} {g' : Board} {v : Int}
    (h : check_adj_cells fuel g r c p validate = .ok (g', v)) :
    AdjEffect g r c p dirs validate g 0 g' v ∧ g'.valid := by
  have hm : check_adj_cells (fuel + 7) g r c p validate =
      check_adj_cells fuel g r c p validate :=
    check_adj_cells_mono (Nat.le_add_right fuel 7) (by rw [h]; exact fun hc => by cases hc)
  obtain ⟨g2, v2, hrun, heff, hval⟩ :=
    check_adj_cells_spec hg hp hrc hv (Nat.le_add_left 7 fuel)
  rw [hm, h] at hrun
  simp only [Except.ok.injEq, Prod.mk.injEq] at hrun
  obtain ⟨rfl, rfl⟩ := hrun
  exact ⟨heff, hval⟩

/-- The scan loop never leaves a cell that is on the board and holds none of `'-'`, the
piece and the opponent's piece: every amount of fuel is used up. -/
theorem scan_loop_stuck {g : Board} {piece opponent : Char} {off : Int → Bool}
    {pos : Int → Int × Int} {i : Int} (hoff : off i = false)
    (hon : onBoard (pos i).1 (pos i).2)
    (h1 : g (pos i).1 (pos i).2 ≠ '-') (h2 : g (pos i).1 (pos i).2 ≠ piece)
    (h3 : g (pos i).1 (pos i).2 ≠ opponent) :
    ∀ fuel : Nat, scan_loop g piece opponent off pos fuel i = .error .outOfFuel := by
  intro fuel
  induction fuel with
  | zero => rfl
  | succ n ih =>
    unfold scan_loop
    rw [hoff, rd_on hon]
    simp only [Bool.false_eq_true, if_false]
    rw [if_neg h1, if_neg h2, if_neg h3]
    exact ih

/-- On `odd_board`, `check_and_flip` for `'X'` placed at (0,0) looking right never
returns: the adjacent cell holds `'O'`, the next one `'?'`, and the scan loop stays
there. -/
theorem odd_board_stuck (fuel : Nat) (validate : Int) :
    check_and_flip fuel odd_board 0 0 0 1 'X' validate = .error .outOfFuel := by
  unfold check_and_flip
  simp only
  rw [if_neg (by decide), if_neg (by decide)]
  rw [if_neg (by decide), if_neg (by decide)]
  rw [if_pos (by decide)]
  unfold flip_branch
  rw [rd_on (by decide)]
  simp only
  rw [scan_loop_stuck (i := 1) (by decide) (by decide) (by decide) (by decide) (by decide) fuel]

/-- Counting over a list of distinct cells when the cell `o` goes from empty to `p`, some
cells go from `q` to `p` and every other cell is kept: the number of `p` grows by the
number `n` of flipped cells (plus one when `o` is listed), the number of `q` shrinks by
`n`. -/
theorem count_flip (g g' : Board) {p q : Char} (hpq : p ≠ q) (hpe : p ≠ '-') (hqe : q ≠ '-')
    (o : Int × Int) :
    ∀ l : List (Int × Int), l.Nodup →
      (∀ rc ∈ l, (rc = o ∧ g rc.1 rc.2 = '-' ∧ g' rc.1 rc.2 = p) ∨
        (rc ≠ o ∧ g rc.1 rc.2 = q ∧ g' rc.1 rc.2 = p) ∨
        (rc ≠ o ∧ g' rc.1 rc.2 = g rc.1 rc.2)) →
      ∃ n : Nat,
        (l.map fun rc => g' rc.1 rc.2).count p =
          (l.map fun rc => g rc.1 rc.2).count p + n + (if o ∈ l then 1 else 0) ∧
        (l.map fun rc => g rc.1 rc.2).count q = (l.map fun rc => g' rc.1 rc.2).count q + n ∧
        (∀ rc ∈ l, rc ≠ o → g rc.1 rc.2 = q → g' rc.1 rc.2 = p → 1 ≤ n) := by
  intro l
  induction l with
  | nil => intro _ _; exact ⟨0, by simp⟩
  | cons a t ih =>
    intro hnd hcell
    have hnd' := List.nodup_cons.1 hnd
    obtain ⟨n, h1, h2, h3⟩ := ih hnd'.2 (fun rc h => hcell rc (List.mem_cons_of_mem _ h))
    simp only [List.map_cons, List.count_cons, List.mem_cons]
    rcases hcell a (List.mem_cons_self _ _) with ⟨ha, hg, hg'⟩ | ⟨ha, hg, hg'⟩ | ⟨ha, hg'⟩
    · -- the origin
      subst ha
      have hnot : a ∉ t := hnd'.1
      rw [if_neg hnot] at h1
      refine ⟨n, ?_, ?_, ?_⟩
      · rw [hg, hg', h1]
        simp [Ne.symm hpe]
      · rw [hg, hg', h2]
        simp [Ne.symm hqe, hpq]
      · intro rc hrc hne
        rcases hrc with h | h
        · exact absurd h hne
        · exact h3 rc h hne
    · -- a flipped cell
      refine ⟨n + 1, ?_, ?_, fun _ _ _ _ _ => by omega⟩
      · rw [hg, hg', h1]
        have : (o = a) = False := eq_false (fun h => ha h.symm)
        simp only [this, false_or, beq_self_eq_true, if_true, beq_iff_eq, Ne.symm hpq, if_false]
        omega
      · rw [hg, hg', h2]
        simp [hpq]
        omega
    · -- a cell that is kept
      refine ⟨n, ?_, ?_, ?_⟩
      · rw [hg', h1]
        have : (o = a) = False := eq_false (fun h => ha h.symm)
        simp only [this, false_or]
        omega
      · rw [hg', h2]
        omega
      · intro rc hrc hne hq hp'
        rcases hrc with h | h
        · subst h
          rw [hg', hq] at hp'
          exact absurd hp'.symm hpq
        · exact h3 rc h hne hq hp'

theorem cells_nodup : cells.Nodup := by decide

/-- The numbers of `p` and of opponent cells after a placement that `check_adj_cells`
reports as made. -/
theorem placement_counts {g : Board} (hg : g.valid) {p : Char} (hp : p = 'X' ∨ p = 'O')
    {r c : Int} (hrc : onBoard r c) (he : g r c = '-') {fuel : Nat} {g' : Board}
    (h : check_adj_cells fuel g r c p 0 = .ok (g', 1)) :
    ∃ n : Nat, 1 ≤ n ∧ countOf g' p = countOf g p + n + 1 ∧
      countOf g (other p) = countOf g' (other p) + n := by
  obtain ⟨⟨_, hiff, _, hmut⟩, _⟩ := check_adj_cells_of_ok hg hp hrc
    (Or.inl rfl : (0 : Int) = 0 ∨ (0 : Int) = 1) h
  obtain ⟨horig, hrun, hframe⟩ := hmut rfl
  have hex : ∃ d ∈ dirs, ∃ k : Nat, captures g r c p d k := by
    rcases hiff.1 rfl with h0 | h0
    · exact absurd h0 (by decide)
    · exact h0
  have hcell : ∀ rc ∈ cells, (rc = (r, c) ∧ g rc.1 rc.2 = '-' ∧ g' rc.1 rc.2 = p) ∨
      (rc ≠ (r, c) ∧ g rc.1 rc.2 = other p ∧ g' rc.1 rc.2 = p) ∨
      (rc ≠ (r, c) ∧ g' rc.1 rc.2 = g rc.1 rc.2) := by
    rintro ⟨r', c'⟩ _
    by_cases ho : r' = r ∧ c' = c
    · left
      obtain ⟨rfl, rfl⟩ := ho
      exact ⟨rfl, he, horig hex⟩
    · right
      have hne : ((r', c') : Int × Int) ≠ (r, c) := by
        intro hh
        simp only [Prod.mk.injEq] at hh
        exact ho hh
      by_cases hin : ∃ d ∈ dirs, ∃ k : Nat, captures g r c p d k ∧ ∃ m : Nat, 1 ≤ m ∧ m ≤ k ∧
          r' = r + (m : Int) * d.1 ∧ c' = c + (m : Int) * d.2
      · left
        obtain ⟨d, hd, k, hk, m, m1, m2, e1, e2⟩ := hin
        refine ⟨hne, ?_, ?_⟩
        · have hm := (hk.2.1 (m - 1) (by omega)).2
          have hc : (((m - 1 : Nat) : Int) + 1) = (m : Int) := by omega
          rw [hc] at hm
          show g r' c' = other p
          rw [e1, e2]
          exact hm
        · show g' r' c' = p
          rw [e1, e2]
          exact hrun d hd k hk m m1 m2
      · right
        exact ⟨hne, hframe r' c' (Or.inl ho)
          (fun d hd k hk m m1 m2 hh => hin ⟨d, hd, k, hk, m, m1, m2, hh.1, hh.2⟩)⟩
  obtain ⟨n, h1, h2, h3⟩ := count_flip g g' (other_ne hp).symm (piece_ne_empty hp)
    (other_ne_empty p) (r, c) cells cells_nodup hcell
  rw [if_pos (mem_cells.2 hrc)] at h1
  obtain ⟨d, hd, k, hk⟩ := hex
  obtain ⟨hnb, hopp⟩ := captures_first hk
  have hflip : g' (r + d.1) (c + d.2) = p := by
    have := hrun d hd k hk 1 (le_refl 1) hk.1
    simpa using this
  have hd0 : ((r + d.1, c + d.2) : Int × Int) ≠ (r, c) := by
    intro hh
    simp only [Prod.mk.injEq, add_right_eq_self] at hh
    have hd' := hd
    simp only [dirs, List.mem_cons, List.mem_singleton, List.not_mem_nil, or_false] at hd'
    rcases hd' with rfl | rfl | rfl | rfl | rfl | rfl | rfl | rfl <;> simp at hh
  exact ⟨n, h3 (r + d.1, c + d.2) (mem_cells.2 hnb) hd0 hopp hflip, h1, h2⟩

theorem playable_of_same {s s' : State} (h : sameGame s s') (hs : s.playable) :
    s'.playable := by
  obtain ⟨e1, e2, e3, e4, e5, _⟩ := h
  unfold State.playable State.wellFormed at hs ⊢
  rw [e1, e2, e3, e4, e5]
  exact hs

/-- After a move on a well-formed state `finish_move` returns a state that satisfies the
invariant: either the game goes on and a side has a legal move, or the session has become
inactive. -/
theorem finish_move_playable {fuel : Nat} (hfuel : 7 ≤ fuel) {s : State}
    (hwf : s.wellFormed) (hflag : s.game_flag = 0 ∨ s.game_flag = 1) {next : Char}
    (hnext : next = s.player ∨ next = s.bot) :
    ∃ s' : State, finish_move fuel s next = .ok s' ∧ s'.playable := by
  obtain ⟨hg, hpl, hbot, hturn⟩ := hwf
  have hbp : s.bot = 'X' ∨ s.bot = 'O' := by rw [hbot]; exact other_piece hpl
  obtain ⟨s', hrun, e1, e2, e3, hend, hgo⟩ := finish_move_spec hg hpl hbp hfuel next
  refine ⟨s', hrun, ?_⟩
  by_cases hm : hasMove s.gameboard s.player ∨ hasMove s.gameboard s.bot
  · obtain ⟨f1, _, f3, _⟩ := hgo hm
    refine ⟨⟨?_, ?_, ?_, ?_⟩, ?_, fun _ => ?_⟩
    · rw [e1]; exact hg
    · rw [e2]; exact hpl
    · rw [e2, e3]; exact hbot
    · rw [e2, e3, f3]; exact hnext
    · rw [f1]; exact hflag
    · rw [e1, e2, e3]; exact hm
  · have hn : ¬ hasMove s.gameboard s.player ∧ ¬ hasMove s.gameboard s.bot := by
      constructor
      · exact fun h => hm (Or.inl h)
      · exact fun h => hm (Or.inr h)
    obtain ⟨f1, _, f3, _⟩ := hend hn
    refine ⟨⟨?_, ?_, ?_, ?_⟩, Or.inl f1, fun h => absurd f1 h⟩
    · rw [e1]; exact hg
    · rw [e2]; exact hpl
    · rw [e2, e3]; exact hbot
    · rw [e2, e3, f3]; exact hturn

theorem turn_piece {s : State} (hwf : s.wellFormed) : s.turn = 'X' ∨ s.turn = 'O' := by
  obtain ⟨_, hpl, hbot, hturn⟩ := hwf
  rcases hturn with h | h
  · rw [h]; exact hpl
  · rw [h, hbot]; exact other_piece hpl

/-- The inner loop of the bot command on a state that satisfies the invariant: it returns,
and the state it leaves satisfies the invariant. -/
theorem bot_inner_playable {fuel : Nat} (hfuel : 7 ≤ fuel) {i : Int} :
    ∀ (js : List Int) (s : State) (check : Int), (∀ j ∈ js, onBoard i j) → s.playable →
      ∃ (s' : State) (check' : Int), bot_inner fuel i js s check = .ok (s', check') ∧
        s'.playable := by
  intro js
  induction js with
  | nil => intro s check _ hs; exact ⟨s, check, rfl, hs⟩
  | cons j rest ih =>
    intro s check hon hs
    have hij := hon j (List.mem_cons_self _ _)
    have hrest : ∀ j ∈ rest, onBoard i j := fun j h => hon j (List.mem_cons_of_mem _ h)
    unfold bot_inner
    rw [rd_on hij]
    dsimp only
    by_cases hv : s.gameboard i j = '-'
    · rw [if_pos hv]
      obtain ⟨g1, check1, hc, _, hg1⟩ := check_adj_cells_spec hs.1.1 (turn_piece hs.1) hij
        (Or.inl rfl : (0 : Int) = 0 ∨ (0 : Int) = 1) hfuel
      rw [hc]
      dsimp only
      obtain ⟨h01, h0, _⟩ := check_adj_cells_frame hc
      by_cases h1 : check1 = 1
      · rw [if_pos h1]
        obtain ⟨s2, hf, hp2⟩ := finish_move_playable hfuel
          (s := { s with gameboard := g1 }) ⟨hg1, hs.1.2.1, hs.1.2.2.1, hs.1.2.2.2⟩ hs.2.1
          (Or.inl rfl : s.player = s.player ∨ s.player = s.bot)
        rw [hf]
        exact ⟨s2, check1, rfl, hp2⟩
      · rw [if_neg h1]
        have hz : check1 = 0 := by rcases h01 with h | h; exact h; exact absurd h h1
        have hg := h0 hz
        subst hg
        exact ih s check1 hrest hs
    · rw [if_neg hv]
      exact ih s check hrest hs

theorem bot_outer_playable {fuel : Nat} (hfuel : 7 ≤ fuel) :
    ∀ (rows : List Int) (s : State) (check : Int), (∀ i ∈ rows, 0 ≤ i ∧ i ≤ 7) →
      s.playable →
      ∃ (s' : State) (check' : Int), bot_outer fuel rows s check = .ok (s', check') ∧
        s'.playable := by
  intro rows
  induction rows with
  | nil => intro s check _ hs; exact ⟨s, check, rfl, hs⟩
  | cons i rest ih =>
    intro s check hon hs
    have hi := hon i (List.mem_cons_self _ _)
    obtain ⟨s1, check1, hrow, hp1⟩ := bot_inner_playable hfuel (i := i) idx8 s check
      (fun j hj => ⟨hi.1, hi.2, (mem_idx8.1 hj).1, (mem_idx8.1 hj).2⟩) hs
    unfold bot_outer
    rw [hrow]
    dsimp only
    by_cases h1 : check1 = 1
    · rw [if_pos h1]
      exact ⟨s1, check1, rfl, hp1⟩
    · rw [if_neg h1]
      exact ih s1 check1 (fun i h => hon i (List.mem_cons_of_mem _ h)) hp1

theorem initial_playable (kb : List Char) {side : Char} (hside : side = 'X' ∨ side = 'O')
    (pe : Int) :
    State.playable { kern_buf := kb, gameboard := initial_board, turn := 'X', player := side,
                     bot := if side = 'X' then 'O' else 'X', game_flag := 1,
                     game_print_end := pe } := by
  refine ⟨⟨(by decide : initial_board.valid), hside, rfl, ?_⟩, Or.inr rfl, fun _ => ?_⟩
  · rcases hside with rfl | rfl
    · exact Or.inl rfl
    · exact Or.inr rfl
  · rcases hside with rfl | rfl
    · exact Or.inl (by decide : hasMove initial_board 'X')
    · exact Or.inr (by decide : hasMove initial_board 'X')

/-- The function `start` on a state that satisfies the invariant, with any buffer and any
length: it returns, and the state it leaves satisfies the invariant. -/
theorem start_playable {fuel : Nat} (hfuel : 7 ≤ fuel) {s : State} (hs : s.playable)
    (length : Int) :
    ∃ (s' : State) (r : Int), start fuel s length = .ok (s', r) ∧ s'.playable := by
  have hout : ∀ (t : List Char) (n : Nat), (s.out t n).playable :=
    fun _ _ => playable_of_same ⟨rfl, rfl, rfl, rfl, rfl, rfl⟩ hs
  unfold start
  dsimp only
  by_cases k0 : s.kern_buf.getD 0 '\x00' ≠ '0'
  · rw [if_pos k0]
    exact ⟨_, _, rfl, hout _ _⟩
  rw [if_neg k0]
  by_cases klen : length > 7
  · rw [if_pos klen]
    exact ⟨_, _, rfl, hout _ _⟩
  rw [if_neg klen]
  by_cases k1 : s.kern_buf.getD 1 '\x00' = '0'
  · -- start game
    rw [if_pos k1]
    by_cases a2 : s.kern_buf.getD 2 '\x00' ≠ ' '
    · rw [if_pos a2]
      exact ⟨_, _, rfl, hout _ _⟩
    rw [if_neg a2]
    by_cases a3 : s.kern_buf.getD 3 '\x00' ≠ 'X' ∧ s.kern_buf.getD 3 '\x00' ≠ 'O'
    · rw [if_pos a3]
      exact ⟨_, _, rfl, hout _ _⟩
    rw [if_neg a3]
    have hside : s.kern_buf.getD 3 '\x00' = 'X' ∨ s.kern_buf.getD 3 '\x00' = 'O' := by
      by_contra hc
      push_neg at hc
      exact a3 hc
    exact ⟨_, _, rfl, initial_playable _ hside _⟩
  rw [if_neg k1]
  by_cases k2 : s.kern_buf.getD 1 '\x00' = '1'
  · -- print board
    rw [if_pos k2]
    by_cases b2 : s.kern_buf.getD 2 '\x00' ≠ '\n'
    · rw [if_pos b2]
      exact ⟨_, _, rfl, hout _ _⟩
    rw [if_neg b2]
    by_cases b3 : s.game_flag = 0 ∧ s.game_print_end ≠ 1
    · rw [if_pos b3]
      exact ⟨_, _, rfl, hout _ _⟩
    rw [if_neg b3, print_loop_ok s.gameboard cells (fun _ h => mem_cells.1 h)]
    exact ⟨_, _, rfl, hout _ _⟩
  rw [if_neg k2]
  by_cases k3 : s.kern_buf.getD 1 '\x00' = '2'
  · -- place piece
    rw [if_pos k3]
    by_cases c2 : s.kern_buf.getD 2 '\x00' ≠ ' '
    · rw [if_pos c2]
      exact ⟨_, _, rfl, hout _ _⟩
    rw [if_neg c2]
    by_cases c4 : s.kern_buf.getD 4 '\x00' ≠ ' '
    · rw [if_pos c4]
      exact ⟨_, _, rfl, hout _ _⟩
    rw [if_neg c4]
    by_cases c6 : s.kern_buf.getD 6 '\x00' ≠ '\n'
    · rw [if_pos c6]
      exact ⟨_, _, rfl, hout _ _⟩
    rw [if_neg c6]
    by_cases ct : s.turn ≠ s.player
    · rw [if_pos ct]
      exact ⟨_, _, rfl, hout _ _⟩
    rw [if_neg ct]
    by_cases cf : s.game_flag = 0
    · rw [if_pos cf]
      exact ⟨_, _, rfl, hout _ _⟩
    rw [if_neg cf]
    generalize ((s.kern_buf.getD 3 '\x00').toNat : Int) - 48 = col
    generalize ((s.kern_buf.getD 5 '\x00').toNat : Int) - 48 = row
    by_cases cc : col < 0 ∨ col > 7
    · rw [if_pos cc]
      exact ⟨_, _, rfl, hout _ _⟩
    rw [if_neg cc]
    by_cases cr : row < 0 ∨ row > 7
    · rw [if_pos cr]
      exact ⟨_, _, rfl, hout _ _⟩
    rw [if_neg cr]
    have hon : onBoard row col := by
      unfold onBoard
      omega
    rw [rd_on hon]
    dsimp only
    by_cases hv : s.gameboard row col ≠ '-'
    · rw [if_pos hv]
      dsimp only
      rw [if_pos rfl]
      exact ⟨_, _, rfl, playable_of_same ⟨rfl, rfl, rfl, rfl, rfl, rfl⟩ hs⟩
    rw [if_neg hv]
    obtain ⟨g1, check, hc, _, hg1⟩ := check_adj_cells_spec hs.1.1 (turn_piece hs.1) hon
      (Or.inl rfl : (0 : Int) = 0 ∨ (0 : Int) = 1) hfuel
    rw [hc]
    dsimp only
    obtain ⟨_, h0, _⟩ := check_adj_cells_frame hc
    by_cases hz : check = 0
    · rw [if_pos hz]
      have hg := h0 hz
      subst hg
      exact ⟨_, _, rfl, hout _ _⟩
    rw [if_neg hz]
    obtain ⟨s2, hf, hp2⟩ := finish_move_playable hfuel
      (s := { s with gameboard := g1 }) ⟨hg1, hs.1.2.1, hs.1.2.2.1, hs.1.2.2.2⟩ hs.2.1
      (Or.inr rfl : s.bot = s.player ∨ s.bot = s.bot)
    rw [hf]
    exact ⟨s2, _, rfl, hp2⟩
  rw [if_neg k3]
  by_cases k4 : s.kern_buf.getD 1 '\x00' = '3'
  · -- bot move
    rw [if_pos k4]
    by_cases d2 : s.kern_buf.getD 2 '\x00' ≠ '\n'
    · rw [if_pos d2]
      exact ⟨_, _, rfl, hout _ _⟩
    rw [if_neg d2]
    by_cases dt : s.turn ≠ s.bot
    · rw [if_pos dt]
      exact ⟨_, _, rfl, hout _ _⟩
    rw [if_neg dt]
    by_cases df : s.game_flag = 0
    · rw [if_pos df]
      exact ⟨_, _, rfl, hout _ _⟩
    rw [if_neg df]
    obtain ⟨s1, check, hb, hp1⟩ := bot_outer_playable hfuel idx8 s 0
      (fun i hi => mem_idx8.1 hi) hs
    rw [hb]
    dsimp only
    by_cases hz : check = 0
    · rw [if_pos hz]
      exact ⟨_, _, rfl, playable_of_same ⟨rfl, rfl, rfl, rfl, rfl, rfl⟩ hp1⟩
    · rw [if_neg hz]
      exact ⟨s1, _, rfl, hp1⟩
  rw [if_neg k4]
  by_cases k5 : s.kern_buf.getD 1 '\x00' = '4'
  · -- skip turn
    rw [if_pos k5]
    by_cases e2 : s.kern_buf.getD 2 '\x00' ≠ '\n'
    · rw [if_pos e2]
      exact ⟨_, _, rfl, hout _ _⟩
    rw [if_neg e2]
    by_cases ef : s.game_flag = 0
    · rw [if_pos ef]
      exact ⟨_, _, rfl, hout _ _⟩
    rw [if_neg ef]
    obtain ⟨v, hm, hv01, _⟩ := check_for_valid_moves_spec hs.1.1 (turn_piece hs.1) hfuel
    rw [hm]
    dsimp only
    rcases hv01 with h0 | h1
    · subst h0
      rw [if_pos rfl]
      obtain ⟨⟨hg, hpl, hbot, hturn⟩, hfl, hmv⟩ := hs
      by_cases t1 : s.turn = s.player
      · have t1' : (s.out OK 2).turn = (s.out OK 2).player := t1
        rw [if_pos t1']
        exact ⟨_, _, rfl, ⟨hg, hpl, hbot, Or.inr rfl⟩, hfl, hmv⟩
      · have t1' : ¬ (s.out OK 2).turn = (s.out OK 2).player := t1
        rw [if_neg t1']
        have t2 : s.turn = s.bot := by
          rcases hturn with h | h
          · exact absurd h t1
          · exact h
        have t2' : (s.out OK 2).turn = (s.out OK 2).bot := t2
        rw [if_pos t2']
        exact ⟨_, _, rfl, ⟨hg, hpl, hbot, Or.inl rfl⟩, hfl, hmv⟩
    · subst h1
      rw [if_neg (by decide), if_pos rfl]
      exact ⟨_, _, rfl, hout _ _⟩
  rw [if_neg k5]
  exact ⟨s, 0, rfl, hs⟩

/-- Every write to the device in a state that satisfies the invariant returns, and leaves
a state that satisfies the invariant. -/
theorem write_playable {fuel : Nat} (hfuel : 7 ≤ fuel) {s : State} (hs : s.playable)
    (ubuf : List Char) :
    ∃ s' : State, reversi_write fuel s ubuf = .ok s' ∧ s'.playable := by
  unfold reversi_write
  dsimp only
  obtain ⟨s', r, h, hp⟩ := start_playable hfuel
    (s := { s with kern_buf := ubuf.take (min ubuf.length 120) ++
      s.kern_buf.drop (min ubuf.length 120) })
    (playable_of_same ⟨rfl, rfl, rfl, rfl, rfl, rfl⟩ hs) ((min ubuf.length 120 : Nat) : Int)
  rw [h]
  exact ⟨s', rfl, hp⟩

/-- The start command from any state leaves a state that satisfies the invariant. -/
theorem write_start_playable (fuel : Nat) (s : State) {side : Char}
    (hside : side = 'X' ∨ side = 'O') :
    ∃ s' : State, reversi_write fuel s (cmd_start side) = .ok s' ∧ s'.playable :=
  ⟨_, write_start fuel s side hside,
    playable_of_same ⟨rfl, rfl, rfl, rfl, rfl, rfl⟩
      (initial_playable (cmd_start side ++ s.kern_buf.drop 5) hside 0)⟩

/-- Every sequence of writes from a state that satisfies the invariant returns, and leaves
a state that satisfies the invariant. -/
theorem run_playable {fuel : Nat} (hfuel : 7 ≤ fuel) :
    ∀ (cmds : List (List Char)) (s : State), s.playable →
      ∃ s' : State, run fuel s cmds = .ok s' ∧ s'.playable := by
  intro cmds
  induction cmds with
  | nil => intro s hs; exact ⟨s, rfl, hs⟩
  | cons cmd rest ih =>
    intro s hs
    obtain ⟨s1, h1, hp1⟩ := write_playable hfuel hs cmd
    obtain ⟨s2, h2, hp2⟩ := ih s1 hp1
    refine ⟨s2, ?_, hp2⟩
    unfold run
    rw [h1]
    exact h2

/-- Every sequence of writes that begins with a start command returns, from any state,
and leaves a state that satisfies the invariant. -/
theorem game_playable {fuel : Nat} (hfuel : 7 ≤ fuel) (s0 : State) {side : Char}
    (hside : side = 'X' ∨ side = 'O') (cmds : List (List Char)) :
    ∃ s : State, run fuel s0 (cmd_start side :: cmds) = .ok s ∧ s.playable := by
  obtain ⟨s1, h1, hp1⟩ := write_start_playable fuel s0 hside
  obtain ⟨s2, h2, hp2⟩ := run_playable hfuel cmds s1 hp1
  refine ⟨s2, ?_, hp2⟩
  unfold run
  rw [h1]
  exact h2

/-- The skip command in an active session on a well-formed state: refused with `ILLMOVE`
when the side to move has a legal move, otherwise answered `OK` with the turn passed to
the other side and nothing else changed. -/
theorem write_skip_active {fuel : Nat} (hfuel : 7 ≤ fuel) {s : State} (hwf : s.wellFormed)
    (hflag : s.game_flag ≠ 0) :
    ∃ s' : State, reversi_write fuel s cmd_skip = .ok s' ∧
      s'.gameboard = s.gameboard ∧ s'.player = s.player ∧ s'.bot = s.bot ∧
      s'.game_flag = s.game_flag ∧
      ((hasMove s.gameboard s.turn ∧ response s' = ILLMOVE ∧ s'.turn = s.turn) ∨
       (¬ hasMove s.gameboard s.turn ∧ response s' = OK ∧
        ((s.turn = s.player ∧ s'.turn = s.bot) ∨ (s.turn = s.bot ∧ s'.turn = s.player)))) := by
  obtain ⟨hg, hpl, hbot, hturn⟩ := hwf
  have hne : s.bot ≠ s.player := by rw [hbot]; exact other_ne hpl
  have htp : s.turn = 'X' ∨ s.turn = 'O' := turn_piece ⟨hg, hpl, hbot, hturn⟩
  have hflag' : (s.game_flag = 0) = False := eq_false hflag
  obtain ⟨v, hv, hv01, hviff⟩ := check_for_valid_moves_spec hg htp hfuel
  unfold reversi_write start
  rcases hv01 with h0 | h1
  · subst h0
    have hnm : ¬ hasMove s.gameboard s.turn := fun hm => absurd (hviff.2 hm) (by decide)
    rcases hturn with ht | ht
    · refine ⟨{ s with kern_buf := output (cmd_skip ++ s.kern_buf.drop 3) OK 2, turn := s.bot },
        ?_, rfl, rfl, rfl, rfl, Or.inr ⟨hnm, rfl, Or.inl ⟨ht, rfl⟩⟩⟩
      rw [ht] at hv
      simp [cmd_skip, State.out, hflag', hv, ht]
    · refine ⟨{ s with kern_buf := output (cmd_skip ++ s.kern_buf.drop 3) OK 2,
                       turn := s.player },
        ?_, rfl, rfl, rfl, rfl, Or.inr ⟨hnm, rfl, Or.inr ⟨ht, rfl⟩⟩⟩
      rw [ht] at hv
      simp [cmd_skip, State.out, hflag', hv, ht, hne]
  · subst h1
    refine ⟨{ s with kern_buf := output (cmd_skip ++ s.kern_buf.drop 3) ILLMOVE 7 },
      ?_, rfl, rfl, rfl, rfl, Or.inl ⟨hviff.1 rfl, rfl, rfl⟩⟩
    simp [cmd_skip, State.out, hflag', hv]

/-- Two skip commands in a row from a state that satisfies the invariant: both return,
and they are not both answered `OK`. -/
theorem skip_twice {fuel : Nat} (hfuel : 7 ≤ fuel) {s : State} (hs : s.playable) :
    ∃ s1 s2 : State, reversi_write fuel s cmd_skip = .ok s1 ∧
      reversi_write fuel s1 cmd_skip = .ok s2 ∧ ¬ (response s1 = OK ∧ response s2 = OK) := by
  obtain ⟨hwf, hfl, hmv⟩ := hs
  by_cases hflag : s.game_flag = 0
  · -- inactive: the first skip is answered NO GAME
    have h1 := write_skip_inactive fuel s hflag
    have h2 := write_skip_inactive fuel
      ({ s with kern_buf := cmd_skip ++ s.kern_buf.drop 3 }.out NOGAME 7) hflag
    exact ⟨_, _, h1, h2, fun hc => absurd hc.1 (by rw [response_out_NOGAME]; decide)⟩
  · obtain ⟨s1, h1, e1, e2, e3, e4, hcase⟩ := write_skip_active hfuel hwf hflag
    have hwf1 : s1.wellFormed := by
      obtain ⟨hg, hpl, hbot, hturn⟩ := hwf
      refine ⟨by rw [e1]; exact hg, by rw [e2]; exact hpl, by rw [e2, e3]; exact hbot, ?_⟩
      rw [e2, e3]
      rcases hcase with ⟨_, _, ht⟩ | ⟨_, _, ⟨_, ht⟩ | ⟨_, ht⟩⟩
      · rw [ht]; exact hturn
      · exact Or.inr ht
      · exact Or.inl ht
    have hfl1 : s1.game_flag ≠ 0 := by rw [e4]; exact hflag
    obtain ⟨s2, h2, _, _, _, _, hcase2⟩ := write_skip_active hfuel hwf1 hfl1
    refine ⟨s1, s2, h1, h2, fun hc => ?_⟩
    rcases hcase with ⟨_, hr, _⟩ | ⟨hn1, _, hsw⟩
    · -- the first skip is refused
      exact absurd (hr.symm.trans hc.1) (by decide)
    · rcases hcase2 with ⟨_, hr2, _⟩ | ⟨hn2, _, _⟩
      · -- the second skip is refused
        exact absurd (hr2.symm.trans hc.2) (by decide)
      · -- both sides without a legal move: excluded while the session is active
        rw [e1] at hn2
        rcases hsw with ⟨t0, t1⟩ | ⟨t0, t1⟩
        · rw [t0] at hn1
          rw [t1] at hn2
          rcases hmv hflag with hm | hm
          · exact hn1 hm
          · exact hn2 hm
        · rw [t0] at hn1
          rw [t1] at hn2
          rcases hmv hflag with hm | hm
          · exact hn2 hm
          · exact hn1 hm

/-- The function `start` on a buffer that fails a format test: `INVFMT` is written and
−1 returned before anything else is looked at. -/
theorem start_fails_format {fuel : Nat} {s : State} {length : Int} {n : Nat}
    (hlen : length > 7 ↔ 7 < n) (h : failsFormat s.kern_buf n) :
    start fuel s length = .ok (s.out INVFMT 6, -1) := by
  unfold failsFormat at h
  unfold start
  dsimp only
  by_cases k0 : s.kern_buf.getD 0 '\x00' ≠ '0'
  · rw [if_pos k0]
  rw [if_neg k0]
  by_cases klen : length > 7
  · rw [if_pos klen]
  rw [if_neg klen]
  have kn : ¬ 7 < n := fun hn => klen (hlen.2 hn)
  by_cases k1 : s.kern_buf.getD 1 '\x00' = '0'
  · rw [if_pos k1]
    by_cases a2 : s.kern_buf.getD 2 '\x00' ≠ ' '
    · rw [if_pos a2]
    rw [if_neg a2]
    by_cases a3 : s.kern_buf.getD 3 '\x00' ≠ 'X' ∧ s.kern_buf.getD 3 '\x00' ≠ 'O'
    · rw [if_pos a3]
    exfalso
    rw [k1] at h
    simp only [show ¬ ('0' : Char) = '1' from by decide, show ¬ ('0' : Char) = '2' from by decide,
      show ¬ ('0' : Char) = '3' from by decide, show ¬ ('0' : Char) = '4' from by decide] at h
    tauto
  rw [if_neg k1]
  by_cases k2 : s.kern_buf.getD 1 '\x00' = '1'
  · rw [if_pos k2]
    by_cases b2 : s.kern_buf.getD 2 '\x00' ≠ '\n'
    · rw [if_pos b2]
    exfalso
    rw [k2] at h
    simp only [show ¬ ('1' : Char) = '0' from by decide, show ¬ ('1' : Char) = '2' from by decide,
      show ¬ ('1' : Char) = '3' from by decide, show ¬ ('1' : Char) = '4' from by decide] at h
    tauto
  rw [if_neg k2]
  by_cases k3 : s.kern_buf.getD 1 '\x00' = '2'
  · rw [if_pos k3]
    by_cases c2 : s.kern_buf.getD 2 '\x00' ≠ ' '
    · rw [if_pos c2]
    rw [if_neg c2]
    by_cases c4 : s.kern_buf.getD 4 '\x00' ≠ ' '
    · rw [if_pos c4]
    rw [if_neg c4]
    by_cases c6 : s.kern_buf.getD 6 '\x00' ≠ '\n'
    · rw [if_pos c6]
    exfalso
    rw [k3] at h
    simp only [show ¬ ('2' : Char) = '0' from by decide, show ¬ ('2' : Char) = '1' from by decide,
      show ¬ ('2' : Char) = '3' from by decide, show ¬ ('2' : Char) = '4' from by decide] at h
    tauto
  rw [if_neg k3]
  by_cases k4 : s.kern_buf.getD 1 '\x00' = '3'
  · rw [if_pos k4]
    by_cases d2 : s.kern_buf.getD 2 '\x00' ≠ '\n'
    · rw [if_pos d2]
    exfalso
    rw [k4] at h
    simp only [show ¬ ('3' : Char) = '0' from by decide, show ¬ ('3' : Char) = '1' from by decide,
      show ¬ ('3' : Char) = '2' from by decide, show ¬ ('3' : Char) = '4' from by decide] at h
    tauto
  rw [if_neg k4]
  by_cases k5 : s.kern_buf.getD 1 '\x00' = '4'
  · rw [if_pos k5]
    by_cases e2 : s.kern_buf.getD 2 '\x00' ≠ '\n'
    · rw [if_pos e2]
    exfalso
    rw [k5] at h
    simp only [show ¬ ('4' : Char) = '0' from by decide, show ¬ ('4' : Char) = '1' from by decide,
      show ¬ ('4' : Char) = '2' from by decide, show ¬ ('4' : Char) = '3' from by decide] at h
    tauto
  exfalso
  tauto

/-- The function `start` on a buffer with a first byte `'0'`, at most 7 bytes and an
opcode other than `'0'`..`'4'`: nothing is written and nothing changes. -/
theorem start_unknown_opcode {fuel : Nat} {s : State} {length : Int}
    (h0 : s.kern_buf.getD 0 '\x00' = '0') (hlen : ¬ length > 7)
    (h : ∀ ch ∈ ['0', '1', '2', '3', '4'], s.kern_buf.getD 1 '\x00' ≠ ch) :
    start fuel s length = .ok (s, 0) := by
  unfold start
  dsimp only
  rw [if_neg (not_not.2 h0), if_neg hlen]
  rw [if_neg (h '0' (by decide)), if_neg (h '1' (by decide))]
  rw [if_neg (h '2' (by decide)), if_neg (h '3' (by decide))]
  rw [if_neg (h '4' (by decide))]

/-- A buffer whose first byte is not `'I'` does not read as `INVFMT`. -/
theorem not_invfmt_of_first {s : State} (h : s.kern_buf.getD 0 '\x00' ≠ 'I') :
    response s ≠ INVFMT := by
  unfold response INVFMT
  cases hk : s.kern_buf with
  | nil => simp
  | cons a rest =>
    rw [hk] at h
    simp only [List.getD_cons_zero] at h
    rw [List.takeWhile_cons]
    split_ifs
    · intro hc
      simp only [List.cons.injEq] at hc
      exact h hc.1
    · simp

theorem out_not_invfmt {s s' : State} {t : List Char} {n : Nat} {r0 r : Int}
    (h : (Except.ok (s.out t n, r0) : Except Fault (State × Int)) = .ok (s', r))
    (ht : response (s.out t n) ≠ INVFMT) (hr : response s' = INVFMT) : False := by
  simp only [Except.ok.injEq, Prod.mk.injEq] at h
  obtain ⟨rfl, _⟩ := h
  exact ht hr

/-- The function `start` on any state whose first board cell is not the byte `'I'`: when
the buffer reads `INVFMT` afterwards, one of the format tests failed. -/
theorem start_invfmt_only {fuel : Nat} {s s' : State} {length r : Int} {n : Nat}
    (hlen : length > 7 ↔ 7 < n) (h : start fuel s length = .ok (s', r))
    (hcell : s.gameboard 0 0 ≠ 'I') (hr : response s' = INVFMT) :
    failsFormat s.kern_buf n := by
  have hne : ¬ isErrorText (response s') → False := fun hc => hc (Or.inl hr)
  unfold failsFormat
  unfold start at h
  dsimp only at h
  by_cases k0 : s.kern_buf.getD 0 '\x00' ≠ '0'
  · exact Or.inl k0
  rw [if_neg k0] at h
  by_cases klen : length > 7
  · exact Or.inr (Or.inl (hlen.1 klen))
  rw [if_neg klen] at h
  have hk0 : s.kern_buf.getD 0 '\x00' = '0' := not_not.1 k0
  have hsilent : s' = s → False := by
    intro he
    rw [he] at hr
    exact not_invfmt_of_first (by rw [hk0]; decide) hr
  by_cases k1 : s.kern_buf.getD 1 '\x00' = '0'
  · -- start game
    rw [if_pos k1] at h
    by_cases a2 : s.kern_buf.getD 2 '\x00' ≠ ' '
    · exact Or.inr (Or.inr (Or.inl ⟨k1, Or.inl a2⟩))
    rw [if_neg a2] at h
    by_cases a3 : s.kern_buf.getD 3 '\x00' ≠ 'X' ∧ s.kern_buf.getD 3 '\x00' ≠ 'O'
    · exact Or.inr (Or.inr (Or.inl ⟨k1, Or.inr a3⟩))
    rw [if_neg a3] at h
    exact absurd hr (fun hc => out_not_invfmt h (by decide : OK ≠ INVFMT) hc)
  rw [if_neg k1] at h
  by_cases k2 : s.kern_buf.getD 1 '\x00' = '1'
  · -- print board
    rw [if_pos k2] at h
    by_cases b2 : s.kern_buf.getD 2 '\x00' ≠ '\n'
    · exact Or.inr (Or.inr (Or.inr (Or.inl ⟨Or.inl k2, b2⟩)))
    rw [if_neg b2] at h
    by_cases b3 : s.game_flag = 0 ∧ s.game_print_end ≠ 1
    · rw [if_pos b3] at h
      exact absurd hr (fun hc => out_not_invfmt h (by decide : NOGAME ≠ INVFMT) hc)
    rw [if_neg b3, print_loop_ok s.gameboard cells (fun _ h => mem_cells.1 h)] at h
    exact absurd hr (fun hc => out_not_invfmt h (not_invfmt_of_first hcell) hc)
  rw [if_neg k2] at h
  by_cases k3 : s.kern_buf.getD 1 '\x00' = '2'
  · -- place piece
    rw [if_pos k3] at h
    by_cases c2 : s.kern_buf.getD 2 '\x00' ≠ ' '
    · exact Or.inr (Or.inr (Or.inr (Or.inr ⟨k3, Or.inl c2⟩)))
    rw [if_neg c2] at h
    by_cases c4 : s.kern_buf.getD 4 '\x00' ≠ ' '
    · exact Or.inr (Or.inr (Or.inr (Or.inr ⟨k3, Or.inr (Or.inl c4)⟩)))
    rw [if_neg c4] at h
    by_cases c6 : s.kern_buf.getD 6 '\x00' ≠ '\n'
    · exact Or.inr (Or.inr (Or.inr (Or.inr ⟨k3, Or.inr (Or.inr c6)⟩)))
    rw [if_neg c6] at h
    exfalso
    by_cases ct : s.turn ≠ s.player
    · rw [if_pos ct] at h
      exact out_not_invfmt h (by decide : OOT ≠ INVFMT) hr
    rw [if_neg ct] at h
    by_cases cf : s.game_flag = 0
    · rw [if_pos cf] at h
      exact out_not_invfmt h (by decide : NOGAME ≠ INVFMT) hr
    rw [if_neg cf] at h
    generalize ((s.kern_buf.getD 3 '\x00').toNat : Int) - 48 = col at h
    generalize ((s.kern_buf.getD 5 '\x00').toNat : Int) - 48 = row at h
    by_cases cc : col < 0 ∨ col > 7
    · rw [if_pos cc] at h
      exact out_not_invfmt h (by decide : ILLMOVE ≠ INVFMT) hr
    rw [if_neg cc] at h
    by_cases cr : row < 0 ∨ row > 7
    · rw [if_pos cr] at h
      exact out_not_invfmt h (by decide : ILLMOVE ≠ INVFMT) hr
    rw [if_neg cr] at h
    cases hrd : rd s.gameboard row col with
    | error e => rw [hrd] at h; exact absurd h (by simp)
    | ok v =>
      rw [hrd] at h
      dsimp only at h
      by_cases hv : v ≠ '-'
      · rw [if_pos hv] at h
        dsimp only at h
        rw [if_pos rfl] at h
        exact out_not_invfmt h (by decide : ILLMOVE ≠ INVFMT) hr
      rw [if_neg hv] at h
      cases hc : check_adj_cells fuel s.gameboard row col s.turn 0 with
      | error e => rw [hc] at h; exact absurd h (by simp)
      | ok p =>
        obtain ⟨g1, check⟩ := p
        rw [hc] at h
        dsimp only at h
        by_cases hz : check = 0
        · rw [if_pos hz] at h
          exact out_not_invfmt h (by decide : ILLMOVE ≠ INVFMT) hr
        rw [if_neg hz] at h
        cases hf : finish_move fuel { s with gameboard := g1 } s.bot with
        | error e => rw [hf] at h; exact absurd h (by simp)
        | ok s2 =>
          rw [hf] at h
          simp only [Except.ok.injEq, Prod.mk.injEq] at h
          obtain ⟨rfl, _⟩ := h
          exact hne (finish_move_frame hf hk0)
  rw [if_neg k3] at h
  by_cases k4 : s.kern_buf.getD 1 '\x00' = '3'
  · -- bot move
    rw [if_pos k4] at h
    by_cases d2 : s.kern_buf.getD 2 '\x00' ≠ '\n'
    · exact Or.inr (Or.inr (Or.inr (Or.inl ⟨Or.inr (Or.inl k4), d2⟩)))
    rw [if_neg d2] at h
    exfalso
    by_cases dt : s.turn ≠ s.bot
    · rw [if_pos dt] at h
      exact out_not_invfmt h (by decide : OOT ≠ INVFMT) hr
    rw [if_neg dt] at h
    by_cases df : s.game_flag = 0
    · rw [if_pos df] at h
      exact out_not_invfmt h (by decide : NOGAME ≠ INVFMT) hr
    rw [if_neg df] at h
    cases hb : bot_outer fuel idx8 s 0 with
    | error e => rw [hb] at h; exact absurd h (by simp)
    | ok p =>
      obtain ⟨s1, check⟩ := p
      rw [hb] at h
      dsimp only at h
      by_cases hz : check = 0
      · rw [if_pos hz] at h
        exact out_not_invfmt h (by decide : ILLMOVE ≠ INVFMT) hr
      rw [if_neg hz] at h
      simp only [Except.ok.injEq, Prod.mk.injEq] at h
      obtain ⟨rfl, _⟩ := h
      rcases bot_outer_frame idx8 hb hk0 with ⟨_, a2⟩ | ⟨a1, _⟩
      · exact hne a2
      · exact hsilent a1
  rw [if_neg k4] at h
  by_cases k5 : s.kern_buf.getD 1 '\x00' = '4'
  · -- skip turn
    rw [if_pos k5] at h
    by_cases e2 : s.kern_buf.getD 2 '\x00' ≠ '\n'
    · exact Or.inr (Or.inr (Or.inr (Or.inl ⟨Or.inr (Or.inr k5), e2⟩)))
    rw [if_neg e2] at h
    exfalso
    by_cases ef : s.game_flag = 0
    · rw [if_pos ef] at h
      exact out_not_invfmt h (by decide : NOGAME ≠ INVFMT) hr
    rw [if_neg ef] at h
    cases hm : check_for_valid_moves fuel s.gameboard s.turn with
    | error e => rw [hm] at h; exact absurd h (by simp)
    | ok p =>
      obtain ⟨g1, check⟩ := p
      rw [hm] at h
      dsimp only at h
      have hg := (valid_moves_loop_frame cells hm).1
      subst hg
      by_cases hz : check = 0
      · rw [if_pos hz] at h
        have hok : response s' = OK := by
          split_ifs at h <;>
            (simp only [Except.ok.injEq, Prod.mk.injEq] at h
             obtain ⟨rfl, _⟩ := h
             rfl)
        rw [hok] at hr
        exact absurd hr (by decide)
      rw [if_neg hz] at h
      by_cases h1 : check = 1
      · rw [if_pos h1] at h
        exact out_not_invfmt h (by decide : ILLMOVE ≠ INVFMT) hr
      · rw [if_neg h1] at h
        simp only [Except.ok.injEq, Prod.mk.injEq] at h
        obtain ⟨rfl, _⟩ := h
        exact hsilent rfl
  rw [if_neg k5] at h
  exfalso
  simp only [Except.ok.injEq, Prod.mk.injEq] at h
  obtain ⟨rfl, _⟩ := h
  exact hsilent rfl

theorem count_gt_seven (ubuf : List Char) :
    ((min ubuf.length 120 : Nat) : Int) > 7 ↔ 7 < ubuf.length := by
  constructor
  · intro h
    have h2 : 7 < min ubuf.length 120 := by exact_mod_cast h
    omega
  · intro h
    have h2 : 7 < min ubuf.length 120 := by omega
    exact_mod_cast h2

/-- A line that fails a format test is answered `INVFMT`, whatever the state; the game
state is unchanged. -/
theorem write_fails_format (fuel : Nat) (s : State) (ubuf : List Char)
    (h : failsFormat (lineBuf s ubuf) ubuf.length) :
    ∃ s' : State, reversi_write fuel s ubuf = .ok s' ∧ response s' = INVFMT ∧
      sameGame s s' := by
  have hs : start fuel { s with kern_buf := lineBuf s ubuf }
      ((min ubuf.length 120 : Nat) : Int) =
        .ok (State.out { s with kern_buf := lineBuf s ubuf } INVFMT 6, -1) :=
    start_fails_format (count_gt_seven ubuf) h
  unfold lineBuf at hs
  unfold reversi_write
  dsimp only
  rw [hs]
  exact ⟨_, rfl, rfl, ⟨rfl, rfl, rfl, rfl, rfl, rfl⟩⟩

/-- A line answered `INVFMT` failed a format test, when the first board cell is not the
byte `'I'`. -/
theorem write_invfmt_only (fuel : Nat) (s : State) (ubuf : List Char) (s' : State)
    (h : reversi_write fuel s ubuf = .ok s') (hcell : s.gameboard 0 0 ≠ 'I')
    (hr : response s' = INVFMT) : failsFormat (lineBuf s ubuf) ubuf.length := by
  unfold reversi_write at h
  dsimp only at h
  generalize hst : start fuel _ _ = res at h
  cases res with
  | error e => exact absurd h (by simp)
  | ok p =>
    obtain ⟨s2, r⟩ := p
    simp only [Except.ok.injEq] at h
    subst h
    have hf := start_invfmt_only (count_gt_seven ubuf) hst hcell hr
    exact hf

/-- A line of at most 7 bytes with first byte `'0'` and an opcode other than `'0'`..`'4'`
is not answered: the buffer holds the line as written and nothing else changes. -/
theorem write_unknown_opcode (fuel : Nat) (s : State) (ubuf : List Char)
    (h0 : (lineBuf s ubuf).getD 0 '\x00' = '0') (hlen : ubuf.length ≤ 7)
    (h : ∀ ch ∈ ['0', '1', '2', '3', '4'], (lineBuf s ubuf).getD 1 '\x00' ≠ ch) :
    reversi_write fuel s ubuf = .ok { s with kern_buf := lineBuf s ubuf } := by
  have hs : start fuel { s with kern_buf := lineBuf s ubuf }
      ((min ubuf.length 120 : Nat) : Int) = .ok ({ s with kern_buf := lineBuf s ubuf }, 0) :=
    start_unknown_opcode h0 (fun hc => absurd ((count_gt_seven ubuf).1 hc) (by omega)) h
  unfold lineBuf at hs ⊢
  unfold reversi_write
  dsimp only
  rw [hs]

/-! ## The claims -/

/-- C1: on a well-formed board, for a piece `p` and a cell `(r, c)` of the board from which
at least one direction captures, `check_adj_cells(r, c, p, 0)` returns 1; in the resulting
board `(r, c)` holds `p`, every cell of every captured run holds `p`, and every other cell
is unchanged. (The emptiness of `(r, c)` required by the claim is not even needed.) -/
theorem C1_check_adj_cells_flips (g : Board) (hg : g.valid) (p : Char)
    (hp : p = 'X' ∨ p = 'O') (r c : Int) (hrc : onBoard r c)
    (hcap : hasCapture g r c p) (fuel : Nat) (hfuel : 7 ≤ fuel) :
    ∃ g' : Board, check_adj_cells fuel g r c p 0 = .ok (g', 1) ∧
      g' r c = p ∧
      (∀ r' c' : Int, inCapturedRun g r c p r' c' → g' r' c' = p) ∧
      (∀ r' c' : Int, ¬ (r' = r ∧ c' = c) → ¬ inCapturedRun g r c p r' c' →
        g' r' c' = g r' c') := by
  obtain ⟨g', v, hrun, ⟨_, hiff, _, hmut⟩, _⟩ :=
    check_adj_cells_spec hg hp hrc (Or.inl rfl : (0 : Int) = 0 ∨ (0 : Int) = 1) hfuel
  have hex := (hasCapture_iff g r c p).1 hcap
  have hv : v = 1 := hiff.2 (Or.inr hex)
  subst hv
  obtain ⟨horig, hruns, hframe⟩ := hmut rfl
  refine ⟨g', hrun, horig hex, ?_, ?_⟩
  · rintro r' c' ⟨d, hd, k, hk, m, h1, h2, rfl, rfl⟩
    exact hruns d hd k hk m h1 h2
  · intro r' c' hne hnot
    apply hframe r' c' (Or.inl hne)
    intro d hd k hk m h1 h2 hh
    exact hnot ⟨d, hd, k, hk, m, h1, h2, hh.1, hh.2⟩

/-- Witness of C1 on the initial layout: placing `'X'` at row 2, column 3 returns 1 and
changes only `(2,3)` and `(3,3)`, both to `'X'`. -/
theorem C1_check_adj_cells_flips_witness :
    (∃ g' : Board, check_adj_cells 7 initial_board 2 3 'X' 0 = .ok (g', 1) ∧
      g' 2 3 = 'X' ∧
      (∀ r' c' : Int, inCapturedRun initial_board 2 3 'X' r' c' → g' r' c' = 'X') ∧
      (∀ r' c' : Int, ¬ (r' = 2 ∧ c' = 3) → ¬ inCapturedRun initial_board 2 3 'X' r' c' →
        g' r' c' = initial_board r' c')) ∧
    observe (check_adj_cells 7 initial_board 2 3 'X' 0) =
      some ("-------------------X-------XX------XO---------------------------".toList, 1) :=
  ⟨C1_check_adj_cells_flips initial_board (by decide) 'X' (Or.inl rfl) 2 3 (by decide)
    (by decide) 7 (le_refl 7), by decide⟩

/-- C2: on a well-formed board, for a piece `p` and a cell `(r, c)` of the board from which
no direction captures, `check_adj_cells(r, c, p, 0)` returns 0 and the board is the same
board, the origin included. -/
theorem C2_check_adj_cells_no_capture (g : Board) (hg : g.valid) (p : Char)
    (hp : p = 'X' ∨ p = 'O') (r c : Int) (hrc : onBoard r c)
    (hno : ¬ hasCapture g r c p) (fuel : Nat) (hfuel : 7 ≤ fuel) :
    check_adj_cells fuel g r c p 0 = .ok (g, 0) :=
  check_adj_cells_none hg hp hrc hno hfuel

/-- Witness of C2: on the initial layout `'X'` captures nothing from the empty corner
`(0,0)`; the call returns 0 with the board intact, the corner still empty. -/
theorem C2_check_adj_cells_no_capture_witness :
    check_adj_cells 7 initial_board 0 0 'X' 0 = .ok (initial_board, 0) ∧
    initial_board 0 0 = '-' :=
  ⟨C2_check_adj_cells_no_capture initial_board (by decide) 'X' (Or.inl rfl) 0 0 (by decide)
    (by decide) 7 (le_refl 7), by decide⟩

/-- C3 at its failing input: after `StartGame('O')` the fourteen moves `movesO`, `lastO`
all place a piece, so the board holds 18 pieces, but only thirteen of them are answered
`OK` or with a game outcome: the last one, which ends the game in favour of the human
playing `'O'`, is answered with the text of the command. -/
theorem C3_pieces_exceed_answered_moves :
    ∃ (s : State) (log : List (List Char)),
      reversi_write 7 State.init (cmd_start 'O') = .ok (started 'O') ∧
      runLog 7 (started 'O') (movesO ++ [lastO]) = .ok (s, log) ∧
      log.length = 14 ∧ pieces s.gameboard = 18 ∧ (log.filter succeeded).length = 13 := by
  obtain ⟨_, _, _, _, _, _, _, _, _, f10, _, _, _, _, _, _, _, _, _, _, _, f22, _⟩ :=
    gameO_facts
  refine ⟨afterLast, List.replicate 13 OK ++ [response afterLast], start_O,
    runLog_snoc lastO movesO (started 'O') beforeLast afterLast _ gameO_before gameO_last,
    by simp, f22, ?_⟩
  rw [f10]
  decide

/-- C4 at its failing input: in the game `movesO` (in progress, the human's turn) the
move `'O'` at column 0, row 2 is legal and is carried out, yet the response is neither
`OK` nor a game outcome (nor `ILLMOVE`): it is the text of the command. -/
theorem C4_legal_move_without_ok_or_outcome :
    run 7 State.init (cmd_start 'O' :: movesO) = .ok beforeLast ∧
    beforeLast.inProgress ∧ beforeLast.turn = beforeLast.player ∧ beforeLast.player = 'O' ∧
    onBoard 2 0 ∧ beforeLast.gameboard 2 0 = '-' ∧ hasCapture beforeLast.gameboard 2 0 'O' ∧
    ∃ s' : State, reversi_write 7 beforeLast (cmd_place '0' '2') = .ok s' ∧
      s'.gameboard 2 0 = 'O' ∧ response s' = cmd_place '0' '2' ∧
      succeeded (response s') = false ∧ response s' ≠ ILLMOVE := by
  obtain ⟨_, _, f3, f4, f5, f6, f7, _, _, f10, _, _, _, _, _, _, _, _, _, _, _, _, f23, _⟩ :=
    gameO_facts
  have hrun : run 7 State.init (cmd_start 'O' :: movesO) = .ok beforeLast := by
    unfold run
    rw [start_O]
    exact runLog_run _ _ _ _ gameO_before
  refine ⟨hrun, f3, f4, f5, by decide, f6, f7, afterLast, gameO_last, f23, f10, ?_, ?_⟩
  · rw [f10]; decide
  · rw [f10]; decide

/-- C5: on a well-formed board, for every cell `(r, c)` of the board (edge and corner cells
included) and piece `p`, the nine-case `check_adj_cells(r, c, p, 1)` returns without fault,
leaves the board as it is, and returns 1 exactly when there are a unit direction `(dr, dc)`
and a `k ≥ 1` such that the cells `(r + i*dr, c + i*dc)`, `1 ≤ i ≤ k`, are on the board
and hold the opponent's piece and the cell with `i = k + 1` is on the board and holds `p`;
otherwise it returns 0. -/
theorem C5_check_adj_cells_dry_run_iff_scan (g : Board) (hg : g.valid) (p : Char)
    (hp : p = 'X' ∨ p = 'O') (r c : Int) (hrc : onBoard r c) (fuel : Nat) (hfuel : 7 ≤ fuel) :
    ∃ v : Int, check_adj_cells fuel g r c p 1 = .ok (g, v) ∧ (v = 0 ∨ v = 1) ∧
      (v = 1 ↔ ∃ d ∈ dirs, ∃ k : Nat, 1 ≤ k ∧
        (∀ i : Nat, 1 ≤ i → i ≤ k →
          onBoard (r + (i : Int) * d.1) (c + (i : Int) * d.2) ∧
          g (r + (i : Int) * d.1) (c + (i : Int) * d.2) = other p) ∧
        onBoard (r + ((k : Int) + 1) * d.1) (c + ((k : Int) + 1) * d.2) ∧
        g (r + ((k : Int) + 1) * d.1) (c + ((k : Int) + 1) * d.2) = p) := by
  obtain ⟨g', v, hrun, ⟨h01, hiff, hdry, _⟩, _⟩ :=
    check_adj_cells_spec hg hp hrc (Or.inr rfl : (1 : Int) = 0 ∨ (1 : Int) = 1) hfuel
  have hg' : g' = g := hdry rfl
  subst hg'
  refine ⟨v, hrun, h01, ?_⟩
  rw [hiff]
  constructor
  · rintro (h | ⟨d, hd, k, hk1, hrunk, hon, hpc⟩)
    · exact absurd h (by decide)
    · refine ⟨d, hd, k, hk1, ?_, hon, hpc⟩
      intro i h1 h2
      have := hrunk (i - 1) (by omega)
      have hi : ((i - 1 : Nat) : Int) + 1 = (i : Int) := by omega
      rw [hi] at this
      exact this
  · rintro ⟨d, hd, k, hk1, hrunk, hon, hpc⟩
    refine Or.inr ⟨d, hd, k, hk1, ?_, hon, hpc⟩
    intro i hi
    have := hrunk (i + 1) (by omega) (by omega)
    push_cast at this
    exact this

/-- Witness of C5 at a corner and at an interior cell of the initial layout. -/
theorem C5_check_adj_cells_dry_run_iff_scan_witness :
    (∃ v : Int, check_adj_cells 7 initial_board 0 0 'O' 1 = .ok (initial_board, v) ∧
      (v = 0 ∨ v = 1) ∧
      (v = 1 ↔ ∃ d ∈ dirs, ∃ k : Nat, 1 ≤ k ∧
        (∀ i : Nat, 1 ≤ i → i ≤ k →
          onBoard (0 + (i : Int) * d.1) (0 + (i : Int) * d.2) ∧
          initial_board (0 + (i : Int) * d.1) (0 + (i : Int) * d.2) = other 'O') ∧
        onBoard (0 + ((k : Int) + 1) * d.1) (0 + ((k : Int) + 1) * d.2) ∧
        initial_board (0 + ((k : Int) + 1) * d.1) (0 + ((k : Int) + 1) * d.2) = 'O')) ∧
    observe (check_adj_cells 7 initial_board 0 0 'O' 1) = some (initial_board.toList, 0) ∧
    observe (check_adj_cells 7 initial_board 2 4 'O' 1) = some (initial_board.toList, 1) :=
  ⟨C5_check_adj_cells_dry_run_iff_scan initial_board (by decide) 'O' (Or.inr rfl) 0 0
    (by decide) 7 (le_refl 7), by decide, by decide⟩

/-- C6 at its failing input: at the end of the game `movesO`, `lastO` the human plays
`'O'`, `'O'` holds 18 cells and `'X'` none, and `count_pieces` returns the state as it is:
nothing is written, the buffer still holds the text of the last command, not `WIN`. -/
theorem C6_count_pieces_silent_when_O_wins :
    ∃ s : State, run 7 State.init (cmd_start 'O' :: (movesO ++ [lastO])) = .ok s ∧
      s.player = 'O' ∧ s.bot = 'X' ∧
      countOf s.gameboard 'X' = 0 ∧ countOf s.gameboard 'O' = 18 ∧
      count_pieces s = .ok s ∧ response s = lastO ∧ lastO ≠ WIN := by
  obtain ⟨_, _, _, _, _, _, _, _, _, f10, _, _, _, _, f15, f16, _, _, _, f20, f21, _⟩ :=
    gameO_facts
  exact ⟨afterLast, gameO_run, f15, f16, f20, f21,
    count_pieces_silent afterLast f15 f16 (by rw [f20, f21]; decide), f10, by decide⟩

/-- C7 at its failing input: the human's move `lastO` succeeds and leaves neither side a
legal move; the session becomes inactive, but the response is not an outcome of the
scorer (nor `OK`): it is the text of the command. -/
theorem C7_game_end_without_outcome :
    beforeLast.inProgress ∧ beforeLast.turn = beforeLast.player ∧
    ∃ s' : State, reversi_write 7 beforeLast lastO = .ok s' ∧
      ¬ hasMove s'.gameboard 'X' ∧ ¬ hasMove s'.gameboard 'O' ∧
      s'.game_flag = 0 ∧ s'.game_print_end = 1 ∧ response s' = lastO ∧
      response s' ≠ WIN ∧ response s' ≠ LOSE ∧ response s' ≠ TIE ∧ response s' ≠ OK := by
  obtain ⟨_, _, f3, f4, _, _, _, _, _, f10, _, f12, f13, _, _, _, f17, f18, _⟩ := gameO_facts
  refine ⟨f3, f4, afterLast, gameO_last, f17, f18, f12, f13, f10, ?_, ?_, ?_, ?_⟩ <;>
    (rw [f10]; decide)

/-- C8: in a game in progress with the turn on the bot's side, `BotMove` plays at the first
cell in row-major order that is empty and has a capture for the bot: the new board is the
one `check_adj_cells` produces for the bot's piece at that cell. When no empty cell has a
capture for the bot the answer is `ILLMOVE` and the game state is unchanged. -/
theorem C8_bot_move_first_legal (s : State) (h : s.inProgress) (hturn : s.turn = s.bot)
    (fuel : Nat) (hfuel : 7 ≤ fuel) :
    (∀ r c : Int, onBoard r c → s.gameboard r c = '-' → hasCapture s.gameboard r c s.bot →
      (∀ rc ∈ cells, (rc.1 < r ∨ (rc.1 = r ∧ rc.2 < c)) →
        ¬ (s.gameboard rc.1 rc.2 = '-' ∧ hasCapture s.gameboard rc.1 rc.2 s.bot)) →
      ∃ (g' : Board) (s' : State),
        check_adj_cells fuel s.gameboard r c s.bot 0 = .ok (g', 1) ∧
        reversi_write fuel s cmd_bot = .ok s' ∧ s'.gameboard = g') ∧
    (¬ hasMove s.gameboard s.bot →
      ∃ s' : State, reversi_write fuel s cmd_bot = .ok s' ∧ response s' = ILLMOVE ∧
        s'.gameboard = s.gameboard ∧ s'.turn = s.turn ∧ s'.player = s.player ∧
        s'.bot = s.bot ∧ s'.game_flag = s.game_flag ∧
        s'.game_print_end = s.game_print_end) := by
  obtain ⟨hflag, hg, hpl, hbot, _⟩ := h
  have hbp : s.bot = 'X' ∨ s.bot = 'O' := by rw [hbot]; exact other_piece hpl
  have htp : s.turn = 'X' ∨ s.turn = 'O' := by rw [hturn]; exact hbp
  constructor
  · intro r c hrc he hcap hfirst
    rw [← hturn] at hcap hfirst
    obtain ⟨g', hplace, hg'⟩ := check_adj_cells_some hg htp hrc hcap hfuel
    obtain ⟨preC, postC, hsplitC, hpreC⟩ := idx8_split hrc.2.2.1 hrc.2.2.2
    obtain ⟨preR, postR, hsplitR, hpreR⟩ := idx8_split hrc.1 hrc.2.1
    obtain ⟨s2, hfin, hs2g, _⟩ := finish_move_spec
      (s := { s with kern_buf := '0' :: '3' :: '\n' :: s.kern_buf.drop 3, gameboard := g' })
      hg' hpl hbp hfuel s.player
    have hinner := bot_inner_hit hfuel (i := r)
      { s with kern_buf := '0' :: '3' :: '\n' :: s.kern_buf.drop 3 } hg htp postC hrc he hplace
      preC
      (fun j hj => ⟨hrc.1, hrc.2.1, (hpreC j hj).1, by have := (hpreC j hj).2; have := hrc.2.2.2; omega⟩)
      (fun j hj => hfirst (r, j)
        (mem_cells.2 ⟨hrc.1, hrc.2.1, (hpreC j hj).1,
          by have := (hpreC j hj).2; have := hrc.2.2.2; omega⟩)
        (Or.inr ⟨rfl, (hpreC j hj).2⟩))
    rw [← hsplitC] at hinner
    have hinner' : bot_inner fuel r idx8
        { s with kern_buf := '0' :: '3' :: '\n' :: s.kern_buf.drop 3 } 0 = .ok (s2, 1) := by
      rw [hinner]
      have : finish_move fuel
          { s with kern_buf := '0' :: '3' :: '\n' :: s.kern_buf.drop 3, gameboard := g' }
          s.player = .ok s2 := hfin
      simp only [this]
    have houter := bot_outer_hit hfuel
      { s with kern_buf := '0' :: '3' :: '\n' :: s.kern_buf.drop 3 } hg htp postR hinner' preR
      (fun i hi => ⟨(hpreR i hi).1, by have := (hpreR i hi).2; have := hrc.2.1; omega⟩)
      (fun i hi j hj => hfirst (i, j)
        (mem_cells.2 ⟨(hpreR i hi).1, by have := (hpreR i hi).2; have := hrc.2.1; omega,
          (mem_idx8.1 hj).1, (mem_idx8.1 hj).2⟩)
        (Or.inl (hpreR i hi).2))
    rw [← hsplitR] at houter
    refine ⟨g', s2, ?_, ?_, hs2g⟩
    · rw [← hturn]; exact hplace
    · rw [write_bot_of hturn hflag houter, if_neg (by decide)]
  · intro hnm
    rw [← hturn] at hnm
    have houter := bot_outer_miss hfuel
      { s with kern_buf := '0' :: '3' :: '\n' :: s.kern_buf.drop 3 } hg htp idx8
      (fun i hi => mem_idx8.1 hi)
      (fun i hi j hj hleg => hnm ⟨(i, j),
        mem_cells.2 ⟨(mem_idx8.1 hi).1, (mem_idx8.1 hi).2, (mem_idx8.1 hj).1, (mem_idx8.1 hj).2⟩,
        hleg⟩)
    refine ⟨_, write_bot_of hturn hflag houter, ?_⟩
    rw [if_pos rfl]
    exact ⟨rfl, rfl, rfl, rfl, rfl, rfl, rfl⟩

/-- Witness of C8. After `StartGame('O')` the bot (`'X'`) plays at `(2,3)`, the first
legal cell in row-major order (the others are `(3,2)`, `(4,5)`, `(5,4)`). In the position
reached by `stuckTrace` the bot has no legal move and `BotMove` is answered `ILLMOVE`. -/
theorem C8_bot_move_first_legal_witness :
    ((started 'O').inProgress ∧ (started 'O').turn = (started 'O').bot ∧
      ∃ (g' : Board) (s' : State),
        check_adj_cells 7 (started 'O').gameboard 2 3 (started 'O').bot 0 = .ok (g', 1) ∧
        reversi_write 7 (started 'O') cmd_bot = .ok s' ∧ s'.gameboard = g') ∧
    (valueOf (reversi_write 7 (started 'O') cmd_bot)).gameboard.toList =
      "-------------------X-------XX------XO---------------------------".toList ∧
    (stuckState.inProgress ∧ stuckState.turn = stuckState.bot ∧
      ¬ hasMove stuckState.gameboard stuckState.bot ∧
      ∃ s' : State, reversi_write 7 stuckState cmd_bot = .ok s' ∧ response s' = ILLMOVE ∧
        s'.gameboard = stuckState.gameboard ∧ s'.turn = stuckState.turn ∧
        s'.player = stuckState.player ∧ s'.bot = stuckState.bot ∧
        s'.game_flag = stuckState.game_flag ∧
        s'.game_print_end = stuckState.game_print_end) := by
  obtain ⟨a1, a2, a3, a4, _⟩ := first_bot_move_facts
  obtain ⟨_, b2, b3, b4, b5, _⟩ := stuck_facts
  have hb : ¬ hasMove stuckState.gameboard stuckState.bot := by rw [b4]; exact b5
  exact ⟨⟨a1, rfl, (C8_bot_move_first_legal (started 'O') a1 rfl 7 (le_refl 7)).1 2 3
      (by decide) rfl a2 a3⟩, a4,
    ⟨b2, b3, hb, (C8_bot_move_first_legal stuckState b2 b3 7 (le_refl 7)).2 hb⟩⟩

/-- C9: in a game in progress `SkipTurn` never changes the board (nor the players or the
flags). When the side to move has no legal move the answer is `OK` and the turn passes to
the other side; when it has a legal move the answer is `ILLMOVE` and the turn stays. -/
theorem C9_skip_turn (s : State) (h : s.inProgress) (fuel : Nat) (hfuel : 7 ≤ fuel) :
    ∃ s' : State, reversi_write fuel s cmd_skip = .ok s' ∧
      s'.gameboard = s.gameboard ∧ s'.player = s.player ∧ s'.bot = s.bot ∧
      s'.game_flag = s.game_flag ∧ s'.game_print_end = s.game_print_end ∧
      (¬ hasMove s.gameboard s.turn →
        response s' = OK ∧ s'.turn ≠ s.turn ∧
        (s.turn = s.player → s'.turn = s.bot) ∧ (s.turn = s.bot → s'.turn = s.player)) ∧
      (hasMove s.gameboard s.turn → response s' = ILLMOVE ∧ s'.turn = s.turn) := by
  obtain ⟨hflag, hg, hpl, hbot, hturn⟩ := h
  have hbp : s.bot = 'X' ∨ s.bot = 'O' := by rw [hbot]; exact other_piece hpl
  have hne : s.bot ≠ s.player := by rw [hbot]; exact other_ne hpl
  have htp : s.turn = 'X' ∨ s.turn = 'O' := by
    rcases hturn with h | h <;> rw [h] <;> assumption
  obtain ⟨v, hv, hv01, hviff⟩ := check_for_valid_moves_spec hg htp hfuel
  unfold reversi_write start
  rcases hv01 with h0 | h1
  · -- no legal move: the turn passes
    subst h0
    have hnm : ¬ hasMove s.gameboard s.turn := fun hm => absurd (hviff.2 hm) (by decide)
    rcases hturn with ht | ht
    · refine ⟨{ s with kern_buf := output (cmd_skip ++ s.kern_buf.drop 3) OK 2, turn := s.bot },
        ?_, rfl, rfl, rfl, rfl, rfl, fun _ => ⟨rfl, ?_, fun _ => rfl, fun hb => ?_⟩,
        fun hm => absurd hm hnm⟩
      · rw [ht] at hv
        simp [cmd_skip, State.out, hflag, hv, ht]
      · show s.bot ≠ s.turn
        rw [ht]; exact hne
      · exact absurd (ht.symm.trans hb) hne.symm
    · refine ⟨{ s with kern_buf := output (cmd_skip ++ s.kern_buf.drop 3) OK 2, turn := s.player },
        ?_, rfl, rfl, rfl, rfl, rfl, fun _ => ⟨rfl, ?_, fun hp' => ?_, fun _ => rfl⟩,
        fun hm => absurd hm hnm⟩
      · rw [ht] at hv
        simp [cmd_skip, State.out, hflag, hv, ht, hne]
      · show s.player ≠ s.turn
        rw [ht]; exact hne.symm
      · exact absurd (ht.symm.trans hp') hne
  · -- a legal move exists: refused
    subst h1
    refine ⟨{ s with kern_buf := output (cmd_skip ++ s.kern_buf.drop 3) ILLMOVE 7 },
      ?_, rfl, rfl, rfl, rfl, rfl, fun hnm => absurd (hviff.1 rfl) hnm, fun _ => ⟨rfl, rfl⟩⟩
    simp [cmd_skip, State.out, hflag, hv]

/-- Witness of C9. `SkipTurn` right after `StartGame('X')` is answered `ILLMOVE` and the
turn is still `'X'`. In the position reached by `stuckTrace` the side to move (the bot) has
no legal move, and `SkipTurn` is answered `OK` with the turn passing to the human. -/
theorem C9_skip_turn_witness :
    ((started 'X').inProgress ∧ hasMove (started 'X').gameboard (started 'X').turn ∧
      ∃ s' : State, reversi_write 7 (started 'X') cmd_skip = .ok s' ∧
        s'.gameboard = (started 'X').gameboard ∧
        response s' = ILLMOVE ∧ s'.turn = (started 'X').turn) ∧
    (match run 7 State.init [cmd_start 'X', cmd_skip] with
      | .ok s => some (response s, s.turn, s.gameboard.toList)
      | .error _ => none) = some (ILLMOVE, 'X', initial_board.toList) ∧
    (stuckState.inProgress ∧ ¬ hasMove stuckState.gameboard stuckState.turn ∧
      stuckState.turn = stuckState.bot ∧
      ∃ s' : State, reversi_write 7 stuckState cmd_skip = .ok s' ∧
        s'.gameboard = stuckState.gameboard ∧
        response s' = OK ∧ s'.turn = stuckState.player) := by
  have a1 : (started 'X').inProgress := by decide
  have a2 : hasMove (started 'X').gameboard (started 'X').turn := by decide
  obtain ⟨s1, h1, h2, _, _, _, _, _, h8⟩ := C9_skip_turn (started 'X') a1 7 (le_refl 7)
  obtain ⟨_, b2, b3, b4, b5, _⟩ := stuck_facts
  have hb : ¬ hasMove stuckState.gameboard stuckState.turn := by rw [b3, b4]; exact b5
  obtain ⟨s2, k1, k2, _, _, _, _, k7, _⟩ := C9_skip_turn stuckState b2 7 (le_refl 7)
  exact ⟨⟨a1, a2, s1, h1, h2, (h8 a2).1, (h8 a2).2⟩, by decide,
    ⟨b2, hb, b3, s2, k1, k2, (k7 hb).1, (k7 hb).2.2.2 b3⟩⟩

/-- C10 (as amended): once the session is inactive (`game_flag = 0`, as after the end of a
game) a `PlaceMove` is answered `NO GAME` when `turn` is the human's side and `OOT`
otherwise, a `BotMove` is answered `NO GAME` when `turn` is the bot's side and `OOT`
otherwise; neither changes the game state. The move that ends a game leaves `turn` on the
side that made it (`finish_move_spec`). -/
theorem C10_after_end_nogame_or_oot (s : State) (hflag : s.game_flag = 0) (col row : Char)
    (fuel : Nat) :
    (∃ s1 : State, reversi_write fuel s (cmd_place col row) = .ok s1 ∧
      response s1 = (if s.turn = s.player then NOGAME else OOT) ∧
      s1.gameboard = s.gameboard ∧ s1.turn = s.turn ∧ s1.player = s.player ∧
      s1.bot = s.bot ∧ s1.game_flag = s.game_flag ∧ s1.game_print_end = s.game_print_end) ∧
    (∃ s2 : State, reversi_write fuel s cmd_bot = .ok s2 ∧
      response s2 = (if s.turn = s.bot then NOGAME else OOT) ∧
      s2.gameboard = s.gameboard ∧ s2.turn = s.turn ∧ s2.player = s.player ∧
      s2.bot = s.bot ∧ s2.game_flag = s.game_flag ∧ s2.game_print_end = s.game_print_end) :=
  ⟨⟨_, write_place_inactive fuel s hflag col row, response_out_cases _ _,
      rfl, rfl, rfl, rfl, rfl, rfl⟩,
   ⟨_, write_bot_inactive fuel s hflag, response_out_cases _ _, rfl, rfl, rfl, rfl, rfl, rfl⟩⟩

/-- Counterexample to C10 as stated: the game `movesO`, `lastO` is ended by the human's
move (neither side can move, the session is inactive), and the `BotMove` that follows is
answered `OOT`, not `NO GAME`. -/
theorem C10_counterexample_bot_move_oot :
    ∃ s : State, run 7 State.init (cmd_start 'O' :: (movesO ++ [lastO])) = .ok s ∧
      s.game_flag = 0 ∧ s.game_print_end = 1 ∧
      ¬ hasMove s.gameboard 'X' ∧ ¬ hasMove s.gameboard 'O' ∧
      (reversi_write 7 s cmd_bot).toOption.map response = some OOT ∧ OOT ≠ NOGAME := by
  obtain ⟨_, _, _, _, _, _, _, _, _, _, _, f12, f13, _, _, _, f17, f18, _, _, _, _, _, _,
    f25, _⟩ := gameO_facts
  exact ⟨afterLast, gameO_run, f12, f13, f17, f18, f25, by decide⟩

/-- Witness of C10 (as amended) on the game `movesO`, `lastO`, which the human ends: the
session is inactive and `turn` is the human's side. -/
theorem C10_after_end_nogame_or_oot_witness :
    (afterLast.game_flag = 0 ∧ afterLast.turn = afterLast.player) ∧
    ((∃ s1 : State, reversi_write 7 afterLast (cmd_place '3' '3') = .ok s1 ∧
      response s1 = (if afterLast.turn = afterLast.player then NOGAME else OOT) ∧
      s1.gameboard = afterLast.gameboard ∧ s1.turn = afterLast.turn ∧
      s1.player = afterLast.player ∧ s1.bot = afterLast.bot ∧
      s1.game_flag = afterLast.game_flag ∧ s1.game_print_end = afterLast.game_print_end) ∧
    (∃ s2 : State, reversi_write 7 afterLast cmd_bot = .ok s2 ∧
      response s2 = (if afterLast.turn = afterLast.bot then NOGAME else OOT) ∧
      s2.gameboard = afterLast.gameboard ∧ s2.turn = afterLast.turn ∧
      s2.player = afterLast.player ∧ s2.bot = afterLast.bot ∧
      s2.game_flag = afterLast.game_flag ∧ s2.game_print_end = afterLast.game_print_end)) := by
  obtain ⟨_, _, _, _, _, _, _, _, _, _, _, f12, _, f14, f15, _⟩ := gameO_facts
  exact ⟨⟨f12, f14.trans f15.symm⟩, C10_after_end_nogame_or_oot afterLast f12 '3' '3' 7⟩

/-- C11 (as amended): after a game has ended (`game_print_end = 1`) `PrintBoard` returns
the final snapshot, and a second `PrintBoard` with no `StartGame` in between returns it
again: no command but `StartGame` resets `game_print_end`. Neither changes the game
state. On a well-formed board the snapshot is also the C string read back. -/
theorem C11_print_after_end_repeats (s : State) (hend : s.game_print_end = 1) (fuel : Nat) :
    ∃ s1 s2 : State, reversi_write fuel s cmd_print = .ok s1 ∧
      reversi_write fuel s1 cmd_print = .ok s2 ∧
      s1.kern_buf.take 67 = snapshot s ∧ s2.kern_buf.take 67 = snapshot s ∧
      sameGame s s1 ∧ sameGame s s2 ∧
      ((∀ ch ∈ snapshot s, ch ≠ '\x00') → response s1 = snapshot s ∧ response s2 = snapshot s) :=
  print_twice s hend fuel

/-- Counterexample to C11 as stated: after the game `movesO`, `lastO` has ended, the
second `PrintBoard` in a row is answered with the final snapshot, not with `NO GAME`. -/
theorem C11_counterexample_second_print :
    ∃ s s1 s2 : State, run 7 State.init (cmd_start 'O' :: (movesO ++ [lastO])) = .ok s ∧
      s.game_flag = 0 ∧ s.game_print_end = 1 ∧
      reversi_write 7 s cmd_print = .ok s1 ∧ reversi_write 7 s1 cmd_print = .ok s2 ∧
      response s2 =
        "------O------OO-OOOOOOO----OOOOO--OOO---------------------------\tO\n".toList ∧
      response s2 ≠ NOGAME := by
  obtain ⟨_, _, _, _, _, _, _, _, _, _, _, f12, f13, _⟩ := gameO_facts
  have hz : ∀ ch ∈ snapshot afterLast, ch ≠ '\x00' := by
    rw [afterLast_snapshot]; decide
  obtain ⟨s1, s2, h1, h2, _, _, _, _, hresp⟩ := print_twice afterLast f13 7
  have hr := (hresp hz).2
  exact ⟨afterLast, s1, s2, gameO_run, f12, f13, h1, h2, hr.trans afterLast_snapshot, fun hc =>
    absurd ((afterLast_snapshot.symm.trans hr.symm).trans hc) (by decide)⟩

/-- Witness of C11 (as amended) at the end of the game `movesO`, `lastO`. -/
theorem C11_print_after_end_repeats_witness :
    afterLast.game_print_end = 1 ∧ (∀ ch ∈ snapshot afterLast, ch ≠ '\x00') ∧
    ∃ s1 s2 : State, reversi_write 7 afterLast cmd_print = .ok s1 ∧
      reversi_write 7 s1 cmd_print = .ok s2 ∧
      s1.kern_buf.take 67 = snapshot afterLast ∧ s2.kern_buf.take 67 = snapshot afterLast ∧
      sameGame afterLast s1 ∧ sameGame afterLast s2 ∧
      ((∀ ch ∈ snapshot afterLast, ch ≠ '\x00') →
        response s1 = snapshot afterLast ∧ response s2 = snapshot afterLast) := by
  obtain ⟨_, _, _, _, _, _, _, _, _, _, _, _, f13, _⟩ := gameO_facts
  have hz : ∀ ch ∈ snapshot afterLast, ch ≠ '\x00' := by
    rw [afterLast_snapshot]; decide
  exact ⟨f13, hz, C11_print_after_end_repeats afterLast f13 7⟩

/-- C12: for every state, every command line and every amount of fuel, if the write
returns and the response read back is one of the error texts `INVFMT`, `NO GAME`, `OOT`,
`ILLMOVE`, then the board, `turn`, `player`, `bot`, `game_flag` and `game_print_end` are
what they were before the command. -/
theorem C12_error_leaves_game_state (fuel : Nat) (s : State) (ubuf : List Char) (s' : State)
    (h : reversi_write fuel s ubuf = .ok s')
    (herr : response s' = INVFMT ∨ response s' = NOGAME ∨ response s' = OOT ∨
      response s' = ILLMOVE) :
    s'.gameboard = s.gameboard ∧ s'.turn = s.turn ∧ s'.player = s.player ∧ s'.bot = s.bot ∧
    s'.game_flag = s.game_flag ∧ s'.game_print_end = s.game_print_end := by
  unfold reversi_write at h
  dsimp only at h
  generalize hst : start fuel _ _ = res at h
  cases res with
  | error e => exact absurd h (by simp)
  | ok p =>
    obtain ⟨s2, r⟩ := p
    simp only [Except.ok.injEq] at h
    subst h
    have hsame := start_error_frame hst herr
    exact hsame

/-- Witness of C12, one command for each error text: `BotMove` on the human's turn (`OOT`),
a place on an occupied cell (`ILLMOVE`), `PrintBoard` before any game (`NO GAME`), and a
line that does not start with `'0'` (`INVFMT`). -/
theorem C12_error_leaves_game_state_witness :
    (∃ s' : State, reversi_write 7 (started 'X') cmd_bot = .ok s' ∧ response s' = OOT ∧
      s'.gameboard = (started 'X').gameboard ∧ s'.turn = (started 'X').turn ∧
      s'.player = (started 'X').player ∧ s'.bot = (started 'X').bot ∧
      s'.game_flag = (started 'X').game_flag ∧
      s'.game_print_end = (started 'X').game_print_end) ∧
    (∃ s' : State, reversi_write 7 (started 'X') (cmd_place '3' '3') = .ok s' ∧
      response s' = ILLMOVE ∧
      s'.gameboard = (started 'X').gameboard ∧ s'.turn = (started 'X').turn ∧
      s'.player = (started 'X').player ∧ s'.bot = (started 'X').bot ∧
      s'.game_flag = (started 'X').game_flag ∧
      s'.game_print_end = (started 'X').game_print_end) ∧
    (∃ s' : State, reversi_write 7 State.init cmd_print = .ok s' ∧ response s' = NOGAME ∧
      s'.gameboard = State.init.gameboard ∧ s'.turn = State.init.turn ∧
      s'.player = State.init.player ∧ s'.bot = State.init.bot ∧
      s'.game_flag = State.init.game_flag ∧
      s'.game_print_end = State.init.game_print_end) ∧
    (∃ s' : State, reversi_write 7 (started 'O') ['h', 'i', '\n'] = .ok s' ∧
      response s' = INVFMT ∧
      s'.gameboard = (started 'O').gameboard ∧ s'.turn = (started 'O').turn ∧
      s'.player = (started 'O').player ∧ s'.bot = (started 'O').bot ∧
      s'.game_flag = (started 'O').game_flag ∧
      s'.game_print_end = (started 'O').game_print_end) := by
  have h1 := write_bot_oot 7 (started 'X') (by decide)
  have h2 : reversi_write 7 (started 'X') (cmd_place '3' '3') =
      .ok (State.out (State.out { kern_buf := cmd_place '3' '3' ++ (started 'X').kern_buf.drop 7
                                  gameboard := initial_board
                                  turn := 'X'
                                  player := 'X'
                                  bot := 'O'
                                  game_flag := 1
                                  game_print_end := 0 } ILLMOVE 7) ILLMOVE 7) := rfl
  have h3 := write_print_nogame 7 State.init rfl (by decide)
  obtain ⟨s4, h4, hr4, _⟩ := write_bad_head 7 (started 'O') ['h', 'i', '\n'] (Or.inl (by decide))
  exact ⟨⟨_, h1, rfl, C12_error_leaves_game_state 7 (started 'X') cmd_bot _ h1
      (Or.inr (Or.inr (Or.inl rfl)))⟩,
    ⟨_, h2, rfl, C12_error_leaves_game_state 7 (started 'X') (cmd_place '3' '3') _ h2
      (Or.inr (Or.inr (Or.inr rfl)))⟩,
    ⟨_, h3, rfl, C12_error_leaves_game_state 7 State.init cmd_print _ h3
      (Or.inr (Or.inl rfl))⟩,
    ⟨s4, h4, hr4, C12_error_leaves_game_state 7 (started 'O') ['h', 'i', '\n'] s4 h4
      (Or.inl hr4)⟩⟩

/-- C13: in a game in progress, a `PlaceMove` issued while `turn` is the bot's side is
answered `OOT`, whatever the coordinates, and a `BotMove` issued while `turn` is the
human's side is answered `OOT`; the game state is unchanged in both cases. -/
theorem C13_out_of_turn (s : State) (h : s.inProgress) (fuel : Nat) (col row : Char) :
    (s.turn = s.bot → ∃ s' : State, reversi_write fuel s (cmd_place col row) = .ok s' ∧
      response s' = OOT ∧ sameGame s s') ∧
    (s.turn = s.player → ∃ s' : State, reversi_write fuel s cmd_bot = .ok s' ∧
      response s' = OOT ∧ sameGame s s') := by
  obtain ⟨_, _, hpl, hbot, _⟩ := h
  have hne : s.bot ≠ s.player := by rw [hbot]; exact other_ne hpl
  constructor
  · intro ht
    exact ⟨_, write_place_oot fuel s (by rw [ht]; exact hne) col row, rfl,
      ⟨rfl, rfl, rfl, rfl, rfl, rfl⟩⟩
  · intro ht
    exact ⟨_, write_bot_oot fuel s (by rw [ht]; exact hne.symm), rfl,
      ⟨rfl, rfl, rfl, rfl, rfl, rfl⟩⟩

/-- Witness of C13: after `StartGame('O')` the turn is the bot's and a `PlaceMove` is
answered `OOT`; after `StartGame('X')` the turn is the human's and `BotMove` is answered
`OOT`. -/
theorem C13_out_of_turn_witness :
    ((started 'O').inProgress ∧ (started 'O').turn = (started 'O').bot ∧
      ∃ s' : State, reversi_write 7 (started 'O') (cmd_place '3' '2') = .ok s' ∧
        response s' = OOT ∧ sameGame (started 'O') s') ∧
    ((started 'X').inProgress ∧ (started 'X').turn = (started 'X').player ∧
      ∃ s' : State, reversi_write 7 (started 'X') cmd_bot = .ok s' ∧
        response s' = OOT ∧ sameGame (started 'X') s') :=
  ⟨⟨by decide, rfl, (C13_out_of_turn (started 'O') (by decide) 7 '3' '2').1 rfl⟩,
   ⟨by decide, rfl, (C13_out_of_turn (started 'X') (by decide) 7 '3' '2').2 rfl⟩⟩

/-- C14: in the state at module load (all globals zero) `PrintBoard`, `PlaceMove` with any
coordinates, `BotMove` and `SkipTurn` are each answered `NO GAME`, and the game state stays
as it is. -/
theorem C14_no_game_before_start (fuel : Nat) (col row : Char) :
    (∃ s' : State, reversi_write fuel State.init cmd_print = .ok s' ∧
      response s' = NOGAME ∧ sameGame State.init s') ∧
    (∃ s' : State, reversi_write fuel State.init (cmd_place col row) = .ok s' ∧
      response s' = NOGAME ∧ sameGame State.init s') ∧
    (∃ s' : State, reversi_write fuel State.init cmd_bot = .ok s' ∧
      response s' = NOGAME ∧ sameGame State.init s') ∧
    (∃ s' : State, reversi_write fuel State.init cmd_skip = .ok s' ∧
      response s' = NOGAME ∧ sameGame State.init s') :=
  ⟨⟨_, write_print_nogame fuel State.init rfl (by decide), rfl, ⟨rfl, rfl, rfl, rfl, rfl, rfl⟩⟩,
   ⟨_, write_place_inactive fuel State.init rfl col row, rfl, ⟨rfl, rfl, rfl, rfl, rfl, rfl⟩⟩,
   ⟨_, write_bot_inactive fuel State.init rfl, rfl, ⟨rfl, rfl, rfl, rfl, rfl, rfl⟩⟩,
   ⟨_, write_skip_inactive fuel State.init rfl, rfl, ⟨rfl, rfl, rfl, rfl, rfl, rfl⟩⟩⟩

/-- C15: from every state and for either side `'X'` or `'O'`, `StartGame(side)` answers
`OK` and leaves the initial layout (`'O'` at (3,3) and (4,4), `'X'` at (3,4) and (4,3),
every other cell empty, four pieces in all), `player = side`, `bot` the other colour,
`turn = 'X'`, and the session active. -/
theorem C15_start_game_resets (s : State) (side : Char) (hside : side = 'X' ∨ side = 'O')
    (fuel : Nat) :
    ∃ s' : State, reversi_write fuel s (cmd_start side) = .ok s' ∧ response s' = OK ∧
      (∀ r c : Int, s'.gameboard r c =
        if (r = 3 ∧ c = 3) ∨ (r = 4 ∧ c = 4) then 'O'
        else if (r = 3 ∧ c = 4) ∨ (r = 4 ∧ c = 3) then 'X' else '-') ∧
      pieces s'.gameboard = 4 ∧
      s'.player = side ∧ s'.bot = other side ∧ s'.bot ≠ side ∧ s'.turn = 'X' ∧
      s'.game_flag = 1 ∧ s'.game_print_end = 0 :=
  ⟨_, write_start fuel s side hside, rfl, initial_board_cells,
    (by decide : pieces initial_board = 4), rfl, rfl,
    other_ne hside, rfl, rfl, rfl⟩

/-- Witness of C15: `StartGame('O')` issued after the game `movesO`, `lastO` has ended, and
`StartGame('X')` issued at module load. -/
theorem C15_start_game_resets_witness :
    (∃ s' : State, reversi_write 7 afterLast (cmd_start 'O') = .ok s' ∧ response s' = OK ∧
      (∀ r c : Int, s'.gameboard r c =
        if (r = 3 ∧ c = 3) ∨ (r = 4 ∧ c = 4) then 'O'
        else if (r = 3 ∧ c = 4) ∨ (r = 4 ∧ c = 3) then 'X' else '-') ∧
      pieces s'.gameboard = 4 ∧
      s'.player = 'O' ∧ s'.bot = other 'O' ∧ s'.bot ≠ 'O' ∧ s'.turn = 'X' ∧
      s'.game_flag = 1 ∧ s'.game_print_end = 0) ∧
    reversi_write 7 State.init (cmd_start 'X') = .ok (started 'X') ∧
    (started 'X').gameboard.toList =
      "---------------------------OX------XO---------------------------".toList ∧
    (started 'X').turn = 'X' ∧ (started 'X').player = 'X' ∧ (started 'X').bot = 'O' :=
  ⟨C15_start_game_resets afterLast 'O' (Or.inr rfl) 7, rfl, by decide, rfl, rfl, rfl⟩

/-- C16: on a well-formed board `check_for_valid_moves(p)` returns without fault, leaves
the board as it is, and returns 1 exactly when there is an empty cell `(r, c)` of the
board with `check_adj_cells(r, c, p, 1) = 1`; otherwise it returns 0. -/
theorem C16_valid_moves_iff_some_cell (g : Board) (hg : g.valid) (p : Char)
    (hp : p = 'X' ∨ p = 'O') (fuel : Nat) (hfuel : 7 ≤ fuel) :
    ∃ v : Int, check_for_valid_moves fuel g p = .ok (g, v) ∧ (v = 0 ∨ v = 1) ∧
      (v = 1 ↔ ∃ r c : Int, onBoard r c ∧ g r c = '-' ∧
        check_adj_cells fuel g r c p 1 = .ok (g, 1)) := by
  obtain ⟨v, hv, h01, hiff⟩ := check_for_valid_moves_spec hg hp hfuel
  refine ⟨v, hv, h01, ?_⟩
  rw [hiff, hasMove_iff]
  constructor
  · rintro ⟨r, c, hrc, he, hcap⟩
    obtain ⟨w, hw, _, hwiff⟩ := dry_run_iff hg hp hrc hfuel
    have : w = 1 := hwiff.2 hcap
    rw [this] at hw
    exact ⟨r, c, hrc, he, hw⟩
  · rintro ⟨r, c, hrc, he, hrun⟩
    obtain ⟨w, hw, _, hwiff⟩ := dry_run_iff hg hp hrc hfuel
    rw [hrun] at hw
    simp only [Except.ok.injEq, Prod.mk.injEq, true_and] at hw
    exact ⟨r, c, hrc, he, hwiff.1 hw.symm⟩

/-- Witness of C16 on the initial layout: `'X'` has a legal move, at `(2, 3)`. -/
theorem C16_valid_moves_iff_some_cell_witness :
    (∃ v : Int, check_for_valid_moves 7 initial_board 'X' = .ok (initial_board, v) ∧
      (v = 0 ∨ v = 1) ∧
      (v = 1 ↔ ∃ r c : Int, onBoard r c ∧ initial_board r c = '-' ∧
        check_adj_cells 7 initial_board r c 'X' 1 = .ok (initial_board, 1))) ∧
    observe (check_for_valid_moves 7 initial_board 'X') = some (initial_board.toList, 1) ∧
    observe (check_adj_cells 7 initial_board 2 3 'X' 1) = some (initial_board.toList, 1) :=
  ⟨C16_valid_moves_iff_some_cell initial_board (by decide) 'X' (Or.inl rfl) 7 (le_refl 7),
    by decide, by decide⟩

/-- C17: on a well-formed board without a `p` piece, `check_for_valid_moves(p)` returns 0
(and leaves the board as it is). -/
theorem C17_no_piece_no_move (g : Board) (hg : g.valid) (p : Char) (hp : p = 'X' ∨ p = 'O')
    (hnone : ∀ r c : Int, onBoard r c → g r c ≠ p) (fuel : Nat) (hfuel : 7 ≤ fuel) :
    check_for_valid_moves fuel g p = .ok (g, 0) := by
  obtain ⟨v, hv, h01, hiff⟩ := check_for_valid_moves_spec hg hp hfuel
  have hno : ¬ hasMove g p := by
    rintro ⟨rc, _, _, hcap⟩
    exact no_capture_without_piece hnone _ _ hcap
  rcases h01 with h | h
  · rw [hv, h]
  · exact absurd (hiff.1 h) hno

/-- Witness of C17: on the all-empty board `check_for_valid_moves` returns 0 for `'X'` and
for `'O'`. -/
theorem C17_no_piece_no_move_witness :
    check_for_valid_moves 7 empty_board 'X' = .ok (empty_board, 0) ∧
    check_for_valid_moves 7 empty_board 'O' = .ok (empty_board, 0) :=
  ⟨C17_no_piece_no_move empty_board (by decide) 'X' (Or.inl rfl)
      (fun _ _ _ => (by decide : ('-' : Char) ≠ 'X')) 7 (le_refl 7),
   C17_no_piece_no_move empty_board (by decide) 'O' (Or.inr rfl)
      (fun _ _ _ => (by decide : ('-' : Char) ≠ 'O')) 7 (le_refl 7)⟩

/-- C18: when the session is active or has just ended, `PrintBoard` writes 67 bytes: byte
`8*i + j` is cell `(i, j)`, byte 64 a tab, byte 65 `turn`, byte 66 a newline; the game
state is unchanged. On a well-formed board with `turn` set they are the C string read
back. -/
theorem C18_print_board_snapshot (s : State) (h : s.game_flag ≠ 0 ∨ s.game_print_end = 1)
    (fuel : Nat) :
    ∃ s' : State, reversi_write fuel s cmd_print = .ok s' ∧
      s'.kern_buf.take 67 = s.gameboard.toList ++ ['\t', s.turn, '\n'] ∧
      (∀ i j : Nat, i < 8 → j < 8 →
        s'.kern_buf.getD (8 * i + j) '\x00' = s.gameboard (i : Int) (j : Int)) ∧
      s'.kern_buf.getD 64 '\x00' = '\t' ∧ s'.kern_buf.getD 65 '\x00' = s.turn ∧
      s'.kern_buf.getD 66 '\x00' = '\n' ∧
      sameGame s s' ∧
      ((∀ ch ∈ snapshot s, ch ≠ '\x00') → response s' = snapshot s) := by
  refine ⟨_, write_print fuel s h, take_output _ _ 67 (snapshot_length s), ?_, rfl, rfl, rfl,
    ⟨rfl, rfl, rfl, rfl, rfl, rfl⟩,
    fun hz => response_output _ _ 67 (snapshot_length s) (by decide) hz⟩
  intro i j hi hj
  interval_cases i <;> interval_cases j <;> rfl

/-- Witness of C18 right after `StartGame('X')`. -/
theorem C18_print_board_snapshot_witness :
    (∃ s' : State, reversi_write 7 (started 'X') cmd_print = .ok s' ∧
      s'.kern_buf.take 67 =
        (started 'X').gameboard.toList ++ ['\t', (started 'X').turn, '\n'] ∧
      (∀ i j : Nat, i < 8 → j < 8 →
        s'.kern_buf.getD (8 * i + j) '\x00' = (started 'X').gameboard (i : Int) (j : Int)) ∧
      s'.kern_buf.getD 64 '\x00' = '\t' ∧ s'.kern_buf.getD 65 '\x00' = (started 'X').turn ∧
      s'.kern_buf.getD 66 '\x00' = '\n' ∧
      sameGame (started 'X') s' ∧
      ((∀ ch ∈ snapshot (started 'X'), ch ≠ '\x00') → response s' = snapshot (started 'X'))) ∧
    (match reversi_write 7 (started 'X') cmd_print with
      | .ok s' => some (response s')
      | .error _ => none) =
      some "---------------------------OX------XO---------------------------\tX\n".toList :=
  ⟨C18_print_board_snapshot (started 'X') (Or.inl (by decide)) 7, by decide⟩

/-- Counterexample to C19 as stated, four malformed lines that are not answered `INVFMT`.
Right after `StartGame('X')` the place line `02 a b\n`, whose coordinates are letters, is
answered `ILLMOVE`. The line `05\n`, whose opcode does not exist, gets no answer: the
buffer reads back the line itself and the game state is as before. The line `00 X`
without its newline starts a game and is answered `OK`. The line `03\njunk` issued after
`StartGame('O')` makes the bot move (to row 2, column 3) and is answered `OK`. -/
theorem C19_counterexample_malformed_not_invfmt :
    (¬ isAsciiDigit 'a' ∧ ¬ isAsciiDigit 'b' ∧
      ∃ s' : State, run 7 State.init [cmd_start 'X', cmd_place 'a' 'b'] = .ok s' ∧
        response s' = ILLMOVE ∧ response s' ≠ INVFMT) ∧
    (match run 7 State.init [cmd_start 'X', "05\n".toList] with
      | .ok s => some (response s, s.gameboard.toList, s.turn, s.player, s.bot, s.game_flag)
      | .error _ => none) = some ("05\n".toList, initial_board.toList, 'X', 'X', 'O', 1) ∧
    (match run 7 State.init ["00 X".toList] with
      | .ok s => some (response s, s.gameboard.toList, s.turn, s.player, s.bot, s.game_flag)
      | .error _ => none) = some (OK, initial_board.toList, 'X', 'X', 'O', 1) ∧
    (match run 7 State.init [cmd_start 'O', "03\njunk".toList] with
      | .ok s => some (response s, s.gameboard.toList, s.turn)
      | .error _ => none) =
      some (OK, "-------------------X-------XX------XO---------------------------".toList,
        'O') := by
  obtain ⟨s', h2, hr⟩ : ∃ s' : State,
      reversi_write 7 (started 'X') (cmd_place 'a' 'b') = .ok s' ∧ response s' = ILLMOVE :=
    ⟨_, write_place_offboard 7 (started 'X') rfl (by decide) 'a' 'b' (by decide), rfl⟩
  have hrun : run 7 State.init [cmd_start 'X', cmd_place 'a' 'b'] = .ok s' := by
    simp only [run, start_X, h2]
  refine ⟨⟨by decide, by decide, s', hrun, hr, ?_⟩, ?_, ?_, ?_⟩
  · rw [hr]
    decide
  · decide!
  · decide!
  · decide!

/-- C19 (as amended): a command line is answered `INVFMT`, with the game state unchanged,
when it fails one of the format tests of `start` (`failsFormat`: first byte not `'0'`;
more than 7 bytes; `StartGame` with byte 2 not a space or byte 3 neither `'X'` nor `'O'`;
`PrintBoard`, `BotMove`, `SkipTurn` with byte 2 not a newline; `PlaceMove` with byte 2 or
byte 4 not a space or byte 6 not a newline), and, when the first board cell is not the
byte `'I'`, only then. No other malformation is answered `INVFMT`: a line with an opcode
other than `'0'`..`'4'` is not answered at all, and the coordinates of a place line are
not format-tested: for every state a line `02 c r\n` in which `c` or `r` is not an ASCII
digit is answered `OOT` when `turn` is not the human's side, else `NO GAME` when no
session is active, else `ILLMOVE`, never `INVFMT`; the game state is unchanged. -/
theorem C19_format_tests_and_non_digit_place (s : State) (fuel : Nat) :
    (∀ ubuf : List Char, failsFormat (lineBuf s ubuf) ubuf.length →
      ∃ s' : State, reversi_write fuel s ubuf = .ok s' ∧ response s' = INVFMT ∧
        sameGame s s') ∧
    (∀ (ubuf : List Char) (s' : State), reversi_write fuel s ubuf = .ok s' →
      s.gameboard 0 0 ≠ 'I' → response s' = INVFMT →
      failsFormat (lineBuf s ubuf) ubuf.length) ∧
    (∀ ubuf : List Char, (lineBuf s ubuf).getD 0 '\x00' = '0' → ubuf.length ≤ 7 →
      (∀ ch ∈ ['0', '1', '2', '3', '4'], (lineBuf s ubuf).getD 1 '\x00' ≠ ch) →
      reversi_write fuel s ubuf = .ok { s with kern_buf := lineBuf s ubuf }) ∧
    (∀ c r : Char, ¬ isAsciiDigit c ∨ ¬ isAsciiDigit r →
      ∃ s' : State, reversi_write fuel s (cmd_place c r) = .ok s' ∧ sameGame s s' ∧
        response s' =
          (if s.turn ≠ s.player then OOT else if s.game_flag = 0 then NOGAME else ILLMOVE) ∧
        response s' ≠ INVFMT) := by
  refine ⟨write_fails_format fuel s, write_invfmt_only fuel s, write_unknown_opcode fuel s,
    fun c r hnd => ?_⟩
  obtain ⟨s', h1, h2, h3⟩ := write_place_non_digit fuel s c r hnd
  refine ⟨s', h1, h2, h3, ?_⟩
  rw [h3]
  split_ifs <;> decide

/-- Witness of C19 (as amended) right after `StartGame('X')`: the lines `hello\n`,
`02-3-4\n`, `03 \n` and `00 Q\n` fail a format test and are answered `INVFMT`; the line
`05\n` is not answered; the line `02 a 4\n` is answered `ILLMOVE`. -/
theorem C19_format_tests_and_non_digit_place_witness :
    (∃ s' : State, reversi_write 7 (started 'X') "hello\n".toList = .ok s' ∧
      response s' = INVFMT ∧ sameGame (started 'X') s') ∧
    (∃ s' : State, reversi_write 7 (started 'X') "02-3-4\n".toList = .ok s' ∧
      response s' = INVFMT ∧ sameGame (started 'X') s') ∧
    (∃ s' : State, reversi_write 7 (started 'X') "03 \n".toList = .ok s' ∧
      response s' = INVFMT ∧ sameGame (started 'X') s') ∧
    (∃ s' : State, reversi_write 7 (started 'X') "00 Q\n".toList = .ok s' ∧
      response s' = INVFMT ∧ sameGame (started 'X') s') ∧
    reversi_write 7 (started 'X') "05\n".toList =
      .ok { started 'X' with kern_buf := lineBuf (started 'X') "05\n".toList } ∧
    (∃ s' : State, reversi_write 7 (started 'X') (cmd_place 'a' '4') = .ok s' ∧
      sameGame (started 'X') s' ∧ response s' = ILLMOVE ∧ response s' ≠ INVFMT) :=
  ⟨(C19_format_tests_and_non_digit_place (started 'X') 7).1 "hello\n".toList (by decide),
   (C19_format_tests_and_non_digit_place (started 'X') 7).1 "02-3-4\n".toList (by decide),
   (C19_format_tests_and_non_digit_place (started 'X') 7).1 "03 \n".toList (by decide),
   (C19_format_tests_and_non_digit_place (started 'X') 7).1 "00 Q\n".toList (by decide),
   (C19_format_tests_and_non_digit_place (started 'X') 7).2.2.1 "05\n".toList (by decide)
     (by decide) (by decide),
   (C19_format_tests_and_non_digit_place (started 'X') 7).2.2.2 'a' '4' (Or.inl (by decide))⟩

/-- C20: on a well-formed board, for a cell of the board (empty or not) and a piece `p`,
the dry run `check_adj_cells(r, c, p, 1)` and the mutating call `check_adj_cells(r, c, p,
0)` both return without fault and return the same value. -/
theorem C20_dry_run_agrees_with_mutation (g : Board) (hg : g.valid) (p : Char)
    (hp : p = 'X' ∨ p = 'O') (r c : Int) (hrc : onBoard r c) (fuel : Nat) (hfuel : 7 ≤ fuel) :
    ∃ (v : Int) (g' : Board), (v = 0 ∨ v = 1) ∧
      check_adj_cells fuel g r c p 1 = .ok (g, v) ∧
      check_adj_cells fuel g r c p 0 = .ok (g', v) := by
  obtain ⟨v, hv, h01, hiff⟩ := dry_run_iff hg hp hrc hfuel
  by_cases hcap : hasCapture g r c p
  · obtain ⟨g', hg', _⟩ := check_adj_cells_some hg hp hrc hcap hfuel
    have : v = 1 := hiff.2 hcap
    subst this
    exact ⟨1, g', h01, hv, hg'⟩
  · have : v = 0 := by
      rcases h01 with h | h
      · exact h
      · exact absurd (hiff.1 h) hcap
    subst this
    exact ⟨0, g, h01, hv, check_adj_cells_none hg hp hrc hcap hfuel⟩

/-- Witness of C20 on the initial layout: both modes return 1 at `(2, 3)` for `'X'`, where
the last direction is examined after the board changed, and both return 0 at `(0, 0)`. -/
theorem C20_dry_run_agrees_with_mutation_witness :
    (∃ (v : Int) (g' : Board), (v = 0 ∨ v = 1) ∧
      check_adj_cells 7 initial_board 2 3 'X' 1 = .ok (initial_board, v) ∧
      check_adj_cells 7 initial_board 2 3 'X' 0 = .ok (g', v)) ∧
    (observe (check_adj_cells 7 initial_board 2 3 'X' 1)).map Prod.snd = some 1 ∧
    (observe (check_adj_cells 7 initial_board 2 3 'X' 0)).map Prod.snd = some 1 ∧
    (observe (check_adj_cells 7 initial_board 0 0 'X' 1)).map Prod.snd = some 0 ∧
    (observe (check_adj_cells 7 initial_board 0 0 'X' 0)).map Prod.snd = some 0 :=
  ⟨C20_dry_run_agrees_with_mutation initial_board (by decide) 'X' (Or.inl rfl) 2 3
    (by decide) 7 (le_refl 7), by decide, by decide, by decide, by decide⟩

/-- C21: validation is pure. On every board, for every cell and piece, a dry run
`check_adj_cells(r,c,p,1)`, `check_for_valid_moves(p)` and `check_game_end()` return the
board they were given, cell for cell (`turn`, `player` and `bot` are not among the
variables these functions assign: they take the pieces as arguments and return the board
and the result only); so a second dry run on the board left by the first returns the
same result. On a well-formed board, for a cell of the board, the three calls do
return. -/
theorem C21_validation_is_pure (g : Board) (r c : Int) (p : Char) (fuel : Nat) :
    (∀ (g' : Board) (v : Int), check_adj_cells fuel g r c p 1 = .ok (g', v) →
      g' = g ∧ check_adj_cells fuel g' r c p 1 = .ok (g', v)) ∧
    (∀ (g' : Board) (v : Int), check_for_valid_moves fuel g p = .ok (g', v) → g' = g) ∧
    (∀ (player bot : Char) (g' : Board) (e : Int),
      check_game_end fuel g player bot = .ok (g', e) → g' = g) ∧
    (g.valid → (p = 'X' ∨ p = 'O') → onBoard r c → 7 ≤ fuel →
      (∃ v : Int, check_adj_cells fuel g r c p 1 = .ok (g, v)) ∧
      (∃ v : Int, check_for_valid_moves fuel g p = .ok (g, v)) ∧
      (∃ e : Int, check_game_end fuel g p (other p) = .ok (g, e))) := by
  refine ⟨fun g' v h => ?_, fun g' v h => (valid_moves_loop_frame cells h).1,
    fun player bot g' e h => check_game_end_frame h, fun hg hp hrc hfuel => ?_⟩
  · have hg' : g' = g := (check_adj_cells_frame h).2.2 (by decide)
    refine ⟨hg', ?_⟩
    rw [hg']
    rw [hg'] at h
    exact h
  · obtain ⟨v, hv, _⟩ := dry_run_iff hg hp hrc hfuel
    obtain ⟨w, hw, _⟩ := check_for_valid_moves_spec hg hp hfuel
    obtain ⟨e, he, _⟩ := check_game_end_spec hg hp (other_piece hp) hfuel
    exact ⟨⟨v, hv⟩, ⟨w, hw⟩, ⟨e, he⟩⟩

/-- Witness of C21 on the initial layout, for `'X'` at row 2, column 3. -/
theorem C21_validation_is_pure_witness :
    initial_board.valid ∧ onBoard 2 3 ∧
    (∃ v : Int, check_adj_cells 7 initial_board 2 3 'X' 1 = .ok (initial_board, v)) ∧
    (∃ v : Int, check_for_valid_moves 7 initial_board 'X' = .ok (initial_board, v)) ∧
    (∃ e : Int, check_game_end 7 initial_board 'X' (other 'X') = .ok (initial_board, e)) ∧
    check_adj_cells 7 initial_board 2 3 'X' 1 = .ok (initial_board, 1) :=
  ⟨by decide, by decide,
    ((C21_validation_is_pure initial_board 2 3 'X' 7).2.2.2 (by decide) (Or.inl rfl)
      (by decide) (le_refl 7)).1,
    ((C21_validation_is_pure initial_board 2 3 'X' 7).2.2.2 (by decide) (Or.inl rfl)
      (by decide) (le_refl 7)).2.1,
    ((C21_validation_is_pure initial_board 2 3 'X' 7).2.2.2 (by decide) (Or.inl rfl)
      (by decide) (le_refl 7)).2.2, rfl⟩

/-- C22: well-formedness is an invariant of the command state machine. From any state, a
`StartGame` with side `'X'` or `'O'` followed by any sequence of command lines (of any
content) returns, and in the state reached every board cell is one of `'-'`, `'X'`,
`'O'`, `player` and `bot` are the two distinct colours, and `turn` is `player` or
`bot`. -/
theorem C22_well_formed_invariant (fuel : Nat) (hfuel : 7 ≤ fuel) (s0 : State) (side : Char)
    (hside : side = 'X' ∨ side = 'O') (cmds : List (List Char)) :
    ∃ s : State, run fuel s0 (cmd_start side :: cmds) = .ok s ∧
      (∀ r c : Int, onBoard r c →
        s.gameboard r c = '-' ∨ s.gameboard r c = 'X' ∨ s.gameboard r c = 'O') ∧
      (s.player = 'X' ∨ s.player = 'O') ∧ (s.bot = 'X' ∨ s.bot = 'O') ∧
      s.bot ≠ s.player ∧ (s.turn = s.player ∨ s.turn = s.bot) := by
  obtain ⟨s, hrun, ⟨hg, hpl, hbot, hturn⟩, _⟩ := game_playable hfuel s0 hside cmds
  refine ⟨s, hrun, fun r c hrc => valid_cell hg hrc, hpl, ?_, ?_, hturn⟩
  · rw [hbot]; exact other_piece hpl
  · rw [hbot]; exact other_ne hpl

/-- Witness of C22: a game started at module load with a bot move out of turn, a place, a
malformed line, a bot move and a second start command. -/
theorem C22_well_formed_invariant_witness :
    ∃ s : State,
      run 7 State.init (cmd_start 'X' ::
        [cmd_bot, cmd_place '3' '2', "hello\n".toList, cmd_bot, cmd_start 'O']) = .ok s ∧
      (∀ r c : Int, onBoard r c →
        s.gameboard r c = '-' ∨ s.gameboard r c = 'X' ∨ s.gameboard r c = 'O') ∧
      (s.player = 'X' ∨ s.player = 'O') ∧ (s.bot = 'X' ∨ s.bot = 'O') ∧
      s.bot ≠ s.player ∧ (s.turn = s.player ∨ s.turn = s.bot) :=
  C22_well_formed_invariant 7 (le_refl 7) State.init 'X' (Or.inl rfl)
    [cmd_bot, cmd_place '3' '2', "hello\n".toList, cmd_bot, cmd_start 'O']

/-- C23: on a well-formed board, for a piece `'X'` or `'O'`, an origin on the board and an
adjacent cell of the board holding the opponent's piece, `check_and_flip` returns in both
modes with 7 iterations allowed to each loop (and with any larger allowance, with the
same result). The scan reports a capture exactly when a run of opponent cells ends in a
cell holding `p`, and in mutating mode the flip loop then rewrites the origin and the
cells of that run only, leaving the terminating cell and everything else as it was
(`DirEffect`). The precondition is needed: on `odd_board` the scan never returns. -/
theorem C23_check_and_flip_terminates (g : Board) (hg : g.valid) (p : Char)
    (hp : p = 'X' ∨ p = 'O') (r c : Int) (hrc : onBoard r c) (d : Int × Int) (hd : d ∈ dirs)
    (hnb : onBoard (r + d.1) (c + d.2)) (hopp : g (r + d.1) (c + d.2) = other p)
    (validate : Int) (hv : validate = 0 ∨ validate = 1) :
    (∃ (g' : Board) (v : Int),
      check_and_flip 7 g r c (r + d.1) (c + d.2) p validate = .ok (g', v) ∧
      DirEffect g r c p d validate g' v ∧
      ∀ fuel : Nat, 7 ≤ fuel →
        check_and_flip fuel g r c (r + d.1) (c + d.2) p validate = .ok (g', v)) ∧
    (¬ odd_board.valid ∧
      ∀ (fuel : Nat) (w : Int),
        check_and_flip fuel odd_board 0 0 0 1 'X' w = .error .outOfFuel) := by
  obtain ⟨g', v, hrun, heff⟩ := check_and_flip_spec hg hp hrc hd hnb hopp hv (le_refl 7)
  refine ⟨⟨g', v, hrun, heff, fun fuel hfuel => ?_⟩, by decide, odd_board_stuck⟩
  obtain ⟨g2, v2, hrun2, heff2⟩ := check_and_flip_spec hg hp hrc hd hnb hopp hv hfuel
  obtain ⟨e1, e2⟩ := dirEffect_unique hv heff heff2
  rw [hrun2, e1, e2]

/-- Witness of C23 on the initial layout: `'X'` placed at (2,3) looks down at the `'O'` on
(3,3); in mutating mode the call returns 1 with 7 iterations allowed. -/
theorem C23_check_and_flip_terminates_witness :
    initial_board.valid ∧ onBoard 2 3 ∧ onBoard (2 + 1) (3 + 0) ∧
    initial_board (2 + 1) (3 + 0) = other 'X' ∧
    (∃ (g' : Board) (v : Int),
      check_and_flip 7 initial_board 2 3 (2 + 1) (3 + 0) 'X' 0 = .ok (g', v) ∧
      DirEffect initial_board 2 3 'X' (1, 0) 0 g' v ∧
      ∀ fuel : Nat, 7 ≤ fuel →
        check_and_flip fuel initial_board 2 3 (2 + 1) (3 + 0) 'X' 0 = .ok (g', v)) ∧
    (match check_and_flip 7 initial_board 2 3 3 3 'X' 0 with
      | .ok (g', v) => some (g'.toList, v)
      | .error _ => none) =
      some ("-------------------X-------XX------XO---------------------------".toList, 1) :=
  ⟨by decide, by decide, by decide, by decide,
    (C23_check_and_flip_terminates initial_board (by decide) 'X' (Or.inl rfl) 2 3
      (by decide) (1, 0) (by decide) (by decide) (by decide) 0 (Or.inl rfl)).1,
    by decide⟩

/-- C24: on a well-formed board, for a piece `'X'` or `'O'` and an origin on the board,
no read or write of `gameboard` made by `check_adj_cells`, in either mode, uses an index
outside 0..7 (every access of the embedding is bounds-checked and would fault): with any
fuel the call does not fault on an index, and with 7 iterations allowed to each loop it
returns. The same holds for `check_and_flip` called on an adjacent cell of the board that
holds the opponent's piece, flip loop included. -/
theorem C24_accesses_within_board (g : Board) (hg : g.valid) (p : Char)
    (hp : p = 'X' ∨ p = 'O') (r c : Int) (hrc : onBoard r c)
    (validate : Int) (hv : validate = 0 ∨ validate = 1) (fuel : Nat) :
    check_adj_cells fuel g r c p validate ≠ .error .outOfBounds ∧
    (7 ≤ fuel → ∃ (g' : Board) (v : Int),
      check_adj_cells fuel g r c p validate = .ok (g', v)) ∧
    (∀ d ∈ dirs, onBoard (r + d.1) (c + d.2) → g (r + d.1) (c + d.2) = other p →
      check_and_flip fuel g r c (r + d.1) (c + d.2) p validate ≠ .error .outOfBounds ∧
      (7 ≤ fuel → ∃ (g' : Board) (v : Int),
        check_and_flip fuel g r c (r + d.1) (c + d.2) p validate = .ok (g', v))) := by
  refine ⟨fun hbad => ?_, fun hfuel => ?_, fun d hd hnb hopp => ⟨fun hbad => ?_, fun hfuel => ?_⟩⟩
  · have hm : check_adj_cells (fuel + 7) g r c p validate =
        check_adj_cells fuel g r c p validate :=
      check_adj_cells_mono (Nat.le_add_right fuel 7) (by rw [hbad]; exact fun hc => by cases hc)
    obtain ⟨g2, v2, hrun, _⟩ := check_adj_cells_spec hg hp hrc hv (Nat.le_add_left 7 fuel)
    rw [hm, hbad] at hrun
    cases hrun
  · obtain ⟨g2, v2, hrun, _⟩ := check_adj_cells_spec hg hp hrc hv hfuel
    exact ⟨g2, v2, hrun⟩
  · have hm : check_and_flip (fuel + 7) g r c (r + d.1) (c + d.2) p validate =
        check_and_flip fuel g r c (r + d.1) (c + d.2) p validate :=
      check_and_flip_mono (Nat.le_add_right fuel 7) (by rw [hbad]; exact fun hc => by cases hc)
    obtain ⟨g2, v2, hrun, _⟩ :=
      check_and_flip_spec hg hp hrc hd hnb hopp hv (Nat.le_add_left 7 fuel)
    rw [hm, hbad] at hrun
    cases hrun
  · obtain ⟨g2, v2, hrun, _⟩ := check_and_flip_spec hg hp hrc hd hnb hopp hv hfuel
    exact ⟨g2, v2, hrun⟩

/-- Witness of C24 on the initial layout, for `'X'` at (2,3) in mutating mode. -/
theorem C24_accesses_within_board_witness :
    initial_board.valid ∧ onBoard 2 3 ∧
    check_adj_cells 7 initial_board 2 3 'X' 0 ≠ .error .outOfBounds ∧
    (7 ≤ 7 → ∃ (g' : Board) (v : Int),
      check_adj_cells 7 initial_board 2 3 'X' 0 = .ok (g', v)) ∧
    (∀ d ∈ dirs, onBoard (2 + d.1) (3 + d.2) → initial_board (2 + d.1) (3 + d.2) = other 'X' →
      check_and_flip 7 initial_board 2 3 (2 + d.1) (3 + d.2) 'X' 0 ≠ .error .outOfBounds ∧
      (7 ≤ 7 → ∃ (g' : Board) (v : Int),
        check_and_flip 7 initial_board 2 3 (2 + d.1) (3 + d.2) 'X' 0 = .ok (g', v))) :=
  ⟨by decide, by decide,
    C24_accesses_within_board initial_board (by decide) 'X' (Or.inl rfl) 2 3 (by decide) 0
      (Or.inl rfl) 7⟩

/-- C25: from any state, a `StartGame` followed by any sequence of command lines returns,
and in the state reached, if the session is active (`game_flag` not 0), at least one of
the two sides has a legal move; consequently two `SkipTurn` commands issued in a row from
there both return and are not both answered `OK`. -/
theorem C25_active_session_has_move (fuel : Nat) (hfuel : 7 ≤ fuel) (s0 : State)
    (side : Char) (hside : side = 'X' ∨ side = 'O') (cmds : List (List Char)) :
    ∃ s : State, run fuel s0 (cmd_start side :: cmds) = .ok s ∧
      (s.game_flag ≠ 0 → hasMove s.gameboard s.player ∨ hasMove s.gameboard s.bot) ∧
      ∃ s1 s2 : State, reversi_write fuel s cmd_skip = .ok s1 ∧
        reversi_write fuel s1 cmd_skip = .ok s2 ∧
        ¬ (response s1 = OK ∧ response s2 = OK) := by
  obtain ⟨s, hrun, hp⟩ := game_playable hfuel s0 hside cmds
  exact ⟨s, hrun, hp.2.2, skip_twice hfuel hp⟩

/-- Witness of C25 on the game `stuckTrace`, after which the bot has no legal move and the
human has one. -/
theorem C25_active_session_has_move_witness :
    ∃ s : State, run 7 State.init (cmd_start 'X' :: stuckTrace.tail) = .ok s ∧
      (s.game_flag ≠ 0 → hasMove s.gameboard s.player ∨ hasMove s.gameboard s.bot) ∧
      ∃ s1 s2 : State, reversi_write 7 s cmd_skip = .ok s1 ∧
        reversi_write 7 s1 cmd_skip = .ok s2 ∧
        ¬ (response s1 = OK ∧ response s2 = OK) :=
  C25_active_session_has_move 7 (le_refl 7) State.init 'X' (Or.inl rfl) stuckTrace.tail

/-- C26: every successful placement captures at least one piece. On a well-formed board,
for a piece `'X'` or `'O'` and an empty cell of the board, if `check_adj_cells(r,c,p,0)`
returns 1 then the number of `p` cells has grown by at least 2, the number of opponent
cells has shrunk by at least 1, and the growth of `p` is one more than the loss of the
opponent. -/
theorem C26_placement_captures (g : Board) (hg : g.valid) (p : Char) (hp : p = 'X' ∨ p = 'O')
    (r c : Int) (hrc : onBoard r c) (he : g r c = '-') (fuel : Nat) (g' : Board)
    (h : check_adj_cells fuel g r c p 0 = .ok (g', 1)) :
    countOf g p + 2 ≤ countOf g' p ∧
    countOf g' (other p) + 1 ≤ countOf g (other p) ∧
    countOf g' p - countOf g p = (countOf g (other p) - countOf g' (other p)) + 1 := by
  obtain ⟨n, hn, h1, h2⟩ := placement_counts hg hp hrc he h
  omega

/-- Witness of C26 on the initial layout: `'X'` placed at (2,3) takes the `'O'` on (3,3);
the call returns 1 and leaves four `'X'` and one `'O'` where there were two of each. -/
theorem C26_placement_captures_witness :
    initial_board.valid ∧ onBoard 2 3 ∧ initial_board 2 3 = '-' ∧
    (∃ g' : Board, check_adj_cells 7 initial_board 2 3 'X' 0 = .ok (g', 1) ∧
      countOf initial_board 'X' + 2 ≤ countOf g' 'X' ∧
      countOf g' (other 'X') + 1 ≤ countOf initial_board (other 'X') ∧
      countOf g' 'X' - countOf initial_board 'X' =
        (countOf initial_board (other 'X') - countOf g' (other 'X')) + 1) ∧
    (match check_adj_cells 7 initial_board 2 3 'X' 0 with
      | .ok (g', v) => some (v, countOf g' 'X', countOf g' 'O')
      | .error _ => none) = some (1, 4, 1) ∧
    countOf initial_board 'X' = 2 ∧ countOf initial_board 'O' = 2 := by
  obtain ⟨g', h, _⟩ := check_adj_cells_some (g := initial_board) (by decide)
    (Or.inl rfl : 'X' = 'X' ∨ 'X' = 'O') (r := 2) (c := 3) (by decide) (by decide)
    (le_refl 7)
  exact ⟨by decide, by decide, rfl,
    ⟨g', h, C26_placement_captures initial_board (by decide) 'X' (Or.inl rfl) 2 3 (by decide)
      rfl 7 g' h⟩, by decide, by decide, by decide⟩

end Reversi
